import Mathlib

/-!
GRPolyRen lookup-table generator: embedding and checked properties

Shallow embedding of the offline generator (`genlookup/`) and of the loader
`LUT::Load` (`src/LUT.cpp`).

Modelling conventions.

* A C++ `double` is an element of an arbitrary linearly ordered field `K`
  (exact arithmetic; rounding, infinities and NaN are not modelled).  All
  definitions are computable and can be run at `K = ℚ`.
* The functions of the C math library that the generator calls (`sqrt`, `sin`,
  `cos`, `asin`, `pow`) are the fields of a parameter `Libm K`.
* `unsigned int` values are natural numbers, reduced modulo `2^32` wherever the
  source computes with them; an `int` is an integer.
* A `float` is its 32-bit pattern (`F32`); the conversion
  `static_cast<float>(double)` is a parameter `toFloat : K → F32`.
* A local variable that the source reads before assigning it is an explicit
  parameter holding its indeterminate initial value.
* Loops that the source does not bound (`for (;;)` in `rkqs`, the wrapping
  counter of `integrate`) take a fuel argument and return `none` when it runs
  out; bounded loops are total functions.
-/

namespace GRPolyRen

/-- The C math library functions used by the generator. -/
structure Libm (K : Type) where
  /-- The function `sqrt`. -/
  sqrt : K → K
  /-- The function `sin`. -/
  sin : K → K
  /-- The function `cos`. -/
  cos : K → K
  /-- The function `asin`. -/
  asin : K → K
  /-- The function `pow`. -/
  pow : K → K → K

/-- A state array `double y[Nvar]` with `Nvar = 6`: `[t, r, phi, u_t, u_r, u_phi]`. -/
abbrev Vec (K : Type) := Fin 6 → K

section Doubles

variable {K : Type} [LinearOrderedField K]

/-! ## nrRungeKutta.h -/

/-- Macro `MAX(x, y) ((x) > (y) ? (x) : (y))`. -/
def MAX (x y : K) : K := if x > y then x else y

/-- Macro `MIN(x, y) ((x) < (y) ? (x) : (y))`. -/
def MIN (x y : K) : K := if x < y then x else y

/-- Constant `SAFETY 0.9`. -/
def SAFETY : K := 9 / 10
/-- Constant `PGROW -0.2`. -/
def PGROW : K := -(2 / 10)
/-- Constant `PSHRNK -0.25`. -/
def PSHRNK : K := -(25 / 100)
/-- Constant `ERRCON 1.89e-4`. -/
def ERRCON : K := 189 / 1000000
/-- Constant `TINY 1.0e-30`. -/
def TINY : K := 1 / 10 ^ 30

/-- Cash-Karp node `a2 = 0.2`. -/
def a2 : K := 2 / 10
/-- Cash-Karp node `a3 = 0.3`. -/
def a3 : K := 3 / 10
/-- Cash-Karp node `a4 = 0.6`. -/
def a4 : K := 6 / 10
/-- Cash-Karp node `a5 = 1.0`. -/
def a5 : K := 1
/-- Cash-Karp node `a6 = 0.875`. -/
def a6 : K := 875 / 1000
/-- Coefficient `b21 = 0.2`. -/
def b21 : K := 2 / 10
/-- Coefficient `b31 = 3.0 / 40.0`. -/
def b31 : K := 3 / 40
/-- Coefficient `b32 = 9.0 / 40.0`. -/
def b32 : K := 9 / 40
/-- Coefficient `b41 = 0.3`. -/
def b41 : K := 3 / 10
/-- Coefficient `b42 = -0.9`. -/
def b42 : K := -(9 / 10)
/-- Coefficient `b43 = 1.2`. -/
def b43 : K := 12 / 10
/-- Coefficient `b51 = -11.0 / 54.0`. -/
def b51 : K := -11 / 54
/-- Coefficient `b52 = 2.5`. -/
def b52 : K := 25 / 10
/-- Coefficient `b53 = -70.0 / 27.0`. -/
def b53 : K := -70 / 27
/-- Coefficient `b54 = 35.0 / 27.0`. -/
def b54 : K := 35 / 27
/-- Coefficient `b61 = 1631.0 / 55296.0`. -/
def b61 : K := 1631 / 55296
/-- Coefficient `b62 = 175.0 / 512.0`. -/
def b62 : K := 175 / 512
/-- Coefficient `b63 = 575.0 / 13824.0`. -/
def b63 : K := 575 / 13824
/-- Coefficient `b64 = 44275.0 / 110592.0`. -/
def b64 : K := 44275 / 110592
/-- Coefficient `b65 = 253.0 / 4096.0`. -/
def b65 : K := 253 / 4096
/-- Weight `c1 = 37.0 / 378.0`. -/
def c1 : K := 37 / 378
/-- Weight `c3 = 250.0 / 621.0`. -/
def c3 : K := 250 / 621
/-- Weight `c4 = 125.0 / 594.0`. -/
def c4 : K := 125 / 594
/-- Weight `c6 = 512.0 / 1771.0`. -/
def c6 : K := 512 / 1771
/-- Error weight `dc5 = -277.0 / 14336.0`. -/
def dc5 : K := -277 / 14336
/-- Error weight `dc1 = c1 - 2825.0 / 27648.0`. -/
def dc1 : K := c1 - 2825 / 27648
/-- Error weight `dc3 = c3 - 18575.0 / 48384.0`. -/
def dc3 : K := c3 - 18575 / 48384
/-- Error weight `dc4 = c4 - 13525.0 / 55296.0`. -/
def dc4 : K := c4 - 13525 / 55296
/-- Error weight `dc6 = c6 - 0.25`. -/
def dc6 : K := c6 - 25 / 100

/-! ## nrRungeKutta.cpp -/

/-- Function `rkck`: one Cash-Karp step from `(x, y)` with slope `dydx` and step
`h`; returns `(yout, yerr)`. -/
def rkck (y dydx : Vec K) (x h : K) (derivs : K → Vec K → Vec K) : Vec K × Vec K :=
  let ytemp1 : Vec K := fun i => y i + h * b21 * dydx i
  let ak2 := derivs (x + a2 * h) ytemp1
  let ytemp2 : Vec K := fun i => y i + h * (b31 * dydx i + b32 * ak2 i)
  let ak3 := derivs (x + a3 * h) ytemp2
  let ytemp3 : Vec K := fun i => y i + h * (b41 * dydx i + b42 * ak2 i + b43 * ak3 i)
  let ak4 := derivs (x + a4 * h) ytemp3
  let ytemp4 : Vec K := fun i =>
    y i + h * (b51 * dydx i + b52 * ak2 i + b53 * ak3 i + b54 * ak4 i)
  let ak5 := derivs (x + a5 * h) ytemp4
  let ytemp5 : Vec K := fun i =>
    y i + h * (b61 * dydx i + b62 * ak2 i + b63 * ak3 i + b64 * ak4 i + b65 * ak5 i)
  let ak6 := derivs (x + a6 * h) ytemp5
  (fun i => y i + h * (c1 * dydx i + c3 * ak3 i + c4 * ak4 i + c6 * ak6 i),
   fun i => h * (dc1 * dydx i + dc3 * ak3 i + dc4 * ak4 i + dc5 * ak5 i + dc6 * ak6 i))

/-- The scaled error of `rkqs`: `errmax = max_i fabs(yerr[i] / yscal[i])`,
accumulated from `0.0` with `MAX`, then divided by `eps`. -/
def rkqsErrmax (yerr yscal : Vec K) (eps : K) : K :=
  (List.finRange 6).foldl (fun errmax i => MAX errmax |yerr i / yscal i|) 0 / eps

/-- The retry loop `for (;;)` of `rkqs`, started with trial step `h`: returns
the accepted step, its `errmax` and `ytemp`, or `none` when the fuel runs out
before a trial is accepted. -/
def rkqsLoop (m : Libm K) (y dydx : Vec K) (x eps : K) (yscal : Vec K)
    (derivs : K → Vec K → Vec K) : Nat → K → Option (K × K × Vec K)
  | 0, _ => none
  | fuel + 1, h =>
    let r := rkck y dydx x h derivs
    let errmax := rkqsErrmax r.2 yscal eps
    if errmax ≤ 1 then some (h, errmax, r.1)
    else
      let htemp := SAFETY * h * m.pow errmax PSHRNK
      rkqsLoop m y dydx x eps yscal derivs fuel
        (if h ≥ 0 then MAX htemp (1 / 10 * h) else MIN htemp (1 / 10 * h))

/-- What `rkqs` leaves in `y`, `*x`, `hdid` and `hnext`. -/
structure RkqsOut (K : Type) where
  /-- The array `y` after the call. -/
  y : Vec K
  /-- The value of `*x` after the call. -/
  x : K
  /-- The step that was taken. -/
  hdid : K
  /-- The suggested next step. -/
  hnext : K

/-- Function `rkqs`: quality-controlled Cash-Karp step. -/
def rkqs (m : Libm K) (fuel : Nat) (y dydx : Vec K) (x htry eps : K) (yscal : Vec K)
    (derivs : K → Vec K → Vec K) : Option (RkqsOut K) :=
  match rkqsLoop m y dydx x eps yscal derivs fuel htry with
  | none => none
  | some (h, errmax, ytemp) =>
    some { y := ytemp
           x := x + h
           hdid := h
           hnext := if errmax > ERRCON then SAFETY * h * m.pow errmax PGROW else 5 * h }

/-- Function `interpolate`: `yres[i] = yprev[i] * (1.0 - t) + t * y[i]`. -/
def interpolate (y yprev : Vec K) (t : K) : Vec K :=
  fun i => yprev i * (1 - t) + t * y i

/-- What `integrate` returns and what it leaves in the caller's `ystart`. -/
structure IntegrateOut (K : Type) where
  /-- The returned flag `valid`. -/
  valid : Bool
  /-- The caller's array `ystart` after the call. -/
  ystart : Vec K

/-- The `for (unsigned int nstp = 1; nstp <= maxSteps; nstp++)` loop of
`integrate`.  `bound` is `maxSteps` converted to `unsigned int` by the
comparison; the counter wraps modulo `2^32`.  A callback `found` receives the
current value of the local `t` and returns its flag with the new value of `t`.
The loop state is `nstp`, `y`, `x`, `h` and `t`. -/
def integrateLoop (m : Libm K) (rfuel : Nat) (ystart ymax : Vec K) (bound : Nat) (eps : K)
    (derivs : K → Vec K → Vec K) (breakCond : Vec K → Bool)
    (found : Vec K → Vec K → Vec K → K → Bool × K) :
    Nat → Nat → Vec K → K → K → K → Option (IntegrateOut K)
  | 0, _, _, _, _, _ => none
  | fuel + 1, nstp, y, x, h, t =>
    if nstp ≤ bound then
      let dydx := derivs x y
      let yprev := y
      let yscal : Vec K := fun i => |y i| + |dydx i * h| + TINY
      match rkqs m rfuel y dydx x h eps yscal derivs with
      | none => none
      | some r =>
        if breakCond r.y then some ⟨false, ystart⟩
        else
          let f := found r.y yprev ymax t
          if f.1 then some ⟨true, interpolate r.y yprev f.2⟩
          else
            integrateLoop m rfuel ystart ymax bound eps derivs breakCond found fuel
              ((nstp + 1) % 4294967296) r.y r.x r.hnext f.2
    else some ⟨false, ystart⟩

/-- Function `integrate`.  `t0` is the indeterminate initial value of the local
`t`; `rfuel` bounds the retries inside each `rkqs` call and `fuel` the number of
loop iterations.  The parameter `hmin` is not used by the source. -/
def integrate (m : Libm K) (rfuel fuel : Nat) (t0 : K) (ystart ymax : Vec K) (maxSteps : Int)
    (eps h1 _hmin : K) (derivs : K → Vec K → Vec K) (breakCond : Vec K → Bool)
    (found : Vec K → Vec K → Vec K → K → Bool × K) : Option (IntegrateOut K) :=
  integrateLoop m rfuel ystart ymax (maxSteps % 4294967296).toNat eps derivs breakCond found
    fuel 1 ystart 0 h1 t0

/-! ## The loop of `integrate`, pass by pass -/

/-- The variables of `integrate` after a pass through its loop body: the state
`y` after the step, the state `yprev` before it, `x`, the step `h = hnext` for the
next pass, the local `t` and the flag returned by `found`. -/
structure StepState (K : Type) where
  /-- The state after the step. -/
  y : Vec K
  /-- The state before the step. -/
  yprev : Vec K
  /-- The independent variable after the step. -/
  x : K
  /-- The step size for the next pass. -/
  h : K
  /-- The local `t` after the call of `found`. -/
  t : K
  /-- The flag returned by `found`. -/
  crossed : Bool

/-- One pass through the loop body of `integrate` (slope, scaling, `rkqs`,
`found`), without the two tests that leave the loop. -/
def integrateStep (m : Libm K) (rfuel : Nat) (ymax : Vec K) (eps : K)
    (derivs : K → Vec K → Vec K) (found : Vec K → Vec K → Vec K → K → Bool × K)
    (s : StepState K) : Option (StepState K) :=
  let dydx := derivs s.x s.y
  let yscal : Vec K := fun i => |s.y i| + |dydx i * s.h| + TINY
  match rkqs m rfuel s.y dydx s.x s.h eps yscal derivs with
  | none => none
  | some r =>
    let f := found r.y s.y ymax s.t
    some { y := r.y, yprev := s.y, x := r.x, h := r.hnext, t := f.2, crossed := f.1 }

/-- The variables of `integrate` after `k` passes started from `s`, when every
`rkqs` call on the way returns. -/
def stateAfter (m : Libm K) (rfuel : Nat) (ymax : Vec K) (eps : K)
    (derivs : K → Vec K → Vec K) (found : Vec K → Vec K → Vec K → K → Bool × K) :
    Nat → StepState K → Option (StepState K)
  | 0, s => some s
  | k + 1, s => (integrateStep m rfuel ymax eps derivs found s).bind
      (stateAfter m rfuel ymax eps derivs found k)

/-- The variables of `integrate` on entry to its loop. -/
def startState (t0 : K) (ystart : Vec K) (h1 : K) : StepState K :=
  { y := ystart, yprev := ystart, x := 0, h := h1, t := t0, crossed := false }

/-- Step `k` is the first crossing: `found` holds after step `k`, `breakCond` is
false after each of the steps `1..k`, and `found` is false after each of the
steps `1..k-1`; `s` is the state after step `k`. -/
def CrossesAt (m : Libm K) (rfuel : Nat) (ymax : Vec K) (eps : K)
    (derivs : K → Vec K → Vec K) (breakCond : Vec K → Bool)
    (found : Vec K → Vec K → Vec K → K → Bool × K) (s0 : StepState K) (k : Nat)
    (s : StepState K) : Prop :=
  stateAfter m rfuel ymax eps derivs found k s0 = some s ∧ s.crossed = true ∧
    breakCond s.y = false ∧
    ∀ j, 1 ≤ j → j < k → ∃ sj, stateAfter m rfuel ymax eps derivs found j s0 = some sj ∧
      breakCond sj.y = false ∧ sj.crossed = false

/-- The loop of `integrate` with `n` passes left, written on `StepState`. -/
def integrateRun (m : Libm K) (rfuel : Nat) (ystart ymax : Vec K) (eps : K)
    (derivs : K → Vec K → Vec K) (breakCond : Vec K → Bool)
    (found : Vec K → Vec K → Vec K → K → Bool × K) :
    Nat → StepState K → Option (IntegrateOut K)
  | 0, _ => some ⟨false, ystart⟩
  | n + 1, s =>
    match integrateStep m rfuel ymax eps derivs found s with
    | none => none
    | some s1 =>
      if breakCond s1.y then some ⟨false, ystart⟩
      else if s1.crossed then some ⟨true, interpolate s1.y s1.yprev s1.t⟩
      else integrateRun m rfuel ystart ymax eps derivs breakCond found n s1

/-! ## schwarzschild.cpp -/

/-- Constant `rs = 2.0` (both translation units define it). -/
def rs : K := 2

/-- Constant `PI = 3.141592653589793` of `helper.h`. -/
def PI : K := 3141592653589793 / 1000000000000000

/-- Function `schwarzschild_breakCondition`, with `eps = 1e-2` and
`rmax = 1000.0`. -/
def schwarzschild_breakCondition (y : Vec K) : Bool :=
  decide (|y 1| < rs + 1 / 100 ∨ |y 1| > 1000)

/-- Function `schwarzschild_derivs`. -/
def schwarzschild_derivs (m : Libm K) (_x : K) (y : Vec K) : Vec K :=
  let r := y 1
  let ut := y 3
  let ur := y 4
  let up := y 5
  ![y 3, y 4, y 5,
    -rs / (r * (r - rs)) * ut * ur,
    -(1 / 2) * rs * (r - rs) / m.pow r 3 * ut * ut + 1 / 2 * rs / (r * (r - rs)) * ur * ur
      + (r - rs) * up * up,
    -2 / r * ur * up]

/-- Function `schwarzschild_found`: the flag, and the value of `t` after the
call (written only when the flag is true). -/
def schwarzschild_found (y yprev yend : Vec K) (t : K) : Bool × K :=
  if y 2 > yend 2 then (true, (yend 2 - yprev 2) / (y 2 - yprev 2)) else (false, t)

/-- Function `schwarzschild_initialize`: the returned flag and the array `y`. -/
def schwarzschild_initialize (m : Libm K) (r ksi : K) : Bool × Vec K :=
  let w := m.sqrt (1 - rs / r)
  let dt := -1 / w
  let dr := m.cos ksi * w
  let dp := m.sin ksi / r
  let y : Vec K := ![0, r, 0, dt, dr, dp]
  (schwarzschild_breakCondition y, y)

/-- Function `schwarzschild_ksiCrit`. -/
def schwarzschild_ksiCrit (m : Libm K) (r : K) : K :=
  let sk2 := 675 / 100 * rs * rs / (r * r) * (1 - rs / r)
  m.asin (m.sqrt sk2)

/-! ## main.cpp: the shooting search -/

/-- Constant `MaxRandomTries = 3000`. -/
def MaxRandomTries : Nat := 3000
/-- Constant `MaxTries = 200`. -/
def MaxTries : Nat := 200
/-- Constant `HitRadiusSphere = 1e-5`. -/
def HitRadiusSphere : K := 1 / 100000
/-- Constant `ksi_eps = 1e-9`. -/
def ksi_eps : K := 1 / 1000000000
/-- Constant `MaxNumSteps = 10000`. -/
def MaxNumSteps : Int := 10000
/-- Constant `eps_abs = 1e-10`. -/
def eps_abs : K := 1 / 10000000000

/-- The values a call of `calcGeodesicUpTo` returns and leaves in `dr`, `dt`
and `u`. -/
structure GeoOut (K : Type) where
  /-- The returned flag `isValid`. -/
  valid : Bool
  /-- The value left in `dr`. -/
  dr : K
  /-- The value left in `dt`. -/
  dt : K
  /-- The array `u` after the call. -/
  u : K × K

/-- Function `calcGeodesicUpTo`.  The argument `integ` stands for the call
`integrate(y, ymax, MaxNumSteps, eps_abs, 0.01, 1e-8, schwarzschild_derivs,
schwarzschild_breakCondition, schwarzschild_found)` as a function of `y` and
`ymax`, assumed to return; `u` is the caller's array on entry. -/
def calcGeodesicUpTo (m : Libm K) (integ : Vec K → Vec K → IntegrateOut K)
    (rInit ksi rFinal phiFinal : K) (u : K × K) : GeoOut K :=
  let dr : K := 1000000000000
  let dt : K := 1000000000000
  let ymax : Vec K := ![10000000000, rFinal, phiFinal, 0, 0, 0]
  let start := schwarzschild_initialize m rInit ksi
  let res := integ start.2 ymax
  if res.valid then
    let y := res.ystart
    let r := y 1
    let phi := y 2
    let ur := y 4
    let up := y 5
    { valid := true
      dr := y 1 - rFinal
      dt := y 0
      u := (ur * m.cos phi - up * r * m.sin phi, ur * m.sin phi + up * r * m.cos phi) }
  else { valid := false, dr := dr, dt := dt, u := u }

/-- Function `calcFlatKsi`. -/
def calcFlatKsi (m : Libm K) (rInit rFinal phiFinal : K) : K :=
  let d2 := rInit * rInit + rFinal * rFinal - 2 * rInit * rFinal * m.cos phiFinal
  let d := m.sqrt d2
  m.asin (rInit / d * m.sin phiFinal)

/-- The trial variables of one iteration of the search loop: `validC`, `ksiC`,
`drC`, `dtC`, `uC`, `randomCount`, and the number `rng` of values drawn so far
from the global generator `dis(gen)`. -/
structure Trial (K : Type) where
  /-- The flag `validC`. -/
  validC : Bool
  /-- The trial angle `ksiC`. -/
  ksiC : K
  /-- The radial mismatch `drC`. -/
  drC : K
  /-- The travel time `dtC`. -/
  dtC : K
  /-- The exit direction `uC`. -/
  uC : K × K
  /-- The counter `randomCount`. -/
  randomCount : Nat
  /-- The number of random values drawn so far. -/
  rng : Nat

/-- The inner loop `while (!validC && randomCount < MaxRandomTries)` of
`findGeodesic`.  `geo ksi u` is `calcGeodesicUpTo(rInit, ksi, rFinal, phiFinal,
..)` called with the array `u`; `draws n` is the `n`-th value of `dis(gen)`. -/
def randomLoop (geo : K → K × K → GeoOut K) (draws : Nat → K) (ksiA ksiB : K)
    (s : Trial K) : Trial K :=
  if h : s.validC = false ∧ s.randomCount < MaxRandomTries then
    let g := geo s.ksiC s.uC
    if g.valid = false then
      let t := draws s.rng
      randomLoop geo draws ksiA ksiB
        { validC := false, ksiC := ksiA * (1 - t) + t * ksiB, drC := g.dr, dtC := g.dt,
          uC := g.u, randomCount := s.randomCount + 1, rng := s.rng + 1 }
    else
      randomLoop geo draws ksiA ksiB
        { validC := true, ksiC := s.ksiC, drC := g.dr, dtC := g.dt,
          uC := g.u, randomCount := s.randomCount, rng := s.rng }
  else s
termination_by (if s.validC = true then 0 else MaxRandomTries + 1 - s.randomCount)
decreasing_by
  all_goals simp_wf
  all_goals simp only [h.1, Bool.false_eq_true, if_false]
  all_goals omega

/-- The local variables of `findGeodesic` that the search loop reads or
writes. -/
structure Search (K : Type) where
  /-- Bracket endpoint `ksiA`. -/
  ksiA : K
  /-- Bracket endpoint `ksiB`. -/
  ksiB : K
  /-- The trial angle `ksiC`. -/
  ksiC : K
  /-- Mismatch `drA`. -/
  drA : K
  /-- Mismatch `drB`. -/
  drB : K
  /-- Mismatch `drC`. -/
  drC : K
  /-- Travel time `dtA`. -/
  dtA : K
  /-- Travel time `dtB`. -/
  dtB : K
  /-- Travel time `dtC`. -/
  dtC : K
  /-- The exit direction `uC`. -/
  uC : K × K
  /-- The iteration counter `count`. -/
  count : Nat
  /-- The number of random values drawn so far. -/
  rng : Nat

/-- The outer loop of `findGeodesic`:
`while (fabs(drA - drB) > eps_radius && fabs(ksiA - ksiB) > ksi_eps && count < MaxTries)`.
`flatKsi` is the value of `calcFlatKsi(rInit, rFinal, phiFinal)`. -/
def searchLoop (geo : K → K × K → GeoOut K) (draws : Nat → K) (flatKsi : K)
    (s : Search K) : Search K :=
  if h : |s.drA - s.drB| > HitRadiusSphere ∧ |s.ksiA - s.ksiB| > ksi_eps ∧ s.count < MaxTries then
    let ksiC := if s.count = 0 then flatKsi else (s.ksiA + s.ksiB) * (1 / 2)
    let tr := randomLoop geo draws s.ksiA s.ksiB
      { validC := false, ksiC := ksiC, drC := s.drC, dtC := s.dtC, uC := s.uC,
        randomCount := 0, rng := s.rng }
    if |tr.drC| < 1 / 1000000000000000 ∧ tr.validC = true then
      { s with ksiC := tr.ksiC, drC := tr.drC, dtC := tr.dtC, uC := tr.uC, rng := tr.rng }
    else if tr.drC * s.drA < 0 then
      searchLoop geo draws flatKsi
        { s with ksiC := tr.ksiC, drC := tr.drC, dtC := tr.dtC, uC := tr.uC, rng := tr.rng,
                 ksiB := tr.ksiC, drB := tr.drC, dtB := tr.dtC, count := s.count + 1 }
    else
      searchLoop geo draws flatKsi
        { s with ksiC := tr.ksiC, drC := tr.drC, dtC := tr.dtC, uC := tr.uC, rng := tr.rng,
                 ksiA := tr.ksiC, drA := tr.drC, dtA := tr.dtC, count := s.count + 1 }
  else s
termination_by MaxTries - s.count
decreasing_by
  all_goals simp_wf
  all_goals omega

/-- The indeterminate initial values of the locals `ksiC`, `drC`, `dtC`, `uC`,
`uA` and `uB` of `findGeodesic`, which the source declares without
initialising. -/
structure Uninit (K : Type) where
  /-- Initial content of `ksiC`. -/
  ksiC : K
  /-- Initial content of `drC`. -/
  drC : K
  /-- Initial content of `dtC`. -/
  dtC : K
  /-- Initial content of `uC`. -/
  uC : K × K
  /-- Initial content of `uA`. -/
  uA : K × K
  /-- Initial content of `uB`. -/
  uB : K × K

/-- What `findGeodesic` returns and leaves in `ksi`, `dt`, `derr`, `cnt`, `u`,
with the number of random values drawn so far. -/
structure FindOut (K : Type) where
  /-- The returned flag. -/
  valid : Bool
  /-- The value left in `ksi`. -/
  ksi : K
  /-- The value left in `dt`. -/
  dt : K
  /-- The value left in `derr`. -/
  derr : K
  /-- The value left in `cnt`. -/
  cnt : Nat
  /-- The array `u` after the call. -/
  u : K × K
  /-- The number of random values drawn so far. -/
  rng : Nat

/-- Function `findGeodesic`, started when `rng` random values have been drawn. -/
def findGeodesic (m : Libm K) (integ : Vec K → Vec K → IntegrateOut K) (draws : Nat → K)
    (junk : Uninit K) (order : Int) (rInit rFinal phiFinal : K) (rng : Nat) : FindOut K :=
  let ksiCrit := schwarzschild_ksiCrit m rInit
  let ksiA : K := if order = 0 then 0 else PI / 2
  let ksiB : K := if order = 0 then PI else PI - ksiCrit
  let gA := calcGeodesicUpTo m integ rInit ksiA rFinal phiFinal junk.uA
  let gB := calcGeodesicUpTo m integ rInit ksiB rFinal phiFinal junk.uB
  let drA : K := if !gA.valid then 10000000000 else gA.dr
  let drB : K := if !gB.valid then -10000000000 else gB.dr
  let s := searchLoop (calcGeodesicUpTo m integ rInit · rFinal phiFinal) draws
    (calcFlatKsi m rInit rFinal phiFinal)
    { ksiA := ksiA, ksiB := ksiB, ksiC := junk.ksiC, drA := drA, drB := drB, drC := junk.drC,
      dtA := gA.dt, dtB := gB.dt, dtC := junk.dtC, uC := junk.uC, count := 0, rng := rng }
  { valid := decide (s.count < MaxTries), ksi := s.ksiC, dt := s.dtC, derr := s.drC,
    cnt := s.count, u := s.uC, rng := s.rng }

/-! ## main.cpp: the grid and the table buffers -/

/-- A `float`, as its 32-bit pattern. -/
abbrev F32 := Fin 4294967296

/-- The step `xStep = (xmax - xmin) / (Nr - 1)` of `genLUT`, with `xmin = rs / rmax`,
`xmax = rs / rmin` and `Nr - 1` computed in `unsigned int`. -/
def xStep (rmin rmax : K) (Nr : Nat) : K :=
  (rs / rmin - rs / rmax) / (((Nr + 4294967295) % 4294967296 : Nat) : K)

/-- The radius `r = rs / x`, `x = xmin + ir * xStep`, of row `ir`. -/
def gridR (rmin rmax : K) (Nr ir : Nat) : K :=
  rs / (rs / rmax + (ir : K) * xStep rmin rmax Nr)

/-- The step `phiStep = (phimax - phimin) / (Nphi - 1)` of `genLUT`, with
`eps = 1e-4`, `phimin = eps` and `phimax = PI - eps`. -/
def phiStep (Nphi : Nat) : K :=
  ((PI - 1 / 10000) - 1 / 10000) / (((Nphi + 4294967295) % 4294967296 : Nat) : K)

/-- The azimuth `phi1 = phimin + ip * phiStep` of column `ip`. -/
def gridPhi (Nphi ip : Nat) : K :=
  1 / 10000 + (ip : K) * phiStep Nphi

/-- The number `Nr * Nphi * 4` of floats in each table buffer, as the source
computes it in `unsigned int`. -/
def lutCount (Nr Nphi : Nat) : Nat := Nr * Nphi * 4 % 4294967296

/-- The cell number `num = ir * Nphi + ip`, computed in `unsigned int`. -/
def cellNum (Nphi ir ip : Nat) : Nat := (ir * Nphi + ip) % 4294967296

/-- The index `4 * num + k` of slot `k` of cell `num`, computed in
`unsigned int`. -/
def slotIndex (num k : Nat) : Nat := (4 * num + k) % 4294967296

/-- The four floats stored for one `findGeodesic` result:
`(float(ksi), isValid ? float(fabs(dt)) : -1.0f, float(u[0]), float(u[1]))`. -/
def lutRecord (toFloat : K → F32) (f : FindOut K) : Fin 4 → F32 :=
  ![toFloat f.ksi, if f.valid then toFloat |f.dt| else toFloat (-1), toFloat f.u.1,
    toFloat f.u.2]

/-- Storing a record in the four slots of cell `num` of a buffer.  A buffer is
the memory at and after its base address, indexed in floats. -/
def storeRecord (buf : Nat → F32) (num : Nat) (rec : Fin 4 → F32) : Nat → F32 :=
  Function.update (Function.update (Function.update (Function.update buf
    (slotIndex num 0) (rec 0)) (slotIndex num 1) (rec 1)) (slotIndex num 2) (rec 2))
    (slotIndex num 3) (rec 3)

/-- The two buffers `lut_0`, `lut_1` and the number of random values drawn so
far. -/
structure LutState where
  /-- The buffer `lut_0`. -/
  lut_0 : Nat → F32
  /-- The buffer `lut_1`. -/
  lut_1 : Nat → F32
  /-- The number of random values drawn so far. -/
  rng : Nat

/-- The body of the serial cell loop of `genLUT` for cell `(ir, ip)`. -/
def lutCell (toFloat : K → F32) (m : Libm K) (integ : Vec K → Vec K → IntegrateOut K)
    (draws : Nat → K) (junk : Uninit K) (rInit rmin rmax : K) (Nr Nphi ir ip : Nat)
    (st : LutState) : LutState :=
  let r := gridR rmin rmax Nr ir
  let num := cellNum Nphi ir ip
  let phi1 := gridPhi Nphi ip
  let f0 := findGeodesic m integ draws junk 0 rInit r phi1 st.rng
  let phi2 := 2 * PI - phi1
  let f1 := findGeodesic m integ draws junk 1 rInit r phi2 f0.rng
  { lut_0 := storeRecord st.lut_0 num (lutRecord toFloat f0)
    lut_1 := storeRecord st.lut_1 num (lutRecord toFloat f1)
    rng := f1.rng }

/-- The serial cell loops of `genLUT`:
`for (ir = 0; ir < Nr; ir++) for (ip = 0; ip < Nphi; ip++)`. -/
def genLUTCells (toFloat : K → F32) (m : Libm K) (integ : Vec K → Vec K → IntegrateOut K)
    (draws : Nat → K) (junk : Uninit K) (rInit rmin rmax : K) (Nr Nphi : Nat)
    (st : LutState) : LutState :=
  (List.range Nr).foldl (fun st ir =>
    (List.range Nphi).foldl (fun st ip =>
      lutCell toFloat m integ draws junk rInit rmin rmax Nr Nphi ir ip st) st) st

/-! ## main.cpp: the table file -/

/-- The four bytes of a 32-bit object, least significant first. -/
def bytes32 (w : Nat) : List Nat :=
  [w % 256, w / 256 % 256, w / 65536 % 256, w / 16777216 % 256]

/-- The bytes `fwrite(buf, sizeof(float), count, fptr)` appends. -/
def fwriteFloats (buf : Nat → F32) (count : Nat) : List Nat :=
  (List.range count).flatMap (fun i => bytes32 (buf i).val)

/-- The bytes written by the `fwrite` calls of `genLUT`. -/
def genLUTWrite (Nr Nphi : Nat) (fmin fmax fdist : F32) (lut_0 lut_1 : Nat → F32) : List Nat :=
  bytes32 Nr ++ bytes32 Nphi ++ bytes32 fmin.val ++ bytes32 fmax.val ++ bytes32 fdist.val
    ++ fwriteFloats lut_0 (lutCount Nr Nphi) ++ fwriteFloats lut_1 (lutCount Nr Nphi)

/-- Function `genLUT` (serial build): the content of the output file, or
`none` when `fopen` fails.  `init0` and `init1` are the indeterminate contents
of the freshly allocated buffers, `rng` the number of random values drawn
before the call. -/
def genLUT (toFloat : K → F32) (m : Libm K) (integ : Vec K → Vec K → IntegrateOut K)
    (draws : Nat → K) (junk : Uninit K) (init0 init1 : Nat → F32) (rng : Nat)
    (rInit rmin rmax : K) (Nr Nphi : Nat) (opened : Bool) : Option (List Nat) :=
  let st := genLUTCells toFloat m integ draws junk rInit rmin rmax Nr Nphi
    { lut_0 := init0, lut_1 := init1, rng := rng }
  if opened then
    some (genLUTWrite Nr Nphi (toFloat rmin) (toFloat rmax) (toFloat rInit) st.lut_0 st.lut_1)
  else none

end Doubles

/-! ## LUT.cpp -/

/-- A texture made by `genRGBAFloatTexture(width, height, data)`; `data` is
what the pointer passed to `glTexImage2D` points to. -/
structure Texture where
  /-- The texture width. -/
  width : Nat
  /-- The texture height. -/
  height : Nat
  /-- The floats at the data pointer. -/
  data : List F32
deriving DecidableEq

/-- The members of class `LUT`; `none` is `nullptr` for `m_data` and the
texture name 0 for `m_texID`. -/
structure LUT where
  /-- Member `m_Nr`. -/
  m_Nr : Nat
  /-- Member `m_Nphi`. -/
  m_Nphi : Nat
  /-- Member `m_rmin`. -/
  m_rmin : F32
  /-- Member `m_rmax`. -/
  m_rmax : F32
  /-- Member `m_camPos`. -/
  m_camPos : F32
  /-- Member `m_data`. -/
  m_data : Option (List F32)
  /-- Member `m_texID[0]`. -/
  m_texID0 : Option Texture
  /-- Member `m_texID[1]`. -/
  m_texID1 : Option Texture
deriving DecidableEq

/-- A file as `LUT::Load` sees it: the size reported by `stat` (0 when `stat`
fails) and the bytes delivered by `fopen`/`fread` (`none` when `fopen` fails). -/
structure LutFile where
  /-- The value of `getFileSizeInBytes`. -/
  size : Nat
  /-- The content of the file. -/
  content : Option (List Nat)

/-- One `fread(&v, 4, 1, fptr) == 1` of a 32-bit object: the value read, if four
bytes were left, and the rest of the stream. -/
def fread32 : List Nat → Option Nat × List Nat
  | b0 :: b1 :: b2 :: b3 :: rest =>
    (some ((b0 + 256 * b1 + 65536 * b2 + 16777216 * b3) % 4294967296), rest)
  | _ => (none, [])

/-- The floats delivered by `fread(m_data, sizeof(float), count, fptr)`: the
complete floats available, at most `count`. -/
def freadFloats : Nat → List Nat → List F32
  | 0, _ => []
  | count + 1, s =>
    match fread32 s with
    | (some w, rest) => Fin.ofNat w :: freadFloats count rest
    | (none, _) => []

/-- Function `LUT::Load`; `filename = none` is `nullptr`.  Returns the result
and the object afterwards. -/
def LUT.Load (self : LUT) (filename : Option LutFile) : Bool × LUT :=
  let headerSize := 4 * 2 + 4 * 3
  match filename with
  | none => (false, self)
  | some f =>
    let self := { self with m_data := none }
    let self := if self.m_texID0.isSome then { self with m_texID0 := none, m_texID1 := none }
                else self
    let fileSizeInBytes := f.size
    if fileSizeInBytes < headerSize then (false, self)
    else
      match f.content with
      | none => (false, self)
      | some s =>
        let r1 := fread32 s
        let r2 := fread32 r1.2
        let r3 := fread32 r2.2
        let r4 := fread32 r3.2
        let r5 := fread32 r4.2
        let isOkay := r1.1.isSome && r2.1.isSome && r3.1.isSome && r4.1.isSome && r5.1.isSome
        let self := { self with
          m_Nr := r1.1.getD self.m_Nr
          m_Nphi := r2.1.getD self.m_Nphi
          m_rmin := (r3.1.map Fin.ofNat).getD self.m_rmin
          m_rmax := (r4.1.map Fin.ofNat).getD self.m_rmax
          m_camPos := (r5.1.map Fin.ofNat).getD self.m_camPos }
        if !isOkay then (false, self)
        else
          let numEntries := self.m_Nr * self.m_Nphi * 4 % 4294967296
          let dataSizeInBytes := 4 * numEntries * 2 % 18446744073709551616
          if dataSizeInBytes + headerSize ≠ fileSizeInBytes then (false, self)
          else
            let data := freadFloats (numEntries * 2) r5.2
            let self := { self with m_data := some data }
            let isOkay := isOkay && decide (data.length = numEntries * 2)
            if isOkay then
              (true, { self with
                m_texID0 := some ⟨self.m_Nphi, self.m_Nr, data⟩
                m_texID1 := some ⟨self.m_Nphi, self.m_Nr, data.drop numEntries⟩ })
            else (true, self)



/-! ## helper.cpp -/

/-- A 3-component array `double v[3]`. -/
abbrev Vec3 (K : Type) := Fin 3 → K

section Helper

variable {K : Type} [LinearOrderedField K]

/-- Function `crossProd`: the array `c` after the call. -/
def crossProd (a b : Vec3 K) : Vec3 K :=
  ![a 1 * b 2 - a 2 * b 1, a 2 * b 0 - a 0 * b 2, a 0 * b 1 - a 1 * b 0]

/-- Function `dotProd`. -/
def dotProd (a b : Vec3 K) : K := a 0 * b 0 + a 1 * b 1 + a 2 * b 2

/-- Function `normalize`: the array `v` after the call. -/
def normalize (m : Libm K) (v : Vec3 K) : Vec3 K :=
  let n := 1 / m.sqrt (v 0 * v 0 + v 1 * v 1 + v 2 * v 2)
  ![v 0 * n, v 1 * n, v 2 * n]

/-- Function `calcBase`: the arrays `e1` and `e2` after the call. -/
def calcBase (m : Libm K) (p : Vec3 K) : Vec3 K × Vec3 K :=
  let e1 : Vec3 K := ![1, 0, 0]
  let n := crossProd e1 p
  let e2 := crossProd n e1
  (e1, normalize m e2)

/-- Function `calcBaseComp`: the values left in `r` and `phi`.  `atan2` is the
library function of that name. -/
def calcBaseComp (m : Libm K) (atan2 : K → K → K) (e1 e2 p : Vec3 K) : K × K :=
  let x := dotProd p e1
  let y := dotProd p e2
  (m.sqrt (x * x + y * y), atan2 y x)

/-- Function `calcCoords`: the array `q` after the call. -/
def calcCoords (m : Libm K) (e1 e2 : Vec3 K) (ksi dist : K) : Vec3 K :=
  let x := dist * m.cos ksi
  let y := dist * m.sin ksi
  ![x * e1 0 + y * e2 0, x * e1 1 + y * e2 1, x * e1 2 + y * e2 2]

end Helper

/-! ## main.cpp: the search loop pass by pass -/

section SearchPasses
variable {K : Type} [LinearOrderedField K]

/-- The first part of one pass of the search loop of `findGeodesic`, up to the
test before `break`: the choice of `ksiC` and the inner loop. -/
def searchTrial (geo : K → K × K → GeoOut K) (draws : Nat → K) (flatKsi : K)
    (s : Search K) : Trial K :=
  let ksiC := if s.count = 0 then flatKsi else (s.ksiA + s.ksiB) * (1 / 2)
  randomLoop geo draws s.ksiA s.ksiB
    { validC := false, ksiC := ksiC, drC := s.drC, dtC := s.dtC, uC := s.uC,
      randomCount := 0, rng := s.rng }

/-- The locals of `findGeodesic` when a pass with the trial `tr` leaves the loop
through `break`. -/
def searchBreak (s : Search K) (tr : Trial K) : Search K :=
  { s with ksiC := tr.ksiC, drC := tr.drC, dtC := tr.dtC, uC := tr.uC, rng := tr.rng }

/-- The last part of one pass of the search loop that does not `break`: the
trial replaces endpoint B when `drC * drA < 0.0` and endpoint A otherwise, then
`count++`. -/
def bracketUpdate (s : Search K) (tr : Trial K) : Search K :=
  if tr.drC * s.drA < 0 then
    { s with ksiC := tr.ksiC, drC := tr.drC, dtC := tr.dtC, uC := tr.uC, rng := tr.rng,
             ksiB := tr.ksiC, drB := tr.drC, dtB := tr.dtC, count := s.count + 1 }
  else
    { s with ksiC := tr.ksiC, drC := tr.drC, dtC := tr.dtC, uC := tr.uC, rng := tr.rng,
             ksiA := tr.ksiC, drA := tr.drC, dtA := tr.dtC, count := s.count + 1 }

/-- The search loop of `findGeodesic` with a record of how it ended: the flag is
true when the loop was left through `break`, false when its condition failed. -/
def searchTrace (geo : K → K × K → GeoOut K) (draws : Nat → K) (flatKsi : K)
    (s : Search K) : Bool × Search K :=
  if h : |s.drA - s.drB| > HitRadiusSphere ∧ |s.ksiA - s.ksiB| > ksi_eps ∧ s.count < MaxTries then
    let tr := searchTrial geo draws flatKsi s
    if |tr.drC| < 1 / 1000000000000000 ∧ tr.validC = true then
      (true, searchBreak s tr)
    else
      searchTrace geo draws flatKsi (bracketUpdate s tr)
  else (false, s)
termination_by MaxTries - s.count
decreasing_by
  simp_wf
  unfold bracketUpdate
  split <;> simp only <;> omega

/-- The locals of `findGeodesic` when the search loop is reached. -/
def findGeodesicStart (m : Libm K) (integ : Vec K → Vec K → IntegrateOut K)
    (junk : Uninit K) (order : Int) (rInit rFinal phiFinal : K) (rng : Nat) : Search K :=
  let ksiCrit := schwarzschild_ksiCrit m rInit
  let ksiA : K := if order = 0 then 0 else PI / 2
  let ksiB : K := if order = 0 then PI else PI - ksiCrit
  let gA := calcGeodesicUpTo m integ rInit ksiA rFinal phiFinal junk.uA
  let gB := calcGeodesicUpTo m integ rInit ksiB rFinal phiFinal junk.uB
  let drA : K := if !gA.valid then 10000000000 else gA.dr
  let drB : K := if !gB.valid then -10000000000 else gB.dr
  { ksiA := ksiA, ksiB := ksiB, ksiC := junk.ksiC, drA := drA, drB := drB, drC := junk.drC,
    dtA := gA.dt, dtB := gB.dt, dtC := junk.dtC, uC := junk.uC, count := 0, rng := rng }

/-- The run of `findGeodesic` up to the end of the search loop: whether the loop
was left through `break`, and the locals at that point. -/
def findGeodesicTrace (m : Libm K) (integ : Vec K → Vec K → IntegrateOut K)
    (draws : Nat → K) (junk : Uninit K) (order : Int) (rInit rFinal phiFinal : K)
    (rng : Nat) : Bool × Search K :=
  searchTrace (calcGeodesicUpTo m integ rInit · rFinal phiFinal) draws
    (calcFlatKsi m rInit rFinal phiFinal)
    (findGeodesicStart m integ junk order rInit rFinal phiFinal rng)

end SearchPasses

/-! ## main.cpp: the cell loop of the OpenMP build -/

section OpenMP
variable {K : Type} [LinearOrderedField K]

/-- The variables that the threads of the loop
`#pragma omp parallel for private(n,ir,ip)` of `genLUT` hold in common: the
locals `ksi`, `dt`, `derr`, `u`, `isValid` and `cnt`, which are declared before
the loop and are not named in its `private` clause, the two buffers, and the
number of random values drawn from the global generator. -/
structure OmpShared (K : Type) where
  /-- The local `ksi` of `genLUT`. -/
  ksi : K
  /-- The local `dt` of `genLUT`. -/
  dt : K
  /-- The local `derr` of `genLUT`. -/
  derr : K
  /-- The local array `u` of `genLUT`. -/
  u : K × K
  /-- The local `isValid` of `genLUT`. -/
  isValid : Bool
  /-- The local `cnt` of `genLUT`. -/
  cnt : Nat
  /-- The buffer `lut_0`. -/
  lut_0 : Nat → F32
  /-- The buffer `lut_1`. -/
  lut_1 : Nat → F32
  /-- The number of random values drawn so far. -/
  rng : Nat

/-- The statements of the loop body that read or write the common variables, in
program order: the call `isValid = findGeodesic(0, ..)`, the four stores to
`lut_0`, the call `isValid = findGeodesic(1, ..)`, the four stores to `lut_1`. -/
inductive OmpStmt where
  /-- The statement `isValid = findGeodesic(0, rInit, r, phi1, ksi, dt, derr, cnt, u)`. -/
  | find0
  /-- The four stores `lut_0[4 * n + k] = ..`. -/
  | store0
  /-- The statement `isValid = findGeodesic(1, rInit, r, phi2, ksi, dt, derr, cnt, u)`. -/
  | find1
  /-- The four stores `lut_1[4 * n + k] = ..`. -/
  | store1

/-- The four stores `buf[4 * n + k] = rec[k]` of iteration `n`, with the index
computed in `int` (no overflow for `4 * n + 3 < 2^31`). -/
def ompStore (buf : Nat → F32) (n : Nat) (rec : Fin 4 → F32) : Nat → F32 :=
  Function.update (Function.update (Function.update (Function.update buf
    (4 * n + 0) (rec 0)) (4 * n + 1) (rec 1)) (4 * n + 2) (rec 2)) (4 * n + 3) (rec 3)

/-- One statement of iteration `n` of the parallel loop, run by some thread on
the common variables.  The variables `n`, `ir`, `ip`, `x`, `r`, `phi1` and `phi2`
are private to the thread. -/
def ompStmt (toFloat : K → F32) (m : Libm K) (integ : Vec K → Vec K → IntegrateOut K)
    (draws : Nat → K) (junk : Uninit K) (rInit rmin rmax : K) (Nr Nphi : Nat)
    (n : Nat) (stmt : OmpStmt) (sh : OmpShared K) : OmpShared K :=
  let ir := n / Nphi
  let ip := n % Nphi
  let r := gridR rmin rmax Nr ir
  let phi1 := gridPhi Nphi ip
  let phi2 := 2 * PI - phi1
  match stmt with
  | OmpStmt.find0 =>
    let f := findGeodesic m integ draws junk 0 rInit r phi1 sh.rng
    { sh with ksi := f.ksi, dt := f.dt, derr := f.derr, u := f.u, isValid := f.valid,
              cnt := f.cnt, rng := f.rng }
  | OmpStmt.store0 =>
    let record := lutRecord toFloat ⟨sh.isValid, sh.ksi, sh.dt, sh.derr, sh.cnt, sh.u, sh.rng⟩
    { sh with lut_0 := ompStore sh.lut_0 n record }
  | OmpStmt.find1 =>
    let f := findGeodesic m integ draws junk 1 rInit r phi2 sh.rng
    { sh with ksi := f.ksi, dt := f.dt, derr := f.derr, u := f.u, isValid := f.valid,
              cnt := f.cnt, rng := f.rng }
  | OmpStmt.store1 =>
    let record := lutRecord toFloat ⟨sh.isValid, sh.ksi, sh.dt, sh.derr, sh.cnt, sh.u, sh.rng⟩
    { sh with lut_1 := ompStore sh.lut_1 n record }

/-- A run of the parallel loop: the statements of the iterations in the order
in which the threads execute them, each entry naming the iteration and the
statement. -/
def ompRun (toFloat : K → F32) (m : Libm K) (integ : Vec K → Vec K → IntegrateOut K)
    (draws : Nat → K) (junk : Uninit K) (rInit rmin rmax : K) (Nr Nphi : Nat)
    (schedule : List (Nat × OmpStmt)) (sh : OmpShared K) : OmpShared K :=
  schedule.foldl
    (fun sh e => ompStmt toFloat m integ draws junk rInit rmin rmax Nr Nphi e.1 e.2 sh) sh

/-- A schedule of two threads, one running iteration 0 and the other
iteration 1, each in program order: both first calls are made before the first
thread stores its record. -/
def raceSchedule : List (Nat × OmpStmt) :=
  [(0, OmpStmt.find0), (1, OmpStmt.find0), (0, OmpStmt.store0), (1, OmpStmt.store0),
   (0, OmpStmt.find1), (0, OmpStmt.store1), (1, OmpStmt.find1), (1, OmpStmt.store1)]

/-- The statements of iteration `n` in `schedule`, in the order of the
schedule. -/
def stmtsOf (n : Nat) (schedule : List (Nat × OmpStmt)) : List OmpStmt :=
  (schedule.filter (fun e => e.1 = n)).map (fun e => e.2)

end OpenMP

/-! ## nrRungeKutta.cpp: the step sizes of `rkqs` -/

section StepSizes
variable {K : Type} [LinearOrderedField K]

/-- The next trial step of `rkqs` after a rejected trial `h` with scaled error
`errmax`: `htemp = SAFETY * h * pow(errmax, PSHRNK)` and
`h = (h >= 0.0 ? MAX(htemp, 0.1 * h) : MIN(htemp, 0.1 * h))`. -/
def rkqsShrink (m : Libm K) (h errmax : K) : K :=
  let htemp := SAFETY * h * m.pow errmax PSHRNK
  if h ≥ 0 then MAX htemp (1 / 10 * h) else MIN htemp (1 / 10 * h)

end StepSizes

/-! ## main.cpp: the cost of the search -/

section SearchCost
variable {K : Type} [LinearOrderedField K]

/-- The number of `calcGeodesicUpTo` calls that the inner loop
`while (!validC && randomCount < MaxRandomTries)` makes when started in `s`:
one call in every pass. -/
def randomLoopCalls (geo : K → K × K → GeoOut K) (draws : Nat → K) (ksiA ksiB : K)
    (s : Trial K) : Nat :=
  if h : s.validC = false ∧ s.randomCount < MaxRandomTries then
    let g := geo s.ksiC s.uC
    if g.valid = false then
      let t := draws s.rng
      1 + randomLoopCalls geo draws ksiA ksiB
        { validC := false, ksiC := ksiA * (1 - t) + t * ksiB, drC := g.dr, dtC := g.dt,
          uC := g.u, randomCount := s.randomCount + 1, rng := s.rng + 1 }
    else
      1 + randomLoopCalls geo draws ksiA ksiB
        { validC := true, ksiC := s.ksiC, drC := g.dr, dtC := g.dt,
          uC := g.u, randomCount := s.randomCount, rng := s.rng }
  else 0
termination_by (if s.validC = true then 0 else MaxRandomTries + 1 - s.randomCount)
decreasing_by
  all_goals simp_wf
  all_goals simp only [h.1, Bool.false_eq_true, if_false]
  all_goals omega

/-- The angles at which the inner loop
`while (!validC && randomCount < MaxRandomTries)` calls `calcGeodesicUpTo` when
started in `s`, in the order of the calls. -/
def randomLoopAngles (geo : K → K × K → GeoOut K) (draws : Nat → K) (ksiA ksiB : K)
    (s : Trial K) : List K :=
  if h : s.validC = false ∧ s.randomCount < MaxRandomTries then
    let g := geo s.ksiC s.uC
    if g.valid = false then
      let t := draws s.rng
      s.ksiC :: randomLoopAngles geo draws ksiA ksiB
        { validC := false, ksiC := ksiA * (1 - t) + t * ksiB, drC := g.dr, dtC := g.dt,
          uC := g.u, randomCount := s.randomCount + 1, rng := s.rng + 1 }
    else
      s.ksiC :: randomLoopAngles geo draws ksiA ksiB
        { validC := true, ksiC := s.ksiC, drC := g.dr, dtC := g.dt,
          uC := g.u, randomCount := s.randomCount, rng := s.rng }
  else []
termination_by (if s.validC = true then 0 else MaxRandomTries + 1 - s.randomCount)
decreasing_by
  all_goals simp_wf
  all_goals simp only [h.1, Bool.false_eq_true, if_false]
  all_goals omega

/-- The trial angles that one pass of the search loop started in `s`
integrates, in order. -/
def searchTrialAngles (geo : K → K × K → GeoOut K) (draws : Nat → K) (flatKsi : K)
    (s : Search K) : List K :=
  let ksiC := if s.count = 0 then flatKsi else (s.ksiA + s.ksiB) * (1 / 2)
  randomLoopAngles geo draws s.ksiA s.ksiB
    { validC := false, ksiC := ksiC, drC := s.drC, dtC := s.dtC, uC := s.uC,
      randomCount := 0, rng := s.rng }

/-- The number of `calcGeodesicUpTo` calls in one pass of the search loop
started in `s`. -/
def searchTrialCalls (geo : K → K × K → GeoOut K) (draws : Nat → K) (flatKsi : K)
    (s : Search K) : Nat :=
  let ksiC := if s.count = 0 then flatKsi else (s.ksiA + s.ksiB) * (1 / 2)
  randomLoopCalls geo draws s.ksiA s.ksiB
    { validC := false, ksiC := ksiC, drC := s.drC, dtC := s.dtC, uC := s.uC,
      randomCount := 0, rng := s.rng }

/-- The number of passes through the body of the search loop of `findGeodesic`
started in `s`, and the number of `calcGeodesicUpTo` calls made in them. -/
def searchCost (geo : K → K × K → GeoOut K) (draws : Nat → K) (flatKsi : K)
    (s : Search K) : Nat × Nat :=
  if h : |s.drA - s.drB| > HitRadiusSphere ∧ |s.ksiA - s.ksiB| > ksi_eps ∧ s.count < MaxTries then
    let tr := searchTrial geo draws flatKsi s
    let calls := searchTrialCalls geo draws flatKsi s
    if |tr.drC| < 1 / 1000000000000000 ∧ tr.validC = true then
      (1, calls)
    else
      let rest := searchCost geo draws flatKsi (bracketUpdate s tr)
      (1 + rest.1, calls + rest.2)
  else (0, 0)
termination_by MaxTries - s.count
decreasing_by
  simp_wf
  unfold bracketUpdate
  split <;> simp only <;> omega

/-- The number of passes through the search loop in a call of `findGeodesic`,
and the number of `calcGeodesicUpTo` calls of that call: two for the bracket
endpoints and those of the loop. -/
def findGeodesicCost (m : Libm K) (integ : Vec K → Vec K → IntegrateOut K)
    (draws : Nat → K) (junk : Uninit K) (order : Int) (rInit rFinal phiFinal : K)
    (rng : Nat) : Nat × Nat :=
  let c := searchCost (calcGeodesicUpTo m integ rInit · rFinal phiFinal) draws
    (calcFlatKsi m rInit rFinal phiFinal)
    (findGeodesicStart m integ junk order rInit rFinal phiFinal rng)
  (c.1, 2 + c.2)

end SearchCost

/-! ## Auxiliary definitions for the statements -/

/-- The floats `buf[0 .. count-1]` of a buffer. -/
def bufList (buf : Nat → F32) (count : Nat) : List F32 := (List.range count).map buf

/-- The cells `(ir, ip)` in the order in which the serial loops visit them. -/
def cellList (Nr Nphi : Nat) : List (Nat × Nat) :=
  (List.range Nr).flatMap (fun ir => (List.range Nphi).map (fun ip => (ir, ip)))

/-- An `integrate` that never finds a crossing: it returns false and leaves
`ystart` as it was. -/
def noCrossing {K : Type} : Vec K → Vec K → IntegrateOut K := fun y _ => ⟨false, y⟩

/-- An `integrate` that reports a crossing exactly at the target `ymax`. -/
def hitTarget {K : Type} : Vec K → Vec K → IntegrateOut K := fun _ ymax => ⟨true, ymax⟩

/-- A right-hand side with constant slope: `phi` grows at rate 1, the other
components are constant. -/
def unitPhi {K : Type} [LinearOrderedField K] : K → Vec K → Vec K :=
  fun _ _ => ![0, 0, 1, 0, 0, 0]

/-- A sample assignment of the library functions (each one the identity), used
to run the definitions on concrete inputs. -/
def sampleLibm {K : Type} : Libm K := ⟨id, id, id, id, fun x _ => x⟩

/-- A sample conversion to `float` over `ℚ` that keeps the sign only: pattern 1
for negative numbers and pattern 0 otherwise. -/
def sampleFloat : ℚ → F32 := fun x => if x < 0 then 1 else 0

/-- Sample initial contents of the uninitialised locals of `findGeodesic`. -/
def sampleJunk {K : Type} [LinearOrderedField K] : Uninit K :=
  ⟨0, 0, 0, (0, 0), (0, 0), (0, 0)⟩

/-- A sample state array: `r = 10`, everything else zero. -/
def sampleY {K : Type} [LinearOrderedField K] : Vec K := ![0, 10, 0, 0, 0, 0]

/-- A sample target array with `phi = 1 / 200`. -/
def sampleYmax {K : Type} [LinearOrderedField K] : Vec K := ![0, 0, 1 / 200, 0, 0, 0]

/-- The library functions are the real functions: `sqrt`, `sin`, `cos`, `asin`
and `pow`. -/
def Libm.IsReal (m : Libm ℝ) : Prop :=
  m.sqrt = Real.sqrt ∧ m.sin = Real.sin ∧ m.cos = Real.cos ∧ m.asin = Real.arcsin ∧
    ∀ x y : ℝ, m.pow x y = x ^ y

/-- The function `atan2(y, x)` is the argument of the point `(x, y)`. -/
def IsRealAtan2 (atan2 : ℝ → ℝ → ℝ) : Prop :=
  ∀ y x : ℝ, atan2 y x = Complex.arg ⟨x, y⟩

/-- A straight ray that leaves the point with polar coordinates `(rInit, 0)` at
the angle `ksi` from the outward radial direction (unit direction
`(cos ksi, sin ksi)` in Cartesian coordinates, the convention of
`schwarzschild_initialize`) passes through the point with polar coordinates
`(rFinal, phiFinal)` after the positive length `s`. -/
def RayHits {K : Type} [LinearOrderedField K] (m : Libm K) (rInit ksi rFinal phiFinal : K) :
    Prop :=
  ∃ s : K, 0 < s ∧ rInit + s * m.cos ksi = rFinal * m.cos phiFinal ∧
    s * m.sin ksi = rFinal * m.sin phiFinal

/-- A right-hand side that depends on `x` only and is, in every component, a
polynomial of degree at most 4 with the coefficients `p 0 i .. p 4 i`. -/
def quartic {K : Type} [LinearOrderedField K] (p : Fin 5 → Vec K) (t : K) : Vec K :=
  fun i => p 0 i + p 1 i * t + p 2 i * t ^ 2 + p 3 i * t ^ 3 + p 4 i * t ^ 4

/-- The antiderivative of `quartic p` that vanishes at 0. -/
def quarticPrimitive {K : Type} [LinearOrderedField K] (p : Fin 5 → Vec K) (t : K) : Vec K :=
  fun i => p 0 i * t + p 1 i * t ^ 2 / 2 + p 2 i * t ^ 3 / 3 + p 3 i * t ^ 4 / 4
    + p 4 i * t ^ 5 / 5

/-- An `integrate` that follows a circular orbit: it reports a crossing at the
target azimuth with every other component of the state as at the start, the
radius among them. -/
def onCircle {K : Type} : Vec K → Vec K → IntegrateOut K :=
  fun y ymax => ⟨true, fun i => if i = 2 then ymax 2 else y i⟩

/-- Sample locals of `findGeodesic` on entry to the search loop: the bracket
`[0, PI]` with both endpoints invalid. -/
def sampleSearch {K : Type} [LinearOrderedField K] : Search K :=
  { ksiA := 0, ksiB := PI, ksiC := 0, drA := 10000000000, drB := -10000000000, drC := 0,
    dtA := 1000000000000, dtB := 1000000000000, dtC := 0, uC := (0, 0), count := 0, rng := 0 }

/-- A sample common state of the parallel loop over `ℚ`: everything zero. -/
def sampleShared : OmpShared ℚ :=
  ⟨0, 0, 0, (0, 0), false, 0, fun _ => 0, fun _ => 0, 0⟩

/-- The cells that the serial loops of `genLUT` visit, in order, each with its
number `num = ir * Nphi + ip`: entries `(num, ir, ip)`. -/
def serialCells (Nr Nphi : Nat) : List (Nat × Nat × Nat) :=
  (cellList Nr Nphi).map (fun c => (cellNum Nphi c.1 c.2, c.1, c.2))

/-- The iterations of the loop `for (n = 0; n < Nr * Nphi; n++)` of the OpenMP
build, each with the cell `ir = n / Nphi`, `ip = n % Nphi` it computes: entries
`(n, ir, ip)`.  The bound `Nr * Nphi` is computed in `unsigned int`; `n` is an
`int`, which the comparison and the division convert to `unsigned int` (the
model is for bounds up to `2^31`). -/
def ompCells (Nr Nphi : Nat) : List (Nat × Nat × Nat) :=
  (List.range (Nr * Nphi % 4294967296)).map (fun n => (n, n / Nphi, n % Nphi))

/-- The null norm of the velocity of a state in the Schwarzschild metric:
`N = -(1 - rs/r) * ut^2 + ur^2 / (1 - rs/r) + r^2 * up^2`. -/
def nullNorm {K : Type} [LinearOrderedField K] (y : Vec K) : K :=
  -(1 - rs / y 1) * y 3 ^ 2 + y 4 ^ 2 / (1 - rs / y 1) + y 1 ^ 2 * y 5 ^ 2

/-- The energy `E = (1 - rs/r) * ut` of a state. -/
def energy {K : Type} [LinearOrderedField K] (y : Vec K) : K :=
  (1 - rs / y 1) * y 3

/-- The angular momentum `L = r^2 * up` of a state. -/
def angularMomentum {K : Type} [LinearOrderedField K] (y : Vec K) : K :=
  y 1 ^ 2 * y 5

/-- The straight line through the state `y0` with the velocity that
`schwarzschild_derivs` returns at `y0`. -/
def tangentLine {K : Type} [LinearOrderedField K] (m : Libm K) (y0 : Vec K) (t : K) : Vec K :=
  fun i => y0 i + t * schwarzschild_derivs m 0 y0 i

/-- A sample state on the photon sphere: `r = 3`, `ut = -1`, `up = 1 / 3`. -/
def sampleOrbit {K : Type} [LinearOrderedField K] : Vec K := ![0, 3, 0, -1, 0, 1 / 3]

/-! # Lemmas -/

/-! ## The search loops when no geodesic crosses the target -/

section
variable {K : Type} [LinearOrderedField K]

theorem randomLoop_done (geo : K → K × K → GeoOut K) (draws : Nat → K) (ksiA ksiB : K)
    (s : Trial K) (h : ¬ (s.validC = false ∧ s.randomCount < MaxRandomTries)) :
    randomLoop geo draws ksiA ksiB s = s := by
  rw [randomLoop]; simp only [h, dite_false]

theorem randomLoop_invalid (geo : K → K × K → GeoOut K) (t ksiA ksiB D T : K)
    (hgeo : ∀ ksi u, geo ksi u = ⟨false, D, T, u⟩) (n : Nat) :
    ∀ s : Trial K, s.validC = false → s.randomCount + (n + 1) = MaxRandomTries →
      randomLoop geo (fun _ => t) ksiA ksiB s =
        { validC := false, ksiC := ksiA * (1 - t) + t * ksiB, drC := D, dtC := T, uC := s.uC,
          randomCount := MaxRandomTries, rng := s.rng + (n + 1) } := by
  induction n with
  | zero =>
    intro s hv hc
    rw [randomLoop]
    have h1 : s.validC = false ∧ s.randomCount < MaxRandomTries := ⟨hv, by omega⟩
    simp only [h1, hgeo, dite_true, and_self]
    rw [randomLoop_done]
    · simp [← hc]
    · simp; omega
  | succ n ih =>
    intro s hv hc
    rw [randomLoop]
    have h1 : s.validC = false ∧ s.randomCount < MaxRandomTries := ⟨hv, by omega⟩
    simp only [h1, hgeo, dite_true, and_self]
    rw [ih _ rfl (by simp; omega)]
    simp; omega

theorem calcGeodesicUpTo_invalid (m : Libm K) (rInit ksi rFinal phiFinal : K) (u : K × K) :
    calcGeodesicUpTo m noCrossing rInit ksi rFinal phiFinal u
      = ⟨false, 1000000000000, 1000000000000, u⟩ := by
  simp [calcGeodesicUpTo, noCrossing]

end
section
variable {K : Type} [LinearOrderedField K]

theorem searchLoop_exit (geo : K → K × K → GeoOut K) (draws : Nat → K) (flatKsi : K)
    (s : Search K)
    (h : ¬ (|s.drA - s.drB| > HitRadiusSphere ∧ |s.ksiA - s.ksiB| > ksi_eps ∧
      s.count < MaxTries)) :
    searchLoop geo draws flatKsi s = s := by
  rw [searchLoop]; simp only [h, dite_false]

theorem searchLoop_invalid_step (geo : K → K × K → GeoOut K) (t flatKsi D T : K)
    (hgeo : ∀ ksi u, geo ksi u = ⟨false, D, T, u⟩) (hD : 0 ≤ D) (s : Search K)
    (h : |s.drA - s.drB| > HitRadiusSphere ∧ |s.ksiA - s.ksiB| > ksi_eps ∧ s.count < MaxTries)
    (hA : 0 ≤ s.drA) :
    searchLoop geo (fun _ => t) flatKsi s =
      searchLoop geo (fun _ => t) flatKsi
        { ksiA := s.ksiA * (1 - t) + t * s.ksiB, ksiB := s.ksiB,
          ksiC := s.ksiA * (1 - t) + t * s.ksiB, drA := D, drB := s.drB, drC := D,
          dtA := T, dtB := s.dtB, dtC := T, uC := s.uC, count := s.count + 1,
          rng := s.rng + MaxRandomTries } := by
  rw [searchLoop]
  simp only [h, dite_true, and_self]
  rw [randomLoop_invalid geo t s.ksiA s.ksiB D T hgeo (MaxRandomTries - 1) _ rfl
    (by simp [MaxRandomTries])]
  have h2 : ¬ (D * s.drA < 0) := not_lt.mpr (mul_nonneg hD hA)
  simp [h2, MaxRandomTries]


end

/-! ## Writing and reading the table file -/

theorem bytes32_length (w : Nat) : (bytes32 w).length = 4 := rfl

theorem fwriteFloats_length (buf : Nat → F32) (count : Nat) :
    (fwriteFloats buf count).length = 4 * count := by
  unfold fwriteFloats
  induction count with
  | zero => simp
  | succ n ih =>
    rw [List.range_succ, List.flatMap_append, List.length_append, ih]
    simp [bytes32]
    omega

theorem genLUTWrite_length (Nr Nphi : Nat) (fmin fmax fdist : F32) (lut_0 lut_1 : Nat → F32) :
    (genLUTWrite Nr Nphi fmin fmax fdist lut_0 lut_1).length = 20 + 8 * lutCount Nr Nphi := by
  simp [genLUTWrite, fwriteFloats_length, bytes32_length]
  omega

theorem fread32_bytes32 (w : Nat) (rest : List Nat) :
    fread32 (bytes32 w ++ rest) = (some (w % 4294967296), rest) := by
  simp only [bytes32, fread32, List.cons_append, List.nil_append]
  congr 2
  omega


theorem freadFloats_fwrite (xs : List F32) (rest : List Nat) (n : Nat) (h : n = xs.length):
    freadFloats n (xs.flatMap (fun w => bytes32 w.val) ++ rest) = xs := by
  subst h
  induction xs with
  | nil => simp [freadFloats]
  | cons x xs ih =>
    simp only [List.flatMap_cons, List.append_assoc, List.length_cons, freadFloats, fread32_bytes32]
    rw [ih]
    congr 1
    apply Fin.ext
    simp [Fin.ofNat]
    


theorem fwriteFloats_eq (buf : Nat → F32) (count : Nat) :
    fwriteFloats buf count = (bufList buf count).flatMap (fun w => bytes32 w.val) := by
  simp [fwriteFloats, bufList, List.flatMap_map]

theorem bufList_length (buf : Nat → F32) (count : Nat) : (bufList buf count).length = count := by
  simp [bufList]

theorem F32_ofNat_mod (w : F32) : (Fin.ofNat (w.val % 4294967296) : F32) = w := by
  apply Fin.ext
  simp [Fin.ofNat]

theorem Load_genLUTWrite (self : LUT) (Nr Nphi : Nat) (fmin fmax fdist : F32)
    (lut_0 lut_1 : Nat → F32) (hNr : Nr < 4294967296) (hNphi : Nphi < 4294967296) :
    LUT.Load self (some ⟨(genLUTWrite Nr Nphi fmin fmax fdist lut_0 lut_1).length,
        some (genLUTWrite Nr Nphi fmin fmax fdist lut_0 lut_1)⟩) =
      (true, { m_Nr := Nr, m_Nphi := Nphi, m_rmin := fmin, m_rmax := fmax, m_camPos := fdist,
               m_data := some (bufList lut_0 (lutCount Nr Nphi) ++ bufList lut_1 (lutCount Nr Nphi)),
               m_texID0 := some ⟨Nphi, Nr, bufList lut_0 (lutCount Nr Nphi) ++ bufList lut_1 (lutCount Nr Nphi)⟩,
               m_texID1 := some ⟨Nphi, Nr, bufList lut_1 (lutCount Nr Nphi)⟩ }) := by
  have hlen := genLUTWrite_length Nr Nphi fmin fmax fdist lut_0 lut_1
  have hdata : freadFloats (lutCount Nr Nphi * 2)
      (fwriteFloats lut_0 (lutCount Nr Nphi) ++ fwriteFloats lut_1 (lutCount Nr Nphi))
      = bufList lut_0 (lutCount Nr Nphi) ++ bufList lut_1 (lutCount Nr Nphi) := by
    have := freadFloats_fwrite (bufList lut_0 (lutCount Nr Nphi) ++ bufList lut_1 (lutCount Nr Nphi)) []
      (lutCount Nr Nphi * 2) (by simp [bufList_length]; omega)
    simpa [fwriteFloats_eq, List.flatMap_append] using this
  have hcnt : lutCount Nr Nphi < 4294967296 := Nat.mod_lt _ (by norm_num)
  have hsz : 4 * lutCount Nr Nphi * 2 % 18446744073709551616 + 20
      = 20 + 8 * lutCount Nr Nphi := by omega
  have h2 : lutCount Nr Nphi + lutCount Nr Nphi = lutCount Nr Nphi * 2 := by omega
  have hc : Nr * Nphi * 4 % 4294967296 = lutCount Nr Nphi := rfl
  unfold LUT.Load
  simp only [hlen]
  simp only [genLUTWrite, List.append_assoc, fread32_bytes32]
  simp [Nat.mod_eq_of_lt hNr, Nat.mod_eq_of_lt hNphi, hc, hsz, hdata, bufList_length,
    F32_ofNat_mod, h2]



/-! ## Cell indices and the stores of the cell loop -/

theorem foldl_flatMap_rows {α β γ : Type} (f : β → List γ) (g : α → γ → α) (L : List β) (a : α) :
    (L.flatMap f).foldl g a = L.foldl (fun a b => (f b).foldl g a) a := by
  induction L generalizing a with
  | nil => rfl
  | cons b L ih => simp [List.flatMap_cons, List.foldl_append, ih]

theorem cell_lt (Nr Nphi ir ip : Nat) (hir : ir < Nr) (hip : ip < Nphi) :
    ir * Nphi + ip < Nr * Nphi := by
  have h1 : (ir + 1) * Nphi ≤ Nr * Nphi := Nat.mul_le_mul_right _ hir
  have h2 : (ir + 1) * Nphi = ir * Nphi + Nphi := by ring
  omega

theorem cell_inj (Nphi ir ip ir2 ip2 : Nat) (hip : ip < Nphi) (hip2 : ip2 < Nphi)
    (h : ir * Nphi + ip = ir2 * Nphi + ip2) : ir = ir2 ∧ ip = ip2 := by
  have hpos : 0 < Nphi := by omega
  have e1 : (ir * Nphi + ip) / Nphi = ir := by
    rw [Nat.add_comm, Nat.add_mul_div_right _ _ hpos, Nat.div_eq_of_lt hip, Nat.zero_add]
  have e2 : (ir2 * Nphi + ip2) / Nphi = ir2 := by
    rw [Nat.add_comm, Nat.add_mul_div_right _ _ hpos, Nat.div_eq_of_lt hip2, Nat.zero_add]
  have hir : ir = ir2 := by rw [← e1, ← e2, h]
  subst hir
  exact ⟨rfl, by omega⟩

theorem slotIndex_inrange (Nr Nphi ir ip k : Nat) (h : Nr * Nphi * 4 < 4294967296)
    (hir : ir < Nr) (hip : ip < Nphi) (hk : k < 4) :
    slotIndex (cellNum Nphi ir ip) k = 4 * (ir * Nphi + ip) + k := by
  have := cell_lt Nr Nphi ir ip hir hip
  unfold slotIndex cellNum
  rw [Nat.mod_eq_of_lt (by omega), Nat.mod_eq_of_lt (by omega)]

theorem storeRecord_other (buf : Nat → F32) (num : Nat) (rec : Fin 4 → F32) (j : Nat)
    (h : ∀ k, k < 4 → slotIndex num k ≠ j) : storeRecord buf num rec j = buf j := by
  unfold storeRecord
  rw [Function.update_noteq (h 3 (by omega)).symm, Function.update_noteq (h 2 (by omega)).symm,
    Function.update_noteq (h 1 (by omega)).symm, Function.update_noteq (h 0 (by omega)).symm]

theorem storeRecord_slot (buf : Nat → F32) (num : Nat) (rec : Fin 4 → F32) (k : Fin 4)
    (h : 4 * num + 3 < 4294967296) : storeRecord buf num rec (4 * num + k.val) = rec k := by
  have h0 : slotIndex num 0 = 4 * num := by unfold slotIndex; omega
  have h1 : slotIndex num 1 = 4 * num + 1 := by unfold slotIndex; omega
  have h2 : slotIndex num 2 = 4 * num + 2 := by unfold slotIndex; omega
  have h3 : slotIndex num 3 = 4 * num + 3 := by unfold slotIndex; omega
  unfold storeRecord
  rw [h0, h1, h2, h3]
  fin_cases k <;> simp [Function.update]

section
variable {K : Type} [LinearOrderedField K]

theorem genLUTCells_eq_foldl (toFloat : K → F32) (m : Libm K)
    (integ : Vec K → Vec K → IntegrateOut K) (draws : Nat → K) (junk : Uninit K)
    (rInit rmin rmax : K) (Nr Nphi : Nat) (st : LutState) :
    genLUTCells toFloat m integ draws junk rInit rmin rmax Nr Nphi st =
      (cellList Nr Nphi).foldl (fun st c =>
        lutCell toFloat m integ draws junk rInit rmin rmax Nr Nphi c.1 c.2 st) st := by
  unfold genLUTCells cellList
  rw [foldl_flatMap_rows]
  simp only [List.foldl_map]

theorem cells_frame (toFloat : K → F32) (m : Libm K)
    (integ : Vec K → Vec K → IntegrateOut K) (draws : Nat → K) (junk : Uninit K)
    (rInit rmin rmax : K) (Nr Nphi : Nat) (j : Nat) (L : List (Nat × Nat)) :
    ∀ st : LutState, (∀ c ∈ L, ∀ k, k < 4 → slotIndex (cellNum Nphi c.1 c.2) k ≠ j) →
      ((L.foldl (fun st c =>
        lutCell toFloat m integ draws junk rInit rmin rmax Nr Nphi c.1 c.2 st) st).lut_0 j
          = st.lut_0 j) ∧
      ((L.foldl (fun st c =>
        lutCell toFloat m integ draws junk rInit rmin rmax Nr Nphi c.1 c.2 st) st).lut_1 j
          = st.lut_1 j) := by
  induction L with
  | nil => intro st _; exact ⟨rfl, rfl⟩
  | cons c L ih =>
    intro st h
    rw [List.foldl_cons]
    have h1 := ih (lutCell toFloat m integ draws junk rInit rmin rmax Nr Nphi c.1 c.2 st)
      (fun c2 hc2 => h c2 (List.mem_cons_of_mem _ hc2))
    have hc := h c (List.mem_cons_self _ _)
    rw [h1.1, h1.2]
    exact ⟨storeRecord_other _ _ _ _ hc, storeRecord_other _ _ _ _ hc⟩

theorem cells_store (toFloat : K → F32) (m : Libm K)
    (integ : Vec K → Vec K → IntegrateOut K) (draws : Nat → K) (junk : Uninit K)
    (rInit rmin rmax : K) (Nr Nphi : Nat) (hsize : Nr * Nphi * 4 < 4294967296)
    (L : List (Nat × Nat)) :
    ∀ st : LutState, L.Nodup → (∀ c ∈ L, c.1 < Nr ∧ c.2 < Nphi) →
      ∀ c ∈ L, ∃ rng : Nat, ∀ k : Fin 4,
        (L.foldl (fun st c =>
          lutCell toFloat m integ draws junk rInit rmin rmax Nr Nphi c.1 c.2 st) st).lut_0
            (4 * (c.1 * Nphi + c.2) + k.val)
          = lutRecord toFloat (findGeodesic m integ draws junk 0 rInit (gridR rmin rmax Nr c.1)
              (gridPhi Nphi c.2) rng) k ∧
        (L.foldl (fun st c =>
          lutCell toFloat m integ draws junk rInit rmin rmax Nr Nphi c.1 c.2 st) st).lut_1
            (4 * (c.1 * Nphi + c.2) + k.val)
          = lutRecord toFloat (findGeodesic m integ draws junk 1 rInit (gridR rmin rmax Nr c.1)
              (2 * PI - gridPhi Nphi c.2)
              (findGeodesic m integ draws junk 0 rInit (gridR rmin rmax Nr c.1)
                (gridPhi Nphi c.2) rng).rng) k := by
  induction L with
  | nil => intro st _ _ c hc; exact absurd hc (List.not_mem_nil c)
  | cons c0 L ih =>
    intro st hnd hrange c hc
    rw [List.foldl_cons]
    rcases List.mem_cons.mp hc with rfl | hmem
    · refine ⟨st.rng, fun k => ?_⟩
      have hr := hrange c (List.mem_cons_self _ _)
      have hlt := cell_lt Nr Nphi c.1 c.2 hr.1 hr.2
      have hfr := cells_frame toFloat m integ draws junk rInit rmin rmax Nr Nphi
        (4 * (c.1 * Nphi + c.2) + k.val) L
        (lutCell toFloat m integ draws junk rInit rmin rmax Nr Nphi c.1 c.2 st) (by
          intro c2 hc2 k2 hk2
          have hr2 := hrange c2 (List.mem_cons_of_mem _ hc2)
          rw [slotIndex_inrange Nr Nphi c2.1 c2.2 k2 hsize hr2.1 hr2.2 hk2]
          intro heq
          have hk := k.isLt
          have hcell : c2.1 * Nphi + c2.2 = c.1 * Nphi + c.2 := by omega
          have hinj := cell_inj Nphi c2.1 c2.2 c.1 c.2 hr2.2 hr.2 hcell
          have : c2 = c := Prod.ext hinj.1 hinj.2
          subst this
          exact (List.nodup_cons.mp hnd).1 hc2)
      rw [hfr.1, hfr.2]
      have hnum : cellNum Nphi c.1 c.2 = c.1 * Nphi + c.2 := by
        unfold cellNum; exact Nat.mod_eq_of_lt (by omega)
      simp only [lutCell, hnum]
      exact ⟨storeRecord_slot _ _ _ k (by omega), storeRecord_slot _ _ _ k (by omega)⟩
    · exact ih _ (List.nodup_cons.mp hnd).2
        (fun c2 hc2 => hrange c2 (List.mem_cons_of_mem _ hc2)) c hmem

theorem cellList_nodup (Nr Nphi : Nat) : (cellList Nr Nphi).Nodup :=
  (List.nodup_range Nr).product (List.nodup_range Nphi)

theorem mem_cellList (Nr Nphi : Nat) (c : Nat × Nat) :
    c ∈ cellList Nr Nphi ↔ c.1 < Nr ∧ c.2 < Nphi := by
  unfold cellList
  simp only [List.mem_flatMap, List.mem_range, List.mem_map]
  constructor
  · rintro ⟨ir, hir, ip, hip, rfl⟩; exact ⟨hir, hip⟩
  · rintro ⟨h1, h2⟩; exact ⟨c.1, h1, c.2, h2, rfl⟩

end
section
variable {K : Type} [LinearOrderedField K]

/-! ## The sample grid -/

theorem pred_u32 (N : Nat) (h1 : 1 ≤ N) (h2 : N < 4294967296) :
    (N + 4294967295) % 4294967296 = N - 1 := by omega

theorem xStep_pos (rmin rmax : K) (Nr : Nat) (hNr : 2 ≤ Nr) (hNr32 : Nr < 4294967296)
    (hmin : 0 < rmin) (hlt : rmin < rmax) : 0 < xStep rmin rmax Nr := by
  unfold xStep rs
  rw [pred_u32 Nr (by omega) hNr32]
  have hD : (0 : K) < ((Nr - 1 : Nat) : K) := by exact_mod_cast (by omega : 0 < Nr - 1)
  have hmax : 0 < rmax := lt_trans hmin hlt
  apply div_pos _ hD
  have : (2 : K) / rmax < 2 / rmin := div_lt_div_of_pos_left (by norm_num) hmin hlt
  linarith

theorem gridX_pos (rmin rmax : K) (Nr ir : Nat) (hNr : 2 ≤ Nr) (hNr32 : Nr < 4294967296)
    (hmin : 0 < rmin) (hlt : rmin < rmax) :
    0 < rs / rmax + (ir : K) * xStep rmin rmax Nr := by
  have h1 := xStep_pos rmin rmax Nr hNr hNr32 hmin hlt
  have h2 : (0 : K) < rs / rmax := div_pos (by norm_num [rs]) (lt_trans hmin hlt)
  have h3 : (0 : K) ≤ (ir : K) := Nat.cast_nonneg ir
  have := mul_nonneg h3 h1.le
  linarith

theorem gridR_zero (rmin rmax : K) (Nr : Nat) : gridR rmin rmax Nr 0 = rmax := by
  unfold gridR rs
  simp only [Nat.cast_zero, zero_mul, add_zero]
  field_simp

theorem gridR_last (rmin rmax : K) (Nr : Nat) (hNr : 2 ≤ Nr) (hNr32 : Nr < 4294967296)
    (hmin : 0 < rmin) (hlt : rmin < rmax) : gridR rmin rmax Nr (Nr - 1) = rmin := by
  unfold gridR xStep rs
  rw [pred_u32 Nr (by omega) hNr32]
  have hD : ((Nr - 1 : Nat) : K) ≠ 0 := by
    have : (0 : K) < ((Nr - 1 : Nat) : K) := by exact_mod_cast (by omega : 0 < Nr - 1)
    exact this.ne'
  have hmax : rmax ≠ 0 := (lt_trans hmin hlt).ne'
  have hmin' : rmin ≠ 0 := hmin.ne'
  generalize ((Nr - 1 : Nat) : K) = D at hD
  have e : (2 : K) / rmax + D * ((2 / rmin - 2 / rmax) / D) = 2 / rmin := by
    field_simp
    ring
  rw [e]
  field_simp

theorem gridR_anti (rmin rmax : K) (Nr i j : Nat) (hNr : 2 ≤ Nr) (hNr32 : Nr < 4294967296)
    (hmin : 0 < rmin) (hlt : rmin < rmax) (hij : i < j) :
    gridR rmin rmax Nr j < gridR rmin rmax Nr i := by
  unfold gridR
  have hs := xStep_pos rmin rmax Nr hNr hNr32 hmin hlt
  have hi := gridX_pos rmin rmax Nr i hNr hNr32 hmin hlt
  apply div_lt_div_of_pos_left (by norm_num [rs]) hi
  have : (i : K) < (j : K) := by exact_mod_cast hij
  have := mul_lt_mul_of_pos_right this hs
  linarith

theorem gridR_mono (rmin rmax : K) (Nr i j : Nat) (hNr : 2 ≤ Nr) (hNr32 : Nr < 4294967296)
    (hmin : 0 < rmin) (hlt : rmin < rmax) (hij : i ≤ j) :
    gridR rmin rmax Nr j ≤ gridR rmin rmax Nr i := by
  rcases Nat.eq_or_lt_of_le hij with h | h
  · rw [h]
  · exact (gridR_anti rmin rmax Nr i j hNr hNr32 hmin hlt h).le

theorem gridPhi_last (Nphi : Nat) (hN : 2 ≤ Nphi) (hN32 : Nphi < 4294967296) :
    gridPhi Nphi (Nphi - 1) = (PI - 1 / 10000 : K) := by
  unfold gridPhi phiStep
  rw [pred_u32 Nphi (by omega) hN32]
  have hD : ((Nphi - 1 : Nat) : K) ≠ 0 := by
    have : (0 : K) < ((Nphi - 1 : Nat) : K) := by exact_mod_cast (by omega : 0 < Nphi - 1)
    exact this.ne'
  generalize ((Nphi - 1 : Nat) : K) = D at hD
  field_simp
  ring

end
section
variable {K : Type} [LinearOrderedField K]
variable (m : Libm K) (rfuel : Nat) (ystart ymax : Vec K) (eps : K)
  (derivs : K → Vec K → Vec K) (breakCond : Vec K → Bool)
  (found : Vec K → Vec K → Vec K → K → Bool × K)

/-! ## The loop of `integrate` -/

theorem integrateLoop_eq_run (bound : Nat) (hb : bound + 1 < 4294967296) (n : Nat) :
    ∀ (fuel nstp : Nat) (s : StepState K), n < fuel → 1 ≤ nstp → nstp + n = bound + 1 →
      integrateLoop m rfuel ystart ymax bound eps derivs breakCond found fuel nstp s.y s.x s.h s.t
        = integrateRun m rfuel ystart ymax eps derivs breakCond found n s := by
  induction n with
  | zero =>
    intro fuel nstp s hf h1 hn
    obtain ⟨f, rfl⟩ : ∃ f, fuel = f + 1 := ⟨fuel - 1, by omega⟩
    have : ¬ nstp ≤ bound := by omega
    simp [integrateLoop, integrateRun, this]
  | succ n ih =>
    intro fuel nstp s hf h1 hn
    obtain ⟨f, rfl⟩ : ∃ f, fuel = f + 1 := ⟨fuel - 1, by omega⟩
    have hle : nstp ≤ bound := by omega
    simp only [integrateLoop, integrateRun, integrateStep, hle, if_true]
    cases hr : rkqs m rfuel s.y (derivs s.x s.y) s.x s.h eps
        (fun i => |s.y i| + |derivs s.x s.y i * s.h| + TINY) derivs with
    | none => rfl
    | some r =>
      have hmod : (nstp + 1) % 4294967296 = nstp + 1 := Nat.mod_eq_of_lt (by omega)
      have h := ih f (nstp + 1)
        { y := r.y, yprev := s.y, x := r.x, h := r.hnext,
          t := (found r.y s.y ymax s.t).2, crossed := (found r.y s.y ymax s.t).1 }
        (by omega) (by omega) (by omega)
      cases hbr : breakCond r.y
      · cases hfo : (found r.y s.y ymax s.t).1
        · simpa [hbr, hfo, hmod] using h
        · simp [hbr, hfo]
      · simp [hbr]

end
section
variable {K : Type} [LinearOrderedField K]
variable (m : Libm K) (rfuel : Nat) (ystart ymax : Vec K) (eps : K)
  (derivs : K → Vec K → Vec K) (breakCond : Vec K → Bool)
  (found : Vec K → Vec K → Vec K → K → Bool × K)

theorem stateAfter_succ_some (k : Nat) (s s1 : StepState K)
    (h : integrateStep m rfuel ymax eps derivs found s = some s1) :
    stateAfter m rfuel ymax eps derivs found (k + 1) s
      = stateAfter m rfuel ymax eps derivs found k s1 := by
  simp [stateAfter, h]

theorem stateAfter_succ_none (k : Nat) (s : StepState K)
    (h : integrateStep m rfuel ymax eps derivs found s = none) :
    stateAfter m rfuel ymax eps derivs found (k + 1) s = none := by
  simp [stateAfter, h]

theorem stateAfter_one (s s1 : StepState K)
    (h : integrateStep m rfuel ymax eps derivs found s = some s1) :
    stateAfter m rfuel ymax eps derivs found 1 s = some s1 := by
  simp [stateAfter, h]

theorem integrateRun_true_iff (n : Nat) :
    ∀ (s0 : StepState K) (out : Vec K),
      integrateRun m rfuel ystart ymax eps derivs breakCond found n s0 = some ⟨true, out⟩ ↔
        ∃ k s, 1 ≤ k ∧ k ≤ n ∧ CrossesAt m rfuel ymax eps derivs breakCond found s0 k s ∧
          out = interpolate s.y s.yprev s.t := by
  induction n with
  | zero =>
    intro s0 out
    simp only [integrateRun]
    constructor
    · intro h; simp at h
    · rintro ⟨k, s, h1, h2, _⟩; omega
  | succ n ih =>
    intro s0 out
    simp only [integrateRun]
    cases hs : integrateStep m rfuel ymax eps derivs found s0 with
    | none =>
      simp only []
      constructor
      · intro h; simp at h
      · rintro ⟨k, s, h1, _, hc, _⟩
        obtain ⟨k, rfl⟩ : ∃ k2, k = k2 + 1 := ⟨k - 1, by omega⟩
        rw [CrossesAt, stateAfter_succ_none m rfuel ymax eps derivs found k s0 hs] at hc
        simp at hc
    | some s1 =>
      simp only []
      have hone := stateAfter_one m rfuel ymax eps derivs found s0 s1 hs
      cases hbr : breakCond s1.y
      · cases hcr : s1.crossed
        · -- no break, no crossing: continue
          simp only [Bool.false_eq_true, if_false]
          rw [ih s1 out]
          constructor
          · rintro ⟨k, s, h1, h2, ⟨hst, hc, hb, hall⟩, ho⟩
            refine ⟨k + 1, s, by omega, by omega, ⟨?_, hc, hb, ?_⟩, ho⟩
            · rw [stateAfter_succ_some m rfuel ymax eps derivs found k s0 s1 hs]; exact hst
            · intro j hj1 hj2
              obtain ⟨j, rfl⟩ : ∃ j2, j = j2 + 1 := ⟨j - 1, by omega⟩
              rw [stateAfter_succ_some m rfuel ymax eps derivs found j s0 s1 hs]
              rcases Nat.eq_zero_or_pos j with rfl | hpos
              · exact ⟨s1, rfl, hbr, hcr⟩
              · exact hall j hpos (by omega)
          · rintro ⟨k, s, h1, h2, ⟨hst, hc, hb, hall⟩, ho⟩
            obtain ⟨k, rfl⟩ : ∃ k2, k = k2 + 1 := ⟨k - 1, by omega⟩
            rw [stateAfter_succ_some m rfuel ymax eps derivs found k s0 s1 hs] at hst
            rcases Nat.eq_zero_or_pos k with rfl | hpos
            · simp only [stateAfter, Option.some.injEq] at hst
              rw [← hst, hcr] at hc
              exact absurd hc (by simp)
            · refine ⟨k, s, hpos, by omega, ⟨hst, hc, hb, ?_⟩, ho⟩
              intro j hj1 hj2
              have := hall (j + 1) (by omega) (by omega)
              rwa [stateAfter_succ_some m rfuel ymax eps derivs found j s0 s1 hs] at this
        · -- crossing at the first step
          simp only [Bool.false_eq_true, if_false, if_true]
          constructor
          · intro h
            simp only [Option.some.injEq, IntegrateOut.mk.injEq, true_and] at h
            exact ⟨1, s1, le_refl 1, by omega, ⟨hone, hcr, hbr, fun j h1 h2 => by omega⟩, h.symm⟩
          · rintro ⟨k, s, h1, h2, ⟨hst, hc, hb, hall⟩, ho⟩
            rcases Nat.lt_or_ge 1 k with hk | hk
            · obtain ⟨sj, hsj, _, hcj⟩ := hall 1 (le_refl 1) hk
              rw [hone, Option.some.injEq] at hsj
              rw [← hsj, hcr] at hcj
              exact absurd hcj (by simp)
            · have hk1 : k = 1 := by omega
              subst hk1
              rw [hone, Option.some.injEq] at hst
              subst hst
              rw [ho]
      · -- break at the first step
        simp only [if_true]
        constructor
        · intro h; simp at h
        · rintro ⟨k, s, h1, h2, ⟨hst, hc, hb, hall⟩, ho⟩
          rcases Nat.lt_or_ge 1 k with hk | hk
          · obtain ⟨sj, hsj, hbj, _⟩ := hall 1 (le_refl 1) hk
            rw [hone, Option.some.injEq] at hsj
            rw [← hsj, hbr] at hbj
            exact absurd hbj (by simp)
          · have hk1 : k = 1 := by omega
            subst hk1
            rw [hone, Option.some.injEq] at hst
            rw [← hst, hbr] at hb
            exact absurd hb (by simp)

theorem integrateRun_returns
    (hstep : ∀ s : StepState K, (integrateStep m rfuel ymax eps derivs found s).isSome = true)
    (n : Nat) :
    ∀ s0 : StepState K,
      ∃ r, integrateRun m rfuel ystart ymax eps derivs breakCond found n s0 = some r := by
  induction n with
  | zero => intro s0; exact ⟨_, rfl⟩
  | succ n ih =>
    intro s0
    obtain ⟨s1, hs⟩ := Option.isSome_iff_exists.mp (hstep s0)
    simp only [integrateRun, hs]
    cases hbr : breakCond s1.y
    · cases hcr : s1.crossed
      · simpa using ih s1
      · simp
    · simp

end
section
variable {K : Type} [LinearOrderedField K]

/-! ## A run of `integrate` on a constant slope -/

theorem rkck_unitPhi (y : Vec K) (x h : K) :
    rkck y (unitPhi x y) x h unitPhi = (fun i => y i + h * unitPhi x y i, fun _ => 0) := by
  unfold rkck
  ext i
  · simp only [unitPhi]
    norm_num [c1, c3, c4, c6]
    left
    ring
  · simp only [unitPhi]
    norm_num [dc1, dc3, dc4, dc5, dc6, c1, c3, c4, c6]
    right
    ring

theorem rkqsErrmax_zero (yscal : Vec K) (eps : K) : rkqsErrmax (fun _ => 0) yscal eps = 0 := by
  simp [rkqsErrmax, MAX, List.finRange, List.foldl]

theorem rkqs_unitPhi (m : Libm K) (rfuel : Nat) (y : Vec K) (x h eps : K) (yscal : Vec K) :
    rkqs m (rfuel + 1) y (unitPhi x y) x h eps yscal unitPhi
      = some { y := fun i => y i + h * unitPhi x y i, x := x + h, hdid := h, hnext := 5 * h } := by
  have h0 : ¬ ((0 : K) > ERRCON) := by norm_num [ERRCON]
  simp [rkqs, rkqsLoop, rkck_unitPhi, rkqsErrmax_zero, h0]

end

section
variable {K : Type} [LinearOrderedField K]
variable (m : Libm K) (rfuel : Nat) (ystart ymax : Vec K) (eps : K)
  (derivs : K → Vec K → Vec K) (breakCond : Vec K → Bool)
  (found : Vec K → Vec K → Vec K → K → Bool × K)

theorem CrossesAt_one (s s1 : StepState K)
    (hs : integrateStep m rfuel ymax eps derivs found s = some s1)
    (hbr : breakCond s1.y = false) (hcr : s1.crossed = true) :
    CrossesAt m rfuel ymax eps derivs breakCond found s 1 s1 :=
  ⟨stateAfter_one m rfuel ymax eps derivs found s s1 hs, hcr, hbr, fun j h1 h2 => by omega⟩

theorem CrossesAt_succ (s s1 s2 : StepState K) (k : Nat)
    (hs : integrateStep m rfuel ymax eps derivs found s = some s1)
    (hbr : breakCond s1.y = false) (hcr : s1.crossed = false)
    (h : CrossesAt m rfuel ymax eps derivs breakCond found s1 k s2) :
    CrossesAt m rfuel ymax eps derivs breakCond found s (k + 1) s2 := by
  obtain ⟨hst, hc, hb, hall⟩ := h
  refine ⟨?_, hc, hb, ?_⟩
  · rw [stateAfter_succ_some m rfuel ymax eps derivs found k s s1 hs]; exact hst
  · intro j hj1 hj2
    obtain ⟨j, rfl⟩ : ∃ j2, j = j2 + 1 := ⟨j - 1, by omega⟩
    rw [stateAfter_succ_some m rfuel ymax eps derivs found j s s1 hs]
    rcases Nat.eq_zero_or_pos j with rfl | hpos
    · exact ⟨s1, rfl, hbr, hcr⟩
    · exact hall j hpos (by omega)

theorem integrateLoop_some (bound : Nat) (fuel : Nat) :
    ∀ (nstp : Nat) (s : StepState K) (r : IntegrateOut K),
      integrateLoop m rfuel ystart ymax bound eps derivs breakCond found fuel nstp s.y s.x s.h s.t
        = some r →
      (r.valid = false → r.ystart = ystart) ∧
      (r.valid = true → ∃ k s2, 1 ≤ k ∧
        CrossesAt m rfuel ymax eps derivs breakCond found s k s2 ∧
        r.ystart = interpolate s2.y s2.yprev s2.t) := by
  induction fuel with
  | zero => intro nstp s r h; simp [integrateLoop] at h
  | succ f ih =>
    intro nstp s r h
    simp only [integrateLoop] at h
    by_cases hle : nstp ≤ bound
    · simp only [hle, if_true] at h
      cases hr : rkqs m rfuel s.y (derivs s.x s.y) s.x s.h eps
          (fun i => |s.y i| + |derivs s.x s.y i * s.h| + TINY) derivs with
      | none => rw [hr] at h; simp at h
      | some q =>
        rw [hr] at h
        have hs : integrateStep m rfuel ymax eps derivs found s
            = some { y := q.y, yprev := s.y, x := q.x, h := q.hnext,
                     t := (found q.y s.y ymax s.t).2, crossed := (found q.y s.y ymax s.t).1 } := by
          simp [integrateStep, hr]
        cases hbr : breakCond q.y
        · cases hfo : (found q.y s.y ymax s.t).1
          · simp only [hbr, hfo, Bool.false_eq_true, if_false] at h
            obtain ⟨h1, h2⟩ := ih _
              { y := q.y, yprev := s.y, x := q.x, h := q.hnext,
                t := (found q.y s.y ymax s.t).2, crossed := (found q.y s.y ymax s.t).1 } r h
            refine ⟨h1, fun hv => ?_⟩
            obtain ⟨k, s2, hk, hc, ho⟩ := h2 hv
            exact ⟨k + 1, s2, by omega,
              CrossesAt_succ m rfuel ymax eps derivs breakCond found s _ s2 k hs hbr hfo hc, ho⟩
          · simp only [hbr, hfo, Bool.false_eq_true, if_false, if_true, Option.some.injEq] at h
            subst h
            refine ⟨fun hv => by simp at hv, fun _ => ⟨1, _, le_refl 1,
              CrossesAt_one m rfuel ymax eps derivs breakCond found s _ hs hbr hfo, rfl⟩⟩
        · simp only [hbr, if_true, Option.some.injEq] at h
          subst h
          exact ⟨fun _ => rfl, fun hv => by simp at hv⟩
    · simp only [hle, if_false, Option.some.injEq] at h
      subst h
      exact ⟨fun _ => rfl, fun hv => by simp at hv⟩

theorem integrateStep_isSome
    (hq : ∀ y dydx x h yscal, (rkqs m rfuel y dydx x h eps yscal derivs).isSome = true)
    (s : StepState K) : (integrateStep m rfuel ymax eps derivs found s).isSome = true := by
  unfold integrateStep
  obtain ⟨q, hq2⟩ := Option.isSome_iff_exists.mp (hq s.y (derivs s.x s.y) s.x s.h
    (fun i => |s.y i| + |derivs s.x s.y i * s.h| + TINY))
  simp [hq2]

theorem integrate_returns (fuel : Nat) (t0 : K) (maxSteps : Int) (h1 hmin : K)
    (hq : ∀ y dydx x h yscal, (rkqs m rfuel y dydx x h eps yscal derivs).isSome = true)
    (hb : (maxSteps % 4294967296).toNat + 1 < 4294967296)
    (hfuel : (maxSteps % 4294967296).toNat < fuel) :
    ∃ r, integrate m rfuel fuel t0 ystart ymax maxSteps eps h1 hmin derivs breakCond found
      = some r := by
  unfold integrate
  have h := integrateLoop_eq_run m rfuel ystart ymax eps derivs breakCond found
    (maxSteps % 4294967296).toNat hb (maxSteps % 4294967296).toNat fuel 1
    (startState t0 ystart h1) hfuel (le_refl 1) (by omega)
  simp only [startState] at h
  rw [h]
  exact integrateRun_returns m rfuel ystart ymax eps derivs breakCond found
    (integrateStep_isSome m rfuel ymax eps derivs found hq) _ _

end

section
variable {K : Type} [LinearOrderedField K]

theorem integrate_sample (m : Libm K) (rfuel fuel : Nat) (t0 : K) (maxSteps : Int)
    (eps hmin : K) (hb : 1 ≤ (maxSteps % 4294967296).toNat) :
    integrate m (rfuel + 1) (fuel + 1) t0 sampleY sampleYmax maxSteps eps (1 / 100) hmin unitPhi
        schwarzschild_breakCondition schwarzschild_found
      = some ⟨true, ![0, 10, 1 / 200, 0, 0, 0]⟩ := by
  unfold integrate
  simp only [integrateLoop, hb, if_true]
  rw [rkqs_unitPhi]
  have hbr : schwarzschild_breakCondition
      (fun i => (sampleY : Vec K) i + 1 / 100 * unitPhi (0 : K) sampleY i) = false := by
    simp [schwarzschild_breakCondition, sampleY, unitPhi, rs]
    norm_num
  have hfo : schwarzschild_found
      (fun i => (sampleY : Vec K) i + 1 / 100 * unitPhi (0 : K) sampleY i) sampleY sampleYmax t0
      = (true, 1 / 2) := by
    simp [schwarzschild_found, sampleY, sampleYmax, unitPhi]
    norm_num
  simp only [hbr, hfo, Bool.false_eq_true, if_false, if_true]
  congr 2
  ext i
  fin_cases i
  · simp [interpolate, sampleY, unitPhi]
  · simp [interpolate, sampleY, unitPhi]; norm_num
  · simp [interpolate, sampleY, unitPhi]; norm_num
  · simp [interpolate, sampleY, unitPhi]
  · simp [interpolate, sampleY, unitPhi]
  · show (0 : K) * (1 - 1 / 2) + 1 / 2 * (0 + 1 / 100 * 0) = 0
    norm_num

end

/-! ## The search started on the photon sphere -/

section
variable {K : Type} [LinearOrderedField K]

/-- The search started on the photon sphere (`rInit = 3`, `order = 1`): when
`sqrt(1) = 1` and `asin(1) = PI / 2`, both bracket endpoints are `PI / 2`, the loop
body never runs, and the result is valid with `cnt = 0` and the uninitialised
locals as outputs. -/
theorem findGeodesic_photon_sphere (m : Libm K) (integ : Vec K → Vec K → IntegrateOut K)
    (draws : Nat → K) (junk : Uninit K) (rFinal phiFinal : K) (rng : Nat)
    (hsqrt : m.sqrt 1 = 1) (hasin : m.asin 1 = PI / 2) :
    findGeodesic m integ draws junk 1 3 rFinal phiFinal rng =
      { valid := true, ksi := junk.ksiC, dt := junk.dtC, derr := junk.drC, cnt := 0,
        u := junk.uC, rng := rng } := by
  have hk : schwarzschild_ksiCrit m (3 : K) = PI / 2 := by
    unfold schwarzschild_ksiCrit rs
    have : (675 / 100 * 2 * 2 / (3 * 3) * (1 - 2 / 3) : K) = 1 := by norm_num
    simp only [this, hsqrt, hasin]
  unfold findGeodesic
  simp only [hk]
  have hgap : ¬ (|PI / 2 - (PI - PI / 2)| > (ksi_eps : K)) := by
    have : (PI / 2 - (PI - PI / 2) : K) = 0 := by ring
    rw [this]
    norm_num [ksi_eps]
  rw [searchLoop_exit _ _ _ _ (fun h => hgap (by simpa using h.2.1))]
  simp [MaxTries]

end

/-! ## The crossing test and the state written back -/

section
variable {K : Type} [LinearOrderedField K]

theorem found_fraction (y yprev yend : Vec K) (h : y 2 > yend 2) (hp : yprev 2 ≤ yend 2) :
    0 ≤ (yend 2 - yprev 2) / (y 2 - yprev 2) ∧ (yend 2 - yprev 2) / (y 2 - yprev 2) < 1 ∧
    yprev 2 * (1 - (yend 2 - yprev 2) / (y 2 - yprev 2))
      + (yend 2 - yprev 2) / (y 2 - yprev 2) * y 2 = yend 2 := by
  have hd : 0 < y 2 - yprev 2 := by linarith
  refine ⟨div_nonneg (by linarith) hd.le, (div_lt_one hd).mpr (by linarith), ?_⟩
  field_simp
  ring

/-- While the azimuth of the current state is not beyond the target, a run of
the loop of `integrate` with `schwarzschild_found` that ends with true leaves
the target azimuth in `ystart[2]`. -/
theorem integrateLoop_phi (m : Libm K) (rfuel : Nat) (ystart ymax : Vec K) (bound : Nat)
    (eps : K) (derivs : K → Vec K → Vec K) (breakCond : Vec K → Bool) (fuel : Nat) :
    ∀ (nstp : Nat) (y : Vec K) (x h t : K) (r : IntegrateOut K), y 2 ≤ ymax 2 →
      integrateLoop m rfuel ystart ymax bound eps derivs breakCond schwarzschild_found
        fuel nstp y x h t = some r →
      r.valid = true → r.ystart 2 = ymax 2 := by
  induction fuel with
  | zero =>
    intro nstp y x h t r _ hr
    simp [integrateLoop] at hr
  | succ fuel ih =>
    intro nstp y x h t r hy hr hv
    rw [integrateLoop] at hr
    by_cases hb : nstp ≤ bound
    · simp only [hb, if_true] at hr
      cases hq : rkqs m rfuel y (derivs x y) x h eps
          (fun i => |y i| + |derivs x y i * h| + TINY) derivs with
      | none => simp [hq] at hr
      | some q =>
        simp only [hq] at hr
        by_cases hbr : breakCond q.y = true
        · simp only [hbr, if_true, Option.some.injEq] at hr
          rw [← hr] at hv
          exact absurd hv (by simp)
        · have hbr2 : breakCond q.y = false := by simpa using hbr
          simp only [hbr2, Bool.false_eq_true, if_false] at hr
          by_cases hf : q.y 2 > ymax 2
          · have e : schwarzschild_found q.y y ymax t
                = (true, (ymax 2 - y 2) / (q.y 2 - y 2)) := by
              simp [schwarzschild_found, hf]
            simp only [e, if_true, Option.some.injEq] at hr
            rw [← hr]
            exact (found_fraction q.y y ymax hf hy).2.2
          · have e : schwarzschild_found q.y y ymax t = (false, t) := by
              simp [schwarzschild_found, hf]
            simp only [e, Bool.false_eq_true, if_false] at hr
            exact ih _ _ _ _ _ r (not_lt.mp hf) hr hv
    · simp only [hb, if_false, Option.some.injEq] at hr
      rw [← hr] at hv
      exact absurd hv (by simp)

end

/-! ## The Cash-Karp step on a polynomial right-hand side -/

theorem rkck_quartic {K : Type} [LinearOrderedField K] (p : Fin 5 → Vec K) (y : Vec K)
    (x h : K) (i : Fin 6) :
    (rkck y (quartic p x) x h (fun t _ => quartic p t)).1 i
      = y i + (quarticPrimitive p (x + h) i - quarticPrimitive p x i) := by
  simp only [rkck, quartic, quarticPrimitive, c1, c3, c4, c6, a3, a4, a6]
  ring

theorem quartic_integral (p : Fin 5 → Vec ℝ) (x h : ℝ) (i : Fin 6) :
    ∫ t in x..(x + h), quartic p t i = quarticPrimitive p (x + h) i - quarticPrimitive p x i := by
  refine intervalIntegral.integral_eq_sub_of_hasDerivAt
    (f := fun t => quarticPrimitive p t i) ?_ ?_
  · intro t _
    unfold quarticPrimitive quartic
    have h1 : HasDerivAt (fun t : ℝ => p 0 i * t) (p 0 i) t := by
      simpa using (hasDerivAt_id t).const_mul (p 0 i)
    have h2 : HasDerivAt (fun t : ℝ => p 1 i * t ^ 2 / 2) (p 1 i * t) t := by
      have := ((hasDerivAt_pow 2 t).const_mul (p 1 i)).div_const 2
      convert this using 1
      simp
      ring
    have h3 : HasDerivAt (fun t : ℝ => p 2 i * t ^ 3 / 3) (p 2 i * t ^ 2) t := by
      have := ((hasDerivAt_pow 3 t).const_mul (p 2 i)).div_const 3
      convert this using 1
      simp
      ring
    have h4 : HasDerivAt (fun t : ℝ => p 3 i * t ^ 4 / 4) (p 3 i * t ^ 3) t := by
      have := ((hasDerivAt_pow 4 t).const_mul (p 3 i)).div_const 4
      convert this using 1
      simp
      ring
    have h5 : HasDerivAt (fun t : ℝ => p 4 i * t ^ 5 / 5) (p 4 i * t ^ 4) t := by
      have := ((hasDerivAt_pow 5 t).const_mul (p 4 i)).div_const 5
      convert this using 1
      simp
      ring
    exact (((h1.add h2).add h3).add h4).add h5
  · apply Continuous.intervalIntegrable
    unfold quartic
    continuity

/-! ## The flat-space seed angle -/

/-- The triangle with the sides `rI`, `rF` and the angle `phi` between them
(`c = cos phi`, `sn = sin phi > 0`, opposite side `d`): no line through the
corner at distance `rI` whose direction has the sine `rI / d * sn` and a
non-negative cosine `C` passes through the corner at distance `rF`. -/
theorem flat_line_misses (rI rF c sn d C s : ℝ) (hrI : 0 < rI) (hrF : 0 < rF) (hsn : 0 < sn)
    (hcs : sn ^ 2 + c ^ 2 = 1) (hd : 0 < d) (hd2 : d ^ 2 = rI * rI + rF * rF - 2 * rI * rF * c)
    (hC0 : 0 ≤ C) (hC2 : C ^ 2 = 1 - (rI / d * sn) ^ 2)
    (h1 : rI + s * C = rF * c) (h2 : s * (rI / d * sn) = rF * sn) : False := by
  have hc1 : c < 1 := by nlinarith
  have hs : s * rI = rF * d := by
    have : s * rI * sn = rF * d * sn := by
      field_simp at h2
      linarith
    exact mul_right_cancel₀ hsn.ne' this
  have hs0 : 0 < s := by
    have : 0 < s * rI := by rw [hs]; positivity
    exact (pos_iff_pos_of_mul_pos this).mpr hrI
  have hdC : d ^ 2 * C ^ 2 = (rF - rI * c) ^ 2 := by
    rw [hC2]
    have hdne : d ≠ 0 := hd.ne'
    field_simp
    nlinarith
  have hge : rI ≤ rF * c := by nlinarith [mul_nonneg hs0.le hC0]
  have hc0 : 0 < c := by
    by_contra hcon
    have : rF * c ≤ 0 := mul_nonpos_of_nonneg_of_nonpos hrF.le (not_lt.mp hcon)
    linarith
  have hlt : rI < rF := by nlinarith
  have hpos : 0 < rF - rI * c := by nlinarith
  have hsq : (rI * (rF * c - rI)) ^ 2 = (rF * (rF - rI * c)) ^ 2 := by
    have e1 : rI * (rF * c - rI) = rI * s * C := by rw [← h1]; ring
    have e2 : rI * s * C = rF * d * C := by rw [← hs]; ring
    rw [e1, e2, mul_pow rF, ← hdC]
    ring
  have heq : rI * (rF * c - rI) = rF * (rF - rI * c) := by
    have ha : 0 ≤ rI * (rF * c - rI) := mul_nonneg hrI.le (by linarith)
    have hb : 0 ≤ rF * (rF - rI * c) := mul_nonneg hrF.le hpos.le
    exact (sq_eq_sq₀ ha hb).mp hsq
  nlinarith [mul_pos hrI hrF, sq_nonneg (rF - rI)]

/-! ## The basis of the plane through the X axis -/

theorem calcBase_eq (m : Libm ℝ) (hm : m.IsReal) (p : Vec3 ℝ) :
    calcBase m p = (![1, 0, 0],
      ![0, p 1 / Real.sqrt (p 1 ^ 2 + p 2 ^ 2), p 2 / Real.sqrt (p 1 ^ 2 + p 2 ^ 2)]) := by
  obtain ⟨hsqrt, -, -, -, -⟩ := hm
  simp only [calcBase, normalize, crossProd, hsqrt]
  simp only [Matrix.cons_val_zero, Matrix.cons_val_one, Matrix.head_cons, Matrix.cons_val_two,
    Matrix.tail_cons]
  norm_num
  simp only [sq, div_eq_mul_inv]

theorem yz_part_pos (p : Vec3 ℝ) (hp : p 1 ≠ 0 ∨ p 2 ≠ 0) : 0 < p 1 ^ 2 + p 2 ^ 2 := by
  rcases hp with h | h
  · have := sq_nonneg (p 2)
    have := pow_pos (abs_pos.mpr h) 2
    rw [sq_abs] at this
    linarith
  · have := sq_nonneg (p 1)
    have := pow_pos (abs_pos.mpr h) 2
    rw [sq_abs] at this
    linarith

/-! ## The search loop pass by pass -/

section
variable {K : Type} [LinearOrderedField K]

theorem searchLoop_pass (geo : K → K × K → GeoOut K) (draws : Nat → K) (flatKsi : K)
    (s : Search K)
    (h : |s.drA - s.drB| > HitRadiusSphere ∧ |s.ksiA - s.ksiB| > ksi_eps ∧ s.count < MaxTries) :
    searchLoop geo draws flatKsi s =
      if |(searchTrial geo draws flatKsi s).drC| < 1 / 1000000000000000 ∧
          (searchTrial geo draws flatKsi s).validC = true then
        searchBreak s (searchTrial geo draws flatKsi s)
      else searchLoop geo draws flatKsi (bracketUpdate s (searchTrial geo draws flatKsi s)) := by
  rw [searchLoop]
  simp only [h, dite_true, and_self]
  change (if |(searchTrial geo draws flatKsi s).drC| < 1 / 1000000000000000 ∧
      (searchTrial geo draws flatKsi s).validC = true then
        searchBreak s (searchTrial geo draws flatKsi s)
      else if (searchTrial geo draws flatKsi s).drC * s.drA < 0 then
        searchLoop geo draws flatKsi _
      else searchLoop geo draws flatKsi _) = _
  by_cases hb : |(searchTrial geo draws flatKsi s).drC| < 1 / 1000000000000000 ∧
      (searchTrial geo draws flatKsi s).validC = true
  · rw [if_pos hb, if_pos hb]
  · rw [if_neg hb, if_neg hb]
    unfold bracketUpdate
    by_cases hc : (searchTrial geo draws flatKsi s).drC * s.drA < 0
    · rw [if_pos hc, if_pos hc]
      rfl
    · rw [if_neg hc, if_neg hc]
      rfl

theorem searchTrace_pass (geo : K → K × K → GeoOut K) (draws : Nat → K) (flatKsi : K)
    (s : Search K)
    (h : |s.drA - s.drB| > HitRadiusSphere ∧ |s.ksiA - s.ksiB| > ksi_eps ∧ s.count < MaxTries) :
    searchTrace geo draws flatKsi s =
      if |(searchTrial geo draws flatKsi s).drC| < 1 / 1000000000000000 ∧
          (searchTrial geo draws flatKsi s).validC = true then
        (true, searchBreak s (searchTrial geo draws flatKsi s))
      else searchTrace geo draws flatKsi (bracketUpdate s (searchTrial geo draws flatKsi s)) := by
  rw [searchTrace]
  simp only [h, dite_true, and_self]

theorem searchTrace_exit (geo : K → K × K → GeoOut K) (draws : Nat → K) (flatKsi : K)
    (s : Search K)
    (h : ¬ (|s.drA - s.drB| > HitRadiusSphere ∧ |s.ksiA - s.ksiB| > ksi_eps ∧
      s.count < MaxTries)) :
    searchTrace geo draws flatKsi s = (false, s) := by
  rw [searchTrace]; simp only [h, dite_false]

theorem bracketUpdate_count (s : Search K) (tr : Trial K) :
    (bracketUpdate s tr).count = s.count + 1 := by
  unfold bracketUpdate
  split <;> rfl

/-- The second component of `searchTrace` is `searchLoop`. -/
theorem searchTrace_snd (geo : K → K × K → GeoOut K) (draws : Nat → K) (flatKsi : K) (n : Nat) :
    ∀ s : Search K, MaxTries - s.count = n →
      (searchTrace geo draws flatKsi s).2 = searchLoop geo draws flatKsi s := by
  induction n using Nat.strong_induction_on with
  | _ n ih =>
    intro s hn
    by_cases h : |s.drA - s.drB| > HitRadiusSphere ∧ |s.ksiA - s.ksiB| > ksi_eps ∧
        s.count < MaxTries
    · rw [searchTrace_pass _ _ _ _ h, searchLoop_pass _ _ _ _ h]
      split
      · rfl
      · exact ih (MaxTries - (s.count + 1)) (by omega) _ (by rw [bracketUpdate_count])
    · rw [searchTrace_exit _ _ _ _ h, searchLoop_exit _ _ _ _ h]

/-- The outputs of `findGeodesic` are read off the locals that
`findGeodesicTrace` reports. -/
theorem findGeodesic_eq_trace (m : Libm K) (integ : Vec K → Vec K → IntegrateOut K)
    (draws : Nat → K) (junk : Uninit K) (order : Int) (rInit rFinal phiFinal : K) (rng : Nat) :
    findGeodesic m integ draws junk order rInit rFinal phiFinal rng =
      { valid := decide
          ((findGeodesicTrace m integ draws junk order rInit rFinal phiFinal rng).2.count
            < MaxTries)
        ksi := (findGeodesicTrace m integ draws junk order rInit rFinal phiFinal rng).2.ksiC
        dt := (findGeodesicTrace m integ draws junk order rInit rFinal phiFinal rng).2.dtC
        derr := (findGeodesicTrace m integ draws junk order rInit rFinal phiFinal rng).2.drC
        cnt := (findGeodesicTrace m integ draws junk order rInit rFinal phiFinal rng).2.count
        u := (findGeodesicTrace m integ draws junk order rInit rFinal phiFinal rng).2.uC
        rng := (findGeodesicTrace m integ draws junk order rInit rFinal phiFinal rng).2.rng } := by
  unfold findGeodesicTrace
  rw [searchTrace_snd _ _ _ _ _ rfl]
  rfl

/-- The inner loop ends with a valid trial or with the mismatch that the last
invalid call left. -/
theorem randomLoop_valid_or_dr (geo : K → K × K → GeoOut K) (draws : Nat → K) (ksiA ksiB D : K)
    (hgeo : ∀ ksi u, (geo ksi u).valid = false → (geo ksi u).dr = D) (n : Nat) :
    ∀ s : Trial K, MaxRandomTries - s.randomCount = n → s.validC = false →
      (s.randomCount < MaxRandomTries ∨ s.drC = D) →
      (randomLoop geo draws ksiA ksiB s).validC = false →
      (randomLoop geo draws ksiA ksiB s).drC = D := by
  induction n using Nat.strong_induction_on with
  | _ n ih =>
    intro s hn hv hs
    by_cases hc : s.randomCount < MaxRandomTries
    · rw [randomLoop]
      have h1 : s.validC = false ∧ s.randomCount < MaxRandomTries := ⟨hv, hc⟩
      simp only [h1, dite_true, and_self]
      by_cases hg : (geo s.ksiC s.uC).valid = false
      · simp only [hg, if_true]
        exact ih (MaxRandomTries - (s.randomCount + 1)) (by omega) _ rfl rfl
          (Or.inr (hgeo _ _ hg))
      · simp only [hg, if_false]
        have hd := randomLoop_done geo draws ksiA ksiB
          { validC := true, ksiC := s.ksiC, drC := (geo s.ksiC s.uC).dr,
            dtC := (geo s.ksiC s.uC).dt, uC := (geo s.ksiC s.uC).u,
            randomCount := s.randomCount, rng := s.rng } (fun h => Bool.noConfusion h.1)
        rw [hd]
        intro h
        exact Bool.noConfusion h
    · rw [randomLoop_done _ _ _ _ _ (fun h => hc h.2)]
      intro _
      exact hs.resolve_left hc

theorem searchTrial_valid_or_dr (geo : K → K × K → GeoOut K) (draws : Nat → K) (flatKsi D : K)
    (hgeo : ∀ ksi u, (geo ksi u).valid = false → (geo ksi u).dr = D) (s : Search K) :
    (searchTrial geo draws flatKsi s).validC = false →
      (searchTrial geo draws flatKsi s).drC = D :=
  randomLoop_valid_or_dr geo draws s.ksiA s.ksiB D hgeo _ _ rfl rfl
    (Or.inl (by simp [MaxRandomTries]))

/-- An invalid call of `calcGeodesicUpTo` leaves `dr = 1e12`. -/
theorem calcGeodesicUpTo_dr (m : Libm K) (integ : Vec K → Vec K → IntegrateOut K)
    (rInit ksi rFinal phiFinal : K) (u : K × K)
    (h : (calcGeodesicUpTo m integ rInit ksi rFinal phiFinal u).valid = false) :
    (calcGeodesicUpTo m integ rInit ksi rFinal phiFinal u).dr = 1000000000000 := by
  unfold calcGeodesicUpTo at h ⊢
  by_cases hv : (integ ( schwarzschild_initialize m rInit ksi).2
      ![10000000000, rFinal, phiFinal, 0, 0, 0]).valid = true
  · simp [hv] at h
  · simp [hv]

/-- The bracket update keeps a sign change when the trial mismatch is not
zero. -/
theorem bracketUpdate_sign (s : Search K) (tr : Trial K) (hsign : s.drA * s.drB < 0)
    (hC : tr.drC ≠ 0) : (bracketUpdate s tr).drA * (bracketUpdate s tr).drB < 0 := by
  unfold bracketUpdate
  by_cases hc : tr.drC * s.drA < 0
  · rw [if_pos hc]
    show s.drA * tr.drC < 0
    rw [mul_comm]
    exact hc
  · rw [if_neg hc]
    show tr.drC * s.drB < 0
    have hA : s.drA ≠ 0 := fun h0 => by rw [h0, zero_mul] at hsign; exact lt_irrefl _ hsign
    have hpos : 0 < tr.drC * s.drA := lt_of_le_of_ne (not_lt.mp hc) (mul_ne_zero hC hA).symm
    have hAA : 0 < s.drA * s.drA := mul_self_pos.mpr hA
    by_contra hcon
    have h1 : 0 ≤ tr.drC * s.drB := not_lt.mp hcon
    have h2 : 0 ≤ (tr.drC * s.drB) * (s.drA * s.drA) := mul_nonneg h1 hAA.le
    have h3 : (tr.drC * s.drA) * (s.drA * s.drB) < 0 := mul_neg_of_pos_of_neg hpos hsign
    have h4 : (tr.drC * s.drB) * (s.drA * s.drA) = (tr.drC * s.drA) * (s.drA * s.drB) := by ring
    rw [h4] at h2
    exact absurd h3 (not_lt.mpr h2)

theorem trial_dr_ne_zero (tr : Trial K) (hdr : tr.validC = false → tr.drC = 1000000000000)
    (hno : ¬ (|tr.drC| < 1 / 1000000000000000 ∧ tr.validC = true)) : tr.drC ≠ 0 := by
  intro h0
  by_cases hv : tr.validC = true
  · apply hno
    refine ⟨?_, hv⟩
    rw [h0, abs_zero]
    norm_num
  · have := hdr (by simpa using hv)
    rw [h0] at this
    norm_num at this

/-- A search loop entered with a sign change between `drA` and `drB` ends with
one, whichever way it is left. -/
theorem searchTrace_keeps_sign (geo : K → K × K → GeoOut K) (draws : Nat → K) (flatKsi : K)
    (hgeo : ∀ ksi u, (geo ksi u).valid = false → (geo ksi u).dr = 1000000000000) (n : Nat) :
    ∀ s : Search K, MaxTries - s.count = n → s.drA * s.drB < 0 →
      (searchTrace geo draws flatKsi s).2.drA * (searchTrace geo draws flatKsi s).2.drB < 0 := by
  induction n using Nat.strong_induction_on with
  | _ n ih =>
    intro s hn hsign
    by_cases h : |s.drA - s.drB| > HitRadiusSphere ∧ |s.ksiA - s.ksiB| > ksi_eps ∧
        s.count < MaxTries
    · rw [searchTrace_pass _ _ _ _ h]
      by_cases hb : |(searchTrial geo draws flatKsi s).drC| < 1 / 1000000000000000 ∧
          (searchTrial geo draws flatKsi s).validC = true
      · rw [if_pos hb]
        exact hsign
      · rw [if_neg hb]
        exact ih (MaxTries - (s.count + 1)) (by omega) _ (by rw [bracketUpdate_count])
          (bracketUpdate_sign s _ hsign
            (trial_dr_ne_zero _ (searchTrial_valid_or_dr geo draws flatKsi _ hgeo s) hb))
    · rw [searchTrace_exit _ _ _ _ h]
      exact hsign

/-- When the two mismatches that `findGeodesic` starts from (sentinels put in)
have opposite signs, so have the two it ends with. -/
theorem findGeodesicTrace_keeps_sign (m : Libm K) (integ : Vec K → Vec K → IntegrateOut K)
    (draws : Nat → K) (junk : Uninit K) (order : Int) (rInit rFinal phiFinal : K) (rng : Nat)
    (h : (findGeodesicStart m integ junk order rInit rFinal phiFinal rng).drA
      * (findGeodesicStart m integ junk order rInit rFinal phiFinal rng).drB < 0) :
    (findGeodesicTrace m integ draws junk order rInit rFinal phiFinal rng).2.drA
      * (findGeodesicTrace m integ draws junk order rInit rFinal phiFinal rng).2.drB < 0 :=
  searchTrace_keeps_sign _ draws _
    (fun ksi u => calcGeodesicUpTo_dr m integ rInit ksi rFinal phiFinal u) _ _ rfl h

theorem searchTrial_noCrossing (m : Libm K) (t flatKsi rInit rFinal phiFinal : K)
    (s : Search K) :
    (searchTrial (calcGeodesicUpTo m noCrossing rInit · rFinal phiFinal) (fun _ => t)
      flatKsi s).validC = false := by
  have h := randomLoop_invalid (calcGeodesicUpTo m noCrossing rInit · rFinal phiFinal) t
    s.ksiA s.ksiB 1000000000000 1000000000000
    (fun ksi u => calcGeodesicUpTo_invalid m rInit ksi rFinal phiFinal u)
    (MaxRandomTries - 1)
    { validC := false, ksiC := if s.count = 0 then flatKsi else (s.ksiA + s.ksiB) * (1 / 2),
      drC := s.drC, dtC := s.dtC, uC := s.uC, randomCount := 0, rng := s.rng }
    rfl (by simp [MaxRandomTries])
  exact congrArg Trial.validC h

theorem sampleSearch_cond :
    |(sampleSearch : Search K).drA - (sampleSearch : Search K).drB| > HitRadiusSphere ∧
      |(sampleSearch : Search K).ksiA - (sampleSearch : Search K).ksiB| > ksi_eps ∧
      (sampleSearch : Search K).count < MaxTries := by
  norm_num [sampleSearch, HitRadiusSphere, ksi_eps, MaxTries, PI, abs_of_pos, abs_of_neg]

theorem sampleSearch_sign :
    (sampleSearch : Search K).drA * (sampleSearch : Search K).drB < 0 := by
  norm_num [sampleSearch]

theorem calcGeodesicUpTo_onCircle (m : Libm K) (rInit ksi rFinal phiFinal : K) (u : K × K) :
    (calcGeodesicUpTo m onCircle rInit ksi rFinal phiFinal u).valid = true ∧
    (calcGeodesicUpTo m onCircle rInit ksi rFinal phiFinal u).dr = rInit - rFinal := by
  simp [calcGeodesicUpTo, onCircle, schwarzschild_initialize]

end

/-! ## The stores of the parallel loop -/

theorem ompStore_slot (buf : Nat → F32) (n : Nat) (rec : Fin 4 → F32) (k : Fin 4) :
    ompStore buf n rec (4 * n + k.val) = rec k := by
  unfold ompStore
  fin_cases k
  · simp [Function.update]
  · simp [Function.update]
  · simp [Function.update]
  · simp [Function.update]

theorem ompStore_other (buf : Nat → F32) (n : Nat) (rec : Fin 4 → F32) (j : Nat)
    (h : j < 4 * n ∨ 4 * n + 4 ≤ j) : ompStore buf n rec j = buf j := by
  unfold ompStore
  have h0 : j ≠ 4 * n + 0 := by omega
  have h1 : j ≠ 4 * n + 1 := by omega
  have h2 : j ≠ 4 * n + 2 := by omega
  have h3 : j ≠ 4 * n + 3 := by omega
  rw [Function.update_noteq h3, Function.update_noteq h2, Function.update_noteq h1,
    Function.update_noteq h0]

/-! ## The error test and the step sizes of `rkqs` -/

section
variable {K : Type} [LinearOrderedField K]

/-- The macro `MAX` is the maximum. -/
theorem MAX_eq_max (x y : K) : MAX x y = max x y := by
  unfold MAX
  by_cases h : x > y
  · rw [if_pos h, max_eq_left h.le]
  · rw [if_neg h, max_eq_right (not_lt.mp h)]

/-- The macro `MIN` is the minimum. -/
theorem MIN_eq_min (x y : K) : MIN x y = min x y := by
  unfold MIN
  by_cases h : x < y
  · rw [if_pos h, min_eq_left h.le]
  · rw [if_neg h, min_eq_right (not_lt.mp h)]

/-- The scaled error is the largest of the six quotients `|yerr_i / yscal_i|`,
divided by `eps`. -/
theorem rkqsErrmax_max (yerr yscal : Vec K) (eps : K) :
    ∃ j, (∀ i, |yerr i / yscal i| ≤ |yerr j / yscal j|) ∧
      rkqsErrmax yerr yscal eps = |yerr j / yscal j| / eps := by
  obtain ⟨j, -, hj⟩ := Finset.exists_max_image Finset.univ (fun i => |yerr i / yscal i|)
    ⟨0, Finset.mem_univ _⟩
  refine ⟨j, fun i => hj i (Finset.mem_univ _), ?_⟩
  have e : (List.finRange 6).foldl (fun errmax i => MAX errmax |yerr i / yscal i|) 0
      = |yerr j / yscal j| := by
    simp only [List.finRange, List.foldl, MAX_eq_max]
    apply le_antisymm
    · simp only [max_le_iff]
      refine ⟨⟨⟨⟨⟨⟨abs_nonneg _, ?_⟩, ?_⟩, ?_⟩, ?_⟩, ?_⟩, ?_⟩ <;> exact hj _ (Finset.mem_univ _)
    · fin_cases j <;> simp [le_max_iff]
  unfold rkqsErrmax
  rw [e]

/-- What the retry loop returns is a trial that passed the error test, with the
error and the `ytemp` of that trial. -/
theorem rkqsLoop_some (m : Libm K) (y dydx : Vec K) (x eps : K) (yscal : Vec K)
    (derivs : K → Vec K → Vec K) (fuel : Nat) :
    ∀ (h : K) (res : K × K × Vec K),
      rkqsLoop m y dydx x eps yscal derivs fuel h = some res →
      res.2.1 = rkqsErrmax (rkck y dydx x res.1 derivs).2 yscal eps ∧ res.2.1 ≤ 1 ∧
        res.2.2 = (rkck y dydx x res.1 derivs).1 := by
  induction fuel with
  | zero =>
    intro h res hr
    simp [rkqsLoop] at hr
  | succ fuel ih =>
    intro h res hr
    rw [rkqsLoop] at hr
    by_cases he : rkqsErrmax (rkck y dydx x h derivs).2 yscal eps ≤ 1
    · simp only [he, if_true, Option.some.injEq] at hr
      rw [← hr]
      exact ⟨rfl, he, rfl⟩
    · simp only [he, if_false] at hr
      exact ih _ res hr

/-- What `rkqs` returns: the step `hdid` passed the error test, `x` moved by `hdid`,
`y` is the `yout` of that step, and `hnext` follows the two branches. -/
theorem rkqs_some (m : Libm K) (fuel : Nat) (y dydx : Vec K) (x htry eps : K) (yscal : Vec K)
    (derivs : K → Vec K → Vec K) (r : RkqsOut K)
    (hr : rkqs m fuel y dydx x htry eps yscal derivs = some r) :
    rkqsErrmax (rkck y dydx x r.hdid derivs).2 yscal eps ≤ 1 ∧ r.x = x + r.hdid ∧
      r.y = (rkck y dydx x r.hdid derivs).1 ∧
      r.hnext = (if rkqsErrmax (rkck y dydx x r.hdid derivs).2 yscal eps > ERRCON then
        SAFETY * r.hdid * m.pow (rkqsErrmax (rkck y dydx x r.hdid derivs).2 yscal eps) PGROW
        else 5 * r.hdid) := by
  unfold rkqs at hr
  cases hl : rkqsLoop m y dydx x eps yscal derivs fuel htry with
  | none => simp [hl] at hr
  | some res =>
    obtain ⟨h, e, yt⟩ := res
    obtain ⟨h1, h2, h3⟩ := rkqsLoop_some m y dydx x eps yscal derivs fuel htry _ hl
    simp only [hl, Option.some.injEq] at hr
    simp only at h1 h2 h3
    subst h1 h3
    rw [← hr]
    exact ⟨h2, rfl, rfl, rfl⟩

end

/-- The step after a rejected trial, from the bounds `0 < p < 1` on the factor
`pow(errmax, PSHRNK)`. -/
theorem rkqsShrink_bounds {K : Type} [LinearOrderedField K] (m : Libm K) (h errmax : K)
    (hp0 : 0 < m.pow errmax PSHRNK) (hp1 : m.pow errmax PSHRNK < 1) (hh : h ≠ 0) :
    (0 < h → 0 < rkqsShrink m h errmax) ∧ (h < 0 → rkqsShrink m h errmax < 0) ∧
    1 / 10 * |h| ≤ |rkqsShrink m h errmax| ∧ |rkqsShrink m h errmax| < 9 / 10 * |h| := by
  unfold rkqsShrink SAFETY
  simp only [MAX_eq_max, MIN_eq_min]
  generalize m.pow errmax PSHRNK = p at hp0 hp1
  rcases lt_or_gt_of_ne hh with hneg | hpos
  · have hge : ¬ (h ≥ 0) := not_le.mpr hneg
    simp only [hge, if_false]
    have h1 : 9 / 10 * h * p < 0 := by nlinarith
    have h2 : 9 / 10 * h < 9 / 10 * h * p := by nlinarith
    have hm : min (9 / 10 * h * p) (1 / 10 * h) < 0 := lt_of_le_of_lt (min_le_left _ _) h1
    refine ⟨fun hc => absurd hc (not_lt.mpr hneg.le), fun _ => hm, ?_, ?_⟩
    · rw [abs_of_neg hneg, abs_of_neg hm]
      have := min_le_right (9 / 10 * h * p) (1 / 10 * h)
      linarith
    · rw [abs_of_neg hneg, abs_of_neg hm]
      have : 9 / 10 * h < min (9 / 10 * h * p) (1 / 10 * h) := lt_min h2 (by linarith)
      linarith
  · have hge : h ≥ 0 := hpos.le
    simp only [hge, if_true]
    have h1 : 0 < 9 / 10 * h * p := by positivity
    have h2 : 9 / 10 * h * p < 9 / 10 * h := by nlinarith
    have hm : 0 < max (9 / 10 * h * p) (1 / 10 * h) := lt_of_lt_of_le h1 (le_max_left _ _)
    refine ⟨fun _ => hm, fun hc => absurd hc (not_lt.mpr hpos.le), ?_, ?_⟩
    · rw [abs_of_pos hpos, abs_of_pos hm]
      exact le_max_right _ _
    · rw [abs_of_pos hpos, abs_of_pos hm]
      exact max_lt h2 (by linarith)

/-- The factor of the next step after an accepted one. -/
theorem grow_factor (e : ℝ) (hE : ERRCON < e) (h1 : e ≤ 1) :
    1 ≤ e ^ (PGROW : ℝ) ∧ e ^ (PGROW : ℝ) < 50 / 9 := by
  have he0 : (0 : ℝ) < e := lt_trans (by norm_num [ERRCON]) hE
  have hneg : (PGROW : ℝ) < 0 := by norm_num [PGROW]
  refine ⟨Real.one_le_rpow_of_pos_of_le_one_of_nonpos he0 h1 hneg.le, ?_⟩
  have hb : ((9 / 50 : ℝ) ^ (5 : ℕ)) < e := lt_trans (by norm_num [ERRCON]) hE
  have hb0 : (0 : ℝ) < (9 / 50 : ℝ) ^ (5 : ℕ) := by positivity
  have h2 : e ^ (PGROW : ℝ) < ((9 / 50 : ℝ) ^ (5 : ℕ)) ^ (PGROW : ℝ) :=
    Real.rpow_lt_rpow_of_neg hb0 hb hneg
  have h3 : ((9 / 50 : ℝ) ^ (5 : ℕ)) ^ (PGROW : ℝ) = 50 / 9 := by
    rw [← Real.rpow_natCast, ← Real.rpow_mul (by norm_num)]
    have : ((5 : ℕ) : ℝ) * PGROW = -1 := by norm_num [PGROW]
    rw [this, Real.rpow_neg_one]
    norm_num
  rw [h3] at h2
  exact h2

section
variable {K : Type} [LinearOrderedField K]

/-- The trial with step 1 on the right-hand side `x ^ 4`, from 0, has the scaled
error 2 for `eps = 277 / 819200`. -/
theorem rkqsErrmax_sample :
    rkqsErrmax (rkck (fun _ => (0 : K)) (fun _ => 0) 0 1 (fun x _ _ => x ^ 4)).2 (fun _ => 1)
      (277 / 819200) = 2 := by
  simp only [rkqsErrmax, rkck, MAX, List.finRange, List.foldl]
  norm_num [a2, a3, a4, a5, a6, dc1, dc3, dc4, dc5, dc6, c1, c3, c4, c6, abs_of_neg, abs_of_pos]

end

/-! ## The critical angle -/

section
variable {K : Type} [LinearOrderedField K]

end

/-- The critical angle at `r = 40` is below 1. -/
theorem ksiCrit_forty (m : Libm ℝ) (hm : m.IsReal) : schwarzschild_ksiCrit m 40 < 1 := by
  obtain ⟨hsqrt, -, -, hasin, -⟩ := hm
  simp only [schwarzschild_ksiCrit, hsqrt, hasin]
  have hs : Real.sqrt (675 / 100 * rs * rs / (40 * 40) * (1 - rs / 40)) < 3 / 4 := by
    rw [Real.sqrt_lt' (by norm_num)]
    norm_num [rs]
  have h1 : (3 / 4 : ℝ) < Real.sin 1 := by
    have := Real.sin_gt_sub_cube (x := 1) one_pos le_rfl
    norm_num at this
    linarith
  rw [Real.arcsin_lt_iff_lt_sin' ⟨by linarith [Real.pi_gt_three], by linarith [Real.pi_gt_three]⟩]
  linarith

/-- The upper end `PI - ksiCrit` of the order-1 bracket is positive. -/
theorem ksiB_pos (m : Libm ℝ) (hm : m.IsReal) (r : ℝ) :
    0 < PI - schwarzschild_ksiCrit m r := by
  obtain ⟨hsqrt, -, -, hasin, -⟩ := hm
  simp only [schwarzschild_ksiCrit, hsqrt, hasin]
  have h1 := Real.arcsin_le_pi_div_two
    (Real.sqrt (675 / 100 * rs * rs / (r * r) * (1 - rs / r)))
  have h2 := Real.pi_lt_d2
  have h3 : (PI : ℝ) = 3141592653589793 / 1000000000000000 := rfl
  rw [h3]
  linarith

/-! ## The right-hand side along a curve -/

/-- The four components of `schwarzschild_derivs` that are not zero, with `pow(r,
3)` written as a power. -/
theorem derivs_components (m : Libm ℝ) (hm : m.IsReal) (x : ℝ) (y : Vec ℝ) :
    schwarzschild_derivs m x y 1 = y 4 ∧
    schwarzschild_derivs m x y 3 = -rs / (y 1 * (y 1 - rs)) * y 3 * y 4 ∧
    schwarzschild_derivs m x y 4
      = -(1 / 2) * rs * (y 1 - rs) / y 1 ^ 3 * y 3 * y 3
        + 1 / 2 * rs / (y 1 * (y 1 - rs)) * y 4 * y 4 + (y 1 - rs) * y 5 * y 5 ∧
    schwarzschild_derivs m x y 5 = -2 / y 1 * y 4 * y 5 := by
  have hp : m.pow (y 1) 3 = y 1 ^ 3 := by
    rw [hm.2.2.2.2]
    exact_mod_cast Real.rpow_natCast (y 1) 3
  refine ⟨rfl, rfl, ?_, rfl⟩
  show -(1 / 2) * rs * (y 1 - rs) / m.pow (y 1) 3 * y 3 * y 3
        + 1 / 2 * rs / (y 1 * (y 1 - rs)) * y 4 * y 4 + (y 1 - rs) * y 5 * y 5 = _
  rw [hp]

/-- The straight line through a state along the right-hand side has the right-hand
side as its velocity at the state. -/
theorem tangentLine_hasDerivAt (m : Libm ℝ) (y0 : Vec ℝ) (i : Fin 6) :
    HasDerivAt (fun t => tangentLine m y0 t i)
      (schwarzschild_derivs m 0 (tangentLine m y0 0) i) 0 := by
  have e : tangentLine m y0 0 = y0 := by
    funext j
    simp [tangentLine]
  rw [e]
  unfold tangentLine
  simpa using ((hasDerivAt_id (0 : ℝ)).mul_const (schwarzschild_derivs m 0 y0 i)).const_add (y0 i)

/-- The straight line through a state starts at the state. -/
theorem tangentLine_zero (m : Libm ℝ) (y0 : Vec ℝ) (i : Fin 6) :
    tangentLine m y0 0 i = y0 i := by
  simp [tangentLine]

/-! ## The cells in row-major order -/

/-- The numbers below `(Nr + 1) * Nphi` are those below `Nr * Nphi` followed by one
more row. -/
theorem range_mul_succ (Nr Nphi : Nat) :
    List.range ((Nr + 1) * Nphi)
      = List.range (Nr * Nphi) ++ (List.range Nphi).map (fun ip => Nr * Nphi + ip) := by
  have e : (Nr + 1) * Nphi = Nr * Nphi + Nphi := by ring
  rw [e, List.range_add]

/-- The row-major enumeration: the numbers `0 .. Nr * Nphi - 1` in order, each with
its quotient and remainder by `Nphi`, are the cells `(ir, ip)` in the order of
the nested loops, each with `ir * Nphi + ip`. -/
theorem range_rowMajor (Nr Nphi : Nat) :
    (List.range (Nr * Nphi)).map (fun n => (n, n / Nphi, n % Nphi))
      = (cellList Nr Nphi).map (fun c => (c.1 * Nphi + c.2, c.1, c.2)) := by
  induction Nr with
  | zero => simp [cellList]
  | succ Nr ih =>
    rw [range_mul_succ, List.map_append, ih]
    unfold cellList
    rw [List.range_succ, List.flatMap_append, List.map_append]
    congr 1
    simp only [List.flatMap_singleton, List.map_map]
    apply List.map_congr_left
    intro ip hip
    have hip2 : ip < Nphi := List.mem_range.mp hip
    have hpos : 0 < Nphi := by omega
    simp only [Function.comp]
    have e1 : (Nr * Nphi + ip) / Nphi = Nr := by
      rw [Nat.add_comm, Nat.add_mul_div_right _ _ hpos, Nat.div_eq_of_lt hip2, Nat.zero_add]
    have e2 : (Nr * Nphi + ip) % Nphi = ip := by
      rw [Nat.add_comm, Nat.add_mul_mod_self_right, Nat.mod_eq_of_lt hip2]
    rw [e1, e2]

/-- The cell numbers of the nested loops when `Nr * Nphi` fits `unsigned int`. -/
theorem serialCells_eq (Nr Nphi : Nat) (h : Nr * Nphi < 4294967296) :
    serialCells Nr Nphi = (cellList Nr Nphi).map (fun c => (c.1 * Nphi + c.2, c.1, c.2)) := by
  unfold serialCells
  apply List.map_congr_left
  intro c hc
  have hc2 := (mem_cellList Nr Nphi c).mp hc
  have := cell_lt Nr Nphi c.1 c.2 hc2.1 hc2.2
  unfold cellNum
  rw [Nat.mod_eq_of_lt (by omega)]

/-! ## The cost of the search -/

section
variable {K : Type} [LinearOrderedField K]

/-- The inner loop makes no call when its condition fails. -/
theorem randomLoopCalls_done (geo : K → K × K → GeoOut K) (draws : Nat → K) (ksiA ksiB : K)
    (s : Trial K) (h : ¬ (s.validC = false ∧ s.randomCount < MaxRandomTries)) :
    randomLoopCalls geo draws ksiA ksiB s = 0 := by
  rw [randomLoopCalls]; simp only [h, dite_false]

/-- The inner loop makes at most as many calls as its budget leaves. -/
theorem randomLoopCalls_le (geo : K → K × K → GeoOut K) (draws : Nat → K) (ksiA ksiB : K)
    (n : Nat) :
    ∀ s : Trial K, MaxRandomTries - s.randomCount = n →
      randomLoopCalls geo draws ksiA ksiB s ≤ MaxRandomTries - s.randomCount := by
  induction n using Nat.strong_induction_on with
  | _ n ih =>
    intro s hn
    by_cases hc : s.validC = false ∧ s.randomCount < MaxRandomTries
    · rw [randomLoopCalls]
      simp only [hc, dite_true, and_self]
      by_cases hg : (geo s.ksiC s.uC).valid = false
      · simp only [hg, if_true]
        have := ih (MaxRandomTries - (s.randomCount + 1)) (by omega)
          { validC := false, ksiC := ksiA * (1 - draws s.rng) + draws s.rng * ksiB,
            drC := (geo s.ksiC s.uC).dr, dtC := (geo s.ksiC s.uC).dt,
            uC := (geo s.ksiC s.uC).u, randomCount := s.randomCount + 1,
            rng := s.rng + 1 } rfl
        simp only at this
        omega
      · have hv : (geo s.ksiC s.uC).valid = true := by simpa using hg
        simp only [hv, Bool.true_eq_false, if_false]
        have hd := randomLoopCalls_done geo draws ksiA ksiB
          { validC := true, ksiC := s.ksiC, drC := (geo s.ksiC s.uC).dr,
            dtC := (geo s.ksiC s.uC).dt, uC := (geo s.ksiC s.uC).u,
            randomCount := s.randomCount, rng := s.rng } (fun h => Bool.noConfusion h.1)
        rw [hd]
        omega
    · rw [randomLoopCalls_done _ _ _ _ _ hc]
      exact Nat.zero_le _

/-- One pass of the search makes at most `MaxRandomTries` calls. -/
theorem searchTrialCalls_le (geo : K → K × K → GeoOut K) (draws : Nat → K) (flatKsi : K)
    (s : Search K) : searchTrialCalls geo draws flatKsi s ≤ MaxRandomTries :=
  randomLoopCalls_le geo draws s.ksiA s.ksiB _ _ rfl

/-- The cost of the search when the loop condition holds. -/
theorem searchCost_pass (geo : K → K × K → GeoOut K) (draws : Nat → K) (flatKsi : K)
    (s : Search K)
    (h : |s.drA - s.drB| > HitRadiusSphere ∧ |s.ksiA - s.ksiB| > ksi_eps ∧ s.count < MaxTries) :
    searchCost geo draws flatKsi s =
      if |(searchTrial geo draws flatKsi s).drC| < 1 / 1000000000000000 ∧
          (searchTrial geo draws flatKsi s).validC = true then
        (1, searchTrialCalls geo draws flatKsi s)
      else
        (1 + (searchCost geo draws flatKsi
            (bracketUpdate s (searchTrial geo draws flatKsi s))).1,
          searchTrialCalls geo draws flatKsi s
            + (searchCost geo draws flatKsi
              (bracketUpdate s (searchTrial geo draws flatKsi s))).2) := by
  rw [searchCost]
  simp only [h, dite_true, and_self]

/-- The cost of the search when the loop condition fails. -/
theorem searchCost_exit (geo : K → K × K → GeoOut K) (draws : Nat → K) (flatKsi : K)
    (s : Search K)
    (h : ¬ (|s.drA - s.drB| > HitRadiusSphere ∧ |s.ksiA - s.ksiB| > ksi_eps ∧
      s.count < MaxTries)) :
    searchCost geo draws flatKsi s = (0, 0) := by
  rw [searchCost]; simp only [h, dite_false]

/-- The search loop makes at most `MaxTries - count` passes, each with at most
`MaxRandomTries` calls. -/
theorem searchCost_le (geo : K → K × K → GeoOut K) (draws : Nat → K) (flatKsi : K) (n : Nat) :
    ∀ s : Search K, MaxTries - s.count = n →
      (searchCost geo draws flatKsi s).1 ≤ MaxTries - s.count ∧
      (searchCost geo draws flatKsi s).2 ≤ (MaxTries - s.count) * MaxRandomTries := by
  induction n using Nat.strong_induction_on with
  | _ n ih =>
    intro s hn
    by_cases h : |s.drA - s.drB| > HitRadiusSphere ∧ |s.ksiA - s.ksiB| > ksi_eps ∧
        s.count < MaxTries
    · rw [searchCost_pass _ _ _ _ h]
      have hcalls := searchTrialCalls_le geo draws flatKsi s
      have hcnt : s.count < MaxTries := h.2.2
      have e : (MaxTries - s.count) * MaxRandomTries
          = MaxRandomTries + (MaxTries - (s.count + 1)) * MaxRandomTries := by
        have : MaxTries - s.count = (MaxTries - (s.count + 1)) + 1 := by omega
        rw [this, Nat.add_mul, Nat.one_mul, Nat.add_comm]
      by_cases hb : |(searchTrial geo draws flatKsi s).drC| < 1 / 1000000000000000 ∧
          (searchTrial geo draws flatKsi s).validC = true
      · rw [if_pos hb]
        refine ⟨by simp only; omega, ?_⟩
        simp only
        rw [e]
        omega
      · rw [if_neg hb]
        have hrec := ih (MaxTries - (s.count + 1)) (by omega)
          (bracketUpdate s (searchTrial geo draws flatKsi s)) (by rw [bracketUpdate_count])
        rw [bracketUpdate_count] at hrec
        refine ⟨by simp only; omega, ?_⟩
        simp only
        rw [e]
        omega
    · rw [searchCost_exit _ _ _ _ h]
      exact ⟨Nat.zero_le _, Nat.zero_le _⟩

/-- The counter `count` never passes `MaxTries`. -/
theorem searchLoop_count_le (geo : K → K × K → GeoOut K) (draws : Nat → K) (flatKsi : K)
    (n : Nat) :
    ∀ s : Search K, MaxTries - s.count = n → s.count ≤ MaxTries →
      (searchLoop geo draws flatKsi s).count ≤ MaxTries := by
  induction n using Nat.strong_induction_on with
  | _ n ih =>
    intro s hn hs
    by_cases h : |s.drA - s.drB| > HitRadiusSphere ∧ |s.ksiA - s.ksiB| > ksi_eps ∧
        s.count < MaxTries
    · rw [searchLoop_pass _ _ _ _ h]
      by_cases hb : |(searchTrial geo draws flatKsi s).drC| < 1 / 1000000000000000 ∧
          (searchTrial geo draws flatKsi s).validC = true
      · rw [if_pos hb]
        exact hs
      · rw [if_neg hb]
        have hcnt : s.count < MaxTries := h.2.2
        exact ih (MaxTries - (s.count + 1)) (by omega) _ (by rw [bracketUpdate_count])
          (by rw [bracketUpdate_count]; omega)
    · rw [searchLoop_exit _ _ _ _ h]
      exact hs

end

/-! ## The trial angles of the search -/

section
variable {K : Type} [LinearOrderedField K]

/-- A convex combination of two points of an interval stays in the interval. -/
theorem mix_mem (a b t lo hi : K) (ht0 : 0 ≤ t) (ht1 : t ≤ 1) (ha : lo ≤ a ∧ a ≤ hi)
    (hb : lo ≤ b ∧ b ≤ hi) : lo ≤ a * (1 - t) + t * b ∧ a * (1 - t) + t * b ≤ hi := by
  have h1 : 0 ≤ 1 - t := by linarith
  constructor
  · nlinarith [mul_nonneg h1 (sub_nonneg.mpr ha.1), mul_nonneg ht0 (sub_nonneg.mpr hb.1)]
  · nlinarith [mul_nonneg h1 (sub_nonneg.mpr ha.2), mul_nonneg ht0 (sub_nonneg.mpr hb.2)]

/-- The midpoint of two points of an interval stays in the interval. -/
theorem mid_mem (a b lo hi : K) (ha : lo ≤ a ∧ a ≤ hi) (hb : lo ≤ b ∧ b ≤ hi) :
    lo ≤ (a + b) * (1 / 2) ∧ (a + b) * (1 / 2) ≤ hi := by
  constructor <;> linarith [ha.1, ha.2, hb.1, hb.2]

/-- The trial angle that the inner loop ends with stays between the bounds of the
bracket when it starts there. -/
theorem randomLoop_ksiC_mem (geo : K → K × K → GeoOut K) (draws : Nat → K) (ksiA ksiB lo hi : K)
    (hdraws : ∀ n, 0 ≤ draws n ∧ draws n ≤ 1)
    (hA : lo ≤ ksiA ∧ ksiA ≤ hi) (hB : lo ≤ ksiB ∧ ksiB ≤ hi) (n : Nat) :
    ∀ s : Trial K, MaxRandomTries - s.randomCount = n → lo ≤ s.ksiC ∧ s.ksiC ≤ hi →
      lo ≤ (randomLoop geo draws ksiA ksiB s).ksiC ∧
        (randomLoop geo draws ksiA ksiB s).ksiC ≤ hi := by
  induction n using Nat.strong_induction_on with
  | _ n ih =>
    intro s hn hs
    by_cases hc : s.validC = false ∧ s.randomCount < MaxRandomTries
    · rw [randomLoop]
      simp only [hc, dite_true, and_self]
      by_cases hg : (geo s.ksiC s.uC).valid = false
      · simp only [hg, if_true]
        exact ih (MaxRandomTries - (s.randomCount + 1)) (by omega)
          { validC := false, ksiC := ksiA * (1 - draws s.rng) + draws s.rng * ksiB,
            drC := (geo s.ksiC s.uC).dr, dtC := (geo s.ksiC s.uC).dt,
            uC := (geo s.ksiC s.uC).u, randomCount := s.randomCount + 1,
            rng := s.rng + 1 } rfl
          (mix_mem ksiA ksiB _ lo hi (hdraws _).1 (hdraws _).2 hA hB)
      · have hv : (geo s.ksiC s.uC).valid = true := by simpa using hg
        simp only [hv, Bool.true_eq_false, if_false]
        have hd := randomLoop_done geo draws ksiA ksiB
          { validC := true, ksiC := s.ksiC, drC := (geo s.ksiC s.uC).dr,
            dtC := (geo s.ksiC s.uC).dt, uC := (geo s.ksiC s.uC).u,
            randomCount := s.randomCount, rng := s.rng } (fun h => Bool.noConfusion h.1)
        rw [hd]
        exact hs
    · rw [randomLoop_done _ _ _ _ _ hc]
      exact hs

/-- The first call of the inner loop is made at the trial angle the pass starts
with: the seed in the first pass, the midpoint afterwards. -/
theorem searchTrial_first (geo : K → K × K → GeoOut K) (draws : Nat → K) (flatKsi : K)
    (s : Search K) :
    searchTrial geo draws flatKsi s =
      if (geo (if s.count = 0 then flatKsi else (s.ksiA + s.ksiB) * (1 / 2)) s.uC).valid
          = false then
        randomLoop geo draws s.ksiA s.ksiB
          { validC := false, ksiC := s.ksiA * (1 - draws s.rng) + draws s.rng * s.ksiB,
            drC := (geo (if s.count = 0 then flatKsi else (s.ksiA + s.ksiB) * (1 / 2)) s.uC).dr,
            dtC := (geo (if s.count = 0 then flatKsi else (s.ksiA + s.ksiB) * (1 / 2)) s.uC).dt,
            uC := (geo (if s.count = 0 then flatKsi else (s.ksiA + s.ksiB) * (1 / 2)) s.uC).u,
            randomCount := 1, rng := s.rng + 1 }
      else
        { validC := true,
          ksiC := if s.count = 0 then flatKsi else (s.ksiA + s.ksiB) * (1 / 2),
          drC := (geo (if s.count = 0 then flatKsi else (s.ksiA + s.ksiB) * (1 / 2)) s.uC).dr,
          dtC := (geo (if s.count = 0 then flatKsi else (s.ksiA + s.ksiB) * (1 / 2)) s.uC).dt,
          uC := (geo (if s.count = 0 then flatKsi else (s.ksiA + s.ksiB) * (1 / 2)) s.uC).u,
          randomCount := 0, rng := s.rng } := by
  unfold searchTrial
  generalize (if s.count = 0 then flatKsi else (s.ksiA + s.ksiB) * (1 / 2)) = c
  simp only
  rw [randomLoop]
  have hc : (false = false ∧ 0 < MaxRandomTries) := ⟨rfl, by norm_num [MaxRandomTries]⟩
  simp only [hc, dite_true, and_self]
  by_cases hg : (geo c s.uC).valid = false
  · simp only [hg, if_true, Nat.zero_add]
  · have hv : (geo c s.uC).valid = true := by simpa using hg
    simp only [hv, Bool.true_eq_false, if_false]
    exact randomLoop_done geo draws s.ksiA s.ksiB _ (fun h => Bool.noConfusion h.1)

/-- The trial angle a pass ends with lies between the bounds of the bracket, unless
it is a valid seed from outside. -/
theorem searchTrial_ksiC_mem (geo : K → K × K → GeoOut K) (draws : Nat → K) (flatKsi lo hi : K)
    (hdraws : ∀ n, 0 ≤ draws n ∧ draws n ≤ 1) (s : Search K)
    (hA : lo ≤ s.ksiA ∧ s.ksiA ≤ hi) (hB : lo ≤ s.ksiB ∧ s.ksiB ≤ hi)
    (hseed : s.count = 0 → (geo flatKsi s.uC).valid = false ∨ (lo ≤ flatKsi ∧ flatKsi ≤ hi)) :
    lo ≤ (searchTrial geo draws flatKsi s).ksiC ∧ (searchTrial geo draws flatKsi s).ksiC ≤ hi := by
  rw [searchTrial_first]
  by_cases hg : (geo (if s.count = 0 then flatKsi else (s.ksiA + s.ksiB) * (1 / 2)) s.uC).valid
      = false
  · rw [if_pos hg]
    exact randomLoop_ksiC_mem geo draws s.ksiA s.ksiB lo hi hdraws hA hB _ _ rfl
      (mix_mem s.ksiA s.ksiB _ lo hi (hdraws _).1 (hdraws _).2 hA hB)
  · rw [if_neg hg]
    show lo ≤ (if s.count = 0 then flatKsi else (s.ksiA + s.ksiB) * (1 / 2)) ∧
      (if s.count = 0 then flatKsi else (s.ksiA + s.ksiB) * (1 / 2)) ≤ hi
    by_cases h0 : s.count = 0
    · rw [if_pos h0] at hg ⊢
      exact (hseed h0).resolve_left hg
    · rw [if_neg h0]
      exact mid_mem s.ksiA s.ksiB lo hi hA hB

/-- The bracket update keeps endpoints between the bounds when the trial angle is
between them. -/
theorem bracketUpdate_mem (s : Search K) (tr : Trial K) (lo hi : K)
    (hA : lo ≤ s.ksiA ∧ s.ksiA ≤ hi) (hB : lo ≤ s.ksiB ∧ s.ksiB ≤ hi)
    (hC : lo ≤ tr.ksiC ∧ tr.ksiC ≤ hi) :
    (lo ≤ (bracketUpdate s tr).ksiA ∧ (bracketUpdate s tr).ksiA ≤ hi) ∧
    (lo ≤ (bracketUpdate s tr).ksiB ∧ (bracketUpdate s tr).ksiB ≤ hi) ∧
    (bracketUpdate s tr).ksiC = tr.ksiC := by
  unfold bracketUpdate
  split
  · exact ⟨hA, hC, rfl⟩
  · exact ⟨hC, hB, rfl⟩

/-- A search loop whose seed is invalid or between the bounds keeps both endpoints
between the bounds, and so the trial angle it ends with when it makes a pass. -/
theorem searchLoop_mem (geo : K → K × K → GeoOut K) (draws : Nat → K) (flatKsi lo hi : K)
    (hdraws : ∀ n, 0 ≤ draws n ∧ draws n ≤ 1) (n : Nat) :
    ∀ s : Search K, MaxTries - s.count = n →
      (lo ≤ s.ksiA ∧ s.ksiA ≤ hi) → (lo ≤ s.ksiB ∧ s.ksiB ≤ hi) →
      (s.count = 0 → (geo flatKsi s.uC).valid = false ∨ (lo ≤ flatKsi ∧ flatKsi ≤ hi)) →
      ((|s.drA - s.drB| > HitRadiusSphere ∧ |s.ksiA - s.ksiB| > ksi_eps ∧ s.count < MaxTries) ∨
        (lo ≤ s.ksiC ∧ s.ksiC ≤ hi)) →
      (lo ≤ (searchLoop geo draws flatKsi s).ksiA ∧ (searchLoop geo draws flatKsi s).ksiA ≤ hi) ∧
      (lo ≤ (searchLoop geo draws flatKsi s).ksiB ∧ (searchLoop geo draws flatKsi s).ksiB ≤ hi) ∧
      (lo ≤ (searchLoop geo draws flatKsi s).ksiC ∧
        (searchLoop geo draws flatKsi s).ksiC ≤ hi) := by
  induction n using Nat.strong_induction_on with
  | _ n ih =>
    intro s hn hA hB hseed hC
    by_cases h : |s.drA - s.drB| > HitRadiusSphere ∧ |s.ksiA - s.ksiB| > ksi_eps ∧
        s.count < MaxTries
    · have htr := searchTrial_ksiC_mem geo draws flatKsi lo hi hdraws s hA hB hseed
      rw [searchLoop_pass _ _ _ _ h]
      by_cases hb : |(searchTrial geo draws flatKsi s).drC| < 1 / 1000000000000000 ∧
          (searchTrial geo draws flatKsi s).validC = true
      · rw [if_pos hb]
        exact ⟨hA, hB, htr⟩
      · rw [if_neg hb]
        obtain ⟨uA, uB, uC⟩ := bracketUpdate_mem s _ lo hi hA hB htr
        have hcnt : s.count < MaxTries := h.2.2
        exact ih (MaxTries - (s.count + 1)) (by omega) _ (by rw [bracketUpdate_count]) uA uB
          (fun h0 => by rw [bracketUpdate_count] at h0; omega)
          (Or.inr (by rw [uC]; exact htr))
    · rw [searchLoop_exit _ _ _ _ h]
      exact ⟨hA, hB, hC.resolve_left h⟩

/-- The inner loop integrates nothing when its condition fails. -/
theorem randomLoopAngles_done (geo : K → K × K → GeoOut K) (draws : Nat → K) (ksiA ksiB : K)
    (s : Trial K) (h : ¬ (s.validC = false ∧ s.randomCount < MaxRandomTries)) :
    randomLoopAngles geo draws ksiA ksiB s = [] := by
  rw [randomLoopAngles]; simp only [h, dite_false]

/-- Every angle the inner loop integrates lies between the bounds of the bracket
when the angle it starts with does. -/
theorem randomLoopAngles_mem (geo : K → K × K → GeoOut K) (draws : Nat → K)
    (ksiA ksiB lo hi : K) (hdraws : ∀ n, 0 ≤ draws n ∧ draws n ≤ 1)
    (hA : lo ≤ ksiA ∧ ksiA ≤ hi) (hB : lo ≤ ksiB ∧ ksiB ≤ hi) (n : Nat) :
    ∀ s : Trial K, MaxRandomTries - s.randomCount = n → lo ≤ s.ksiC ∧ s.ksiC ≤ hi →
      ∀ a ∈ randomLoopAngles geo draws ksiA ksiB s, lo ≤ a ∧ a ≤ hi := by
  induction n using Nat.strong_induction_on with
  | _ n ih =>
    intro s hn hs a ha
    by_cases hc : s.validC = false ∧ s.randomCount < MaxRandomTries
    · rw [randomLoopAngles] at ha
      simp only [hc, dite_true, and_self] at ha
      by_cases hg : (geo s.ksiC s.uC).valid = false
      · simp only [hg, if_true, List.mem_cons] at ha
        rcases ha with ha | ha
        · rw [ha]; exact hs
        · exact ih (MaxRandomTries - (s.randomCount + 1)) (by omega)
            { validC := false, ksiC := ksiA * (1 - draws s.rng) + draws s.rng * ksiB,
              drC := (geo s.ksiC s.uC).dr, dtC := (geo s.ksiC s.uC).dt,
              uC := (geo s.ksiC s.uC).u, randomCount := s.randomCount + 1,
              rng := s.rng + 1 } rfl
            (mix_mem ksiA ksiB _ lo hi (hdraws _).1 (hdraws _).2 hA hB) a ha
      · have hv : (geo s.ksiC s.uC).valid = true := by simpa using hg
        simp only [hv, Bool.true_eq_false, if_false, List.mem_cons] at ha
        rcases ha with ha | ha
        · rw [ha]; exact hs
        · have hd := randomLoopAngles_done geo draws ksiA ksiB
            { validC := true, ksiC := s.ksiC, drC := (geo s.ksiC s.uC).dr,
              dtC := (geo s.ksiC s.uC).dt, uC := (geo s.ksiC s.uC).u,
              randomCount := s.randomCount, rng := s.rng } (fun h => Bool.noConfusion h.1)
          rw [hd] at ha
          exact absurd ha (List.not_mem_nil a)
    · rw [randomLoopAngles_done _ _ _ _ _ hc] at ha
      exact absurd ha (List.not_mem_nil a)

/-- The first angle a pass integrates is the seed in the first pass and the midpoint
afterwards. -/
theorem searchTrialAngles_head (geo : K → K × K → GeoOut K) (draws : Nat → K)
    (flatKsi : K) (s : Search K) :
    (searchTrialAngles geo draws flatKsi s).head?
      = some (if s.count = 0 then flatKsi else (s.ksiA + s.ksiB) * (1 / 2)) := by
  unfold searchTrialAngles
  generalize (if s.count = 0 then flatKsi else (s.ksiA + s.ksiB) * (1 / 2)) = c
  simp only
  have hc : (false = false ∧ 0 < MaxRandomTries) := ⟨rfl, by norm_num [MaxRandomTries]⟩
  rw [randomLoopAngles]
  simp only [hc, dite_true, and_self]
  by_cases hg : (geo c s.uC).valid = false
  · simp only [hg, if_true, List.head?_cons]
  · have hv : (geo c s.uC).valid = true := by simpa using hg
    simp only [hv, Bool.true_eq_false, if_false, List.head?_cons]

/-- The angles of one pass: all but the first lie between the bounds of the bracket,
and so does the first after the first pass. -/
theorem searchTrialAngles_spec (geo : K → K × K → GeoOut K) (draws : Nat → K)
    (flatKsi lo hi : K) (hdraws : ∀ n, 0 ≤ draws n ∧ draws n ≤ 1) (s : Search K)
    (hA : lo ≤ s.ksiA ∧ s.ksiA ≤ hi) (hB : lo ≤ s.ksiB ∧ s.ksiB ≤ hi) :
    (∀ a ∈ (searchTrialAngles geo draws flatKsi s).tail, lo ≤ a ∧ a ≤ hi) ∧
    (s.count ≠ 0 → ∀ a ∈ searchTrialAngles geo draws flatKsi s, lo ≤ a ∧ a ≤ hi) := by
  unfold searchTrialAngles
  generalize hcdef : (if s.count = 0 then flatKsi else (s.ksiA + s.ksiB) * (1 / 2)) = c
  simp only
  have hc : (false = false ∧ 0 < MaxRandomTries) := ⟨rfl, by norm_num [MaxRandomTries]⟩
  refine ⟨?_, ?_⟩
  · rw [randomLoopAngles]
    simp only [hc, dite_true, and_self]
    by_cases hg : (geo c s.uC).valid = false
    · simp only [hg, if_true, List.tail_cons, Nat.zero_add]
      exact randomLoopAngles_mem geo draws s.ksiA s.ksiB lo hi hdraws hA hB _ _ rfl
        (mix_mem s.ksiA s.ksiB _ lo hi (hdraws _).1 (hdraws _).2 hA hB)
    · have hv : (geo c s.uC).valid = true := by simpa using hg
      simp only [hv, Bool.true_eq_false, if_false, List.tail_cons]
      rw [randomLoopAngles_done _ _ _ _ _ (fun h => Bool.noConfusion h.1)]
      intro a ha
      exact absurd ha (List.not_mem_nil a)
  · intro h0
    rw [if_neg h0] at hcdef
    exact randomLoopAngles_mem geo draws s.ksiA s.ksiB lo hi hdraws hA hB _ _ rfl
      (by rw [← hcdef]; exact mid_mem s.ksiA s.ksiB lo hi hA hB)

end

/-- The flat-space seed is negative for target azimuths between pi and 2 pi. -/
theorem calcFlatKsi_neg (m : Libm ℝ) (hm : m.IsReal) (rInit rFinal phiFinal : ℝ)
    (hrI : 0 < rInit) (hrF : 0 < rFinal) (hphi1 : Real.pi < phiFinal)
    (hphi2 : phiFinal < 2 * Real.pi) : calcFlatKsi m rInit rFinal phiFinal < 0 := by
  obtain ⟨hsqrt, hsin, hcos, hasin, -⟩ := hm
  simp only [calcFlatKsi, hsqrt, hsin, hcos, hasin]
  have hsn : Real.sin phiFinal < 0 := by
    have h1 : Real.sin (phiFinal - 2 * Real.pi) < 0 :=
      Real.sin_neg_of_neg_of_neg_pi_lt (by linarith) (by linarith)
    rwa [Real.sin_sub_two_pi] at h1
  have hcs := Real.sin_sq_add_cos_sq phiFinal
  have hc1 : Real.cos phiFinal < 1 := by nlinarith
  have hd2 : 0 < rInit * rInit + rFinal * rFinal - 2 * rInit * rFinal * Real.cos phiFinal := by
    nlinarith [mul_pos hrI hrF, sq_nonneg (rInit - rFinal)]
  have hd := Real.sqrt_pos.mpr hd2
  rw [Real.arcsin_lt_zero]
  exact mul_neg_of_pos_of_neg (div_pos hrI hd) hsn

section
variable {K : Type} [LinearOrderedField K]

/-- The bracket, the counter and `uC` at the start of the search. -/
theorem findGeodesicStart_ksi (m : Libm K) (integ : Vec K → Vec K → IntegrateOut K)
    (junk : Uninit K) (order : Int) (rInit rFinal phiFinal : K) (rng : Nat) :
    (findGeodesicStart m integ junk order rInit rFinal phiFinal rng).ksiA
      = (if order = 0 then 0 else PI / 2) ∧
    (findGeodesicStart m integ junk order rInit rFinal phiFinal rng).ksiB
      = (if order = 0 then PI else PI - schwarzschild_ksiCrit m rInit) ∧
    (findGeodesicStart m integ junk order rInit rFinal phiFinal rng).count = 0 ∧
    (findGeodesicStart m integ junk order rInit rFinal phiFinal rng).uC = junk.uC :=
  ⟨rfl, rfl, rfl, rfl⟩

/-- The mismatches of the two endpoints when no geodesic crosses the target azimuth. -/
theorem findGeodesicStart_noCrossing (m : Libm K) (junk : Uninit K) (order : Int)
    (rInit rFinal phiFinal : K) (rng : Nat) :
    (findGeodesicStart m noCrossing junk order rInit rFinal phiFinal rng).drA = 10000000000 ∧
    (findGeodesicStart m noCrossing junk order rInit rFinal phiFinal rng).drB
      = -10000000000 := by
  simp [findGeodesicStart, calcGeodesicUpTo_invalid]

/-- The loop condition holds at the start of an order-0 search when no geodesic
crosses the target azimuth. -/
theorem findGeodesicStart_noCrossing_cond (m : Libm K) (junk : Uninit K)
    (rInit rFinal phiFinal : K) (rng : Nat) :
    |(findGeodesicStart m noCrossing junk 0 rInit rFinal phiFinal rng).drA
        - (findGeodesicStart m noCrossing junk 0 rInit rFinal phiFinal rng).drB|
      > HitRadiusSphere ∧
    |(findGeodesicStart m noCrossing junk 0 rInit rFinal phiFinal rng).ksiA
        - (findGeodesicStart m noCrossing junk 0 rInit rFinal phiFinal rng).ksiB| > ksi_eps ∧
    (findGeodesicStart m noCrossing junk 0 rInit rFinal phiFinal rng).count < MaxTries := by
  obtain ⟨hA, hB⟩ := findGeodesicStart_noCrossing m junk 0 rInit rFinal phiFinal rng
  obtain ⟨kA, kB, kc, -⟩ := findGeodesicStart_ksi m noCrossing junk 0 rInit rFinal phiFinal rng
  rw [hA, hB, kA, kB, kc]
  norm_num [HitRadiusSphere, ksi_eps, MaxTries, PI, abs_of_pos, abs_of_neg]

end

/-! ## The constant `PI` and the critical angle near the photon sphere -/

section
variable {K : Type} [LinearOrderedField K]

/-- For `2 <= N < 2^32` the `unsigned int` value `N - 1` is `N - 1`, and it is
not zero. -/
theorem pred_u32_cast (N : Nat) (h2 : 2 ≤ N) (h32 : N < 4294967296) :
    (((N + 4294967295) % 4294967296 : Nat) : K) = (N : K) - 1 ∧ (N : K) - 1 ≠ 0 := by
  rw [pred_u32 N (by omega) h32, Nat.cast_sub (by omega), Nat.cast_one]
  have h : (2 : K) ≤ (N : K) := by exact_mod_cast h2
  exact ⟨rfl, by linarith⟩

/-- Nothing is written from a buffer of no floats. -/
theorem fwriteFloats_zero (buf : Nat → F32) : fwriteFloats buf 0 = [] := by
  simp [fwriteFloats]

end

/-! # The claims -/

section
variable {K : Type} [LinearOrderedField K]

/-! ## C1 - C3: the result flag of `findGeodesic` -/

/-- C1.  For every input, `findGeodesic` returns true exactly when the iteration
count it leaves in `cnt` is below `MaxTries = 200`; the function is total, so
the flag is its only failure signal. -/
theorem findGeodesic_valid_iff_cnt (m : Libm K) (integ : Vec K → Vec K → IntegrateOut K)
    (draws : Nat → K) (junk : Uninit K) (order : Int) (rInit rFinal phiFinal : K) (rng : Nat) :
    (findGeodesic m integ draws junk order rInit rFinal phiFinal rng).valid = true ↔
      (findGeodesic m integ draws junk order rInit rFinal phiFinal rng).cnt < 200 := by
  simp [findGeodesic, MaxTries]

/-- C2 (the code violates the claim).  Two runs that return `valid = true`
without any valid `calcGeodesicUpTo` call behind the outputs.  (a) When no
geodesic ever crosses the target azimuth and the random draws are all
`1 - 1e-10`, the bracket collapses after one iteration: the result is valid with
`cnt = 1` and `dt = derr = 1e12`, the placeholder, although every
`calcGeodesicUpTo` call is invalid.  (b) When both bracket endpoints already hit
the target, the loop body never runs: the result is valid with `cnt = 0` and
`ksi`, `dt`, `derr`, `u` are the uninitialised locals. -/
theorem findGeodesic_valid_with_placeholder (m : Libm K) (draws : Nat → K) (junk : Uninit K)
    (order : Int) (rInit rFinal phiFinal : K) (rng : Nat) :
    ((∀ ksi u, (calcGeodesicUpTo m noCrossing rInit ksi rFinal phiFinal u).valid = false) ∧
      findGeodesic m noCrossing (fun _ => 1 - 1 / 10 ^ 10) junk 0 rInit rFinal phiFinal rng =
        { valid := true, ksi := (1 - 1 / 10 ^ 10) * PI,
          dt := 1000000000000, derr := 1000000000000, cnt := 1, u := junk.uC,
          rng := rng + 3000 }) ∧
    findGeodesic m hitTarget draws junk order rInit rFinal phiFinal rng =
      { valid := true, ksi := junk.ksiC, dt := junk.dtC, derr := junk.drC, cnt := 0,
        u := junk.uC, rng := rng } := by
  have hgeo : ∀ ksi u, calcGeodesicUpTo m noCrossing rInit ksi rFinal phiFinal u
      = ⟨false, 1000000000000, 1000000000000, u⟩ :=
    fun ksi u => calcGeodesicUpTo_invalid m rInit ksi rFinal phiFinal u
  refine ⟨⟨fun ksi u => by rw [hgeo], ?_⟩, ?_⟩
  · unfold findGeodesic
    simp only [hgeo]
    rw [searchLoop_invalid_step _ _ _ _ _ hgeo (by norm_num) _
      (by norm_num [HitRadiusSphere, ksi_eps, MaxTries, PI, abs_of_pos]) (by norm_num)]
    rw [searchLoop_exit _ _ _ _
      (by norm_num [HitRadiusSphere, ksi_eps, MaxTries, PI, abs_of_pos, abs_of_neg])]
    simp [MaxTries, MaxRandomTries]
  · have hhit : ∀ ksi u, (calcGeodesicUpTo m hitTarget rInit ksi rFinal phiFinal u).valid = true
        ∧ (calcGeodesicUpTo m hitTarget rInit ksi rFinal phiFinal u).dr = 0 := by
      intro ksi u
      simp [calcGeodesicUpTo, hitTarget]
    unfold findGeodesic
    simp only [hhit]
    rw [searchLoop_exit _ _ _ _ (by norm_num [HitRadiusSphere])]
    simp [MaxTries]

/-- C3 (the code violates the claim).  With a target that no geodesic reaches
(every `calcGeodesicUpTo` call is invalid) and all random draws equal to `0.5`,
`findGeodesic` halves the bracket `[0, PI]` until it is narrower than `ksi_eps`
and returns `valid = true` after 32 iterations. -/
theorem findGeodesic_unreachable_valid (m : Libm K) (junk : Uninit K)
    (rInit rFinal phiFinal : K) (rng : Nat) :
    (∀ ksi u, (calcGeodesicUpTo m noCrossing rInit ksi rFinal phiFinal u).valid = false) ∧
    (findGeodesic m noCrossing (fun _ => 1 / 2) junk 0 rInit rFinal phiFinal rng).valid = true ∧
    (findGeodesic m noCrossing (fun _ => 1 / 2) junk 0 rInit rFinal phiFinal rng).cnt = 32 := by
  have hgeo : ∀ ksi u, calcGeodesicUpTo m noCrossing rInit ksi rFinal phiFinal u
      = ⟨false, 1000000000000, 1000000000000, u⟩ :=
    fun ksi u => calcGeodesicUpTo_invalid m rInit ksi rFinal phiFinal u
  refine ⟨fun ksi u => by rw [hgeo], ?_⟩
  unfold findGeodesic
  simp only [hgeo]
  iterate 32
    rw [searchLoop_invalid_step _ _ _ _ _ hgeo (by norm_num) _
      (by norm_num [HitRadiusSphere, ksi_eps, MaxTries, PI, abs_of_pos, abs_of_neg])
      (by norm_num)]
    norm_num [PI]
  rw [searchLoop_exit _ _ _ _
    (by norm_num [HitRadiusSphere, ksi_eps, MaxTries, PI, abs_of_pos, abs_of_neg])]
  simp [MaxTries]

end

section
variable {K : Type} [LinearOrderedField K]

/-! ## C4 - C6: the table file -/

/-- C4 (as stated, false): for `Nr = Nphi = 65536` the product `Nr * Nphi * 4`
wraps to 0 in `unsigned int`, so `genLUT` writes the 20 header bytes only, not
`20 + 32 * Nr * Nphi` bytes. -/
theorem genLUT_size_wraps :
    ∃ file, genLUT sampleFloat sampleLibm noCrossing (fun _ => 0) sampleJunk (fun _ => 0)
        (fun _ => 0) 0 40 (5 / 2) 30 65536 65536 true = some file ∧
      file.length = 20 ∧ file.length ≠ 20 + 32 * 65536 * 65536 := by
  refine ⟨_, rfl, ?_⟩
  rw [genLUTWrite_length]
  have : lutCount 65536 65536 = 0 := by norm_num [lutCount]
  rw [this]
  omega

/-- C4 (amended).  When the float count `Nr * Nphi * 4` of one buffer fits in
`unsigned int` and the output file opens, `genLUT` writes exactly
`20 + 32 * Nr * Nphi` bytes: the 20-byte header (`Nr`, `Nphi`, then `rmin`, `rmax`,
`rInit` as floats) followed by the `Nr * Nphi * 4` floats of `lut_0` and then
those of `lut_1`, four bytes each. -/
theorem genLUT_writes_size (toFloat : K → F32) (m : Libm K)
    (integ : Vec K → Vec K → IntegrateOut K) (draws : Nat → K) (junk : Uninit K)
    (init0 init1 : Nat → F32) (rng : Nat) (rInit rmin rmax : K) (Nr Nphi : Nat)
    (hsize : Nr * Nphi * 4 < 4294967296) :
    ∃ file header lut_0 lut_1,
      genLUT toFloat m integ draws junk init0 init1 rng rInit rmin rmax Nr Nphi true
        = some file ∧
      file.length = 20 + 32 * Nr * Nphi ∧
      file = header ++ fwriteFloats lut_0 (Nr * Nphi * 4) ++ fwriteFloats lut_1 (Nr * Nphi * 4) ∧
      header = bytes32 Nr ++ bytes32 Nphi ++ bytes32 (toFloat rmin).val
        ++ bytes32 (toFloat rmax).val ++ bytes32 (toFloat rInit).val ∧
      header.length = 20 ∧
      (fwriteFloats lut_0 (Nr * Nphi * 4)).length = 4 * (Nr * Nphi * 4) ∧
      (fwriteFloats lut_1 (Nr * Nphi * 4)).length = 4 * (Nr * Nphi * 4) ∧
      lut_0 = (genLUTCells toFloat m integ draws junk rInit rmin rmax Nr Nphi
        ⟨init0, init1, rng⟩).lut_0 ∧
      lut_1 = (genLUTCells toFloat m integ draws junk rInit rmin rmax Nr Nphi
        ⟨init0, init1, rng⟩).lut_1 := by
  have hc : lutCount Nr Nphi = Nr * Nphi * 4 := Nat.mod_eq_of_lt hsize
  refine ⟨_, _, _, _, rfl, ?_, ?_, rfl, rfl, fwriteFloats_length _ _, fwriteFloats_length _ _,
    rfl, rfl⟩
  · rw [genLUTWrite_length, hc]; ring
  · simp only [genLUTWrite, hc, List.append_assoc]

/-- Witness for C4 (amended): a 2 x 3 table. -/
theorem genLUT_writes_size_witness :
    2 * 3 * 4 < 4294967296 ∧
    ∃ file header lut_0 lut_1,
      genLUT sampleFloat sampleLibm noCrossing (fun _ => 0) sampleJunk (fun _ => 0)
        (fun _ => 0) 0 40 (5 / 2) 30 2 3 true = some file ∧
      file.length = 20 + 32 * 2 * 3 ∧
      file = header ++ fwriteFloats lut_0 (2 * 3 * 4) ++ fwriteFloats lut_1 (2 * 3 * 4) ∧
      header = bytes32 2 ++ bytes32 3 ++ bytes32 (sampleFloat (5 / 2)).val
        ++ bytes32 (sampleFloat 30).val ++ bytes32 (sampleFloat 40).val ∧
      header.length = 20 ∧
      (fwriteFloats lut_0 (2 * 3 * 4)).length = 4 * (2 * 3 * 4) ∧
      (fwriteFloats lut_1 (2 * 3 * 4)).length = 4 * (2 * 3 * 4) ∧
      lut_0 = (genLUTCells sampleFloat sampleLibm noCrossing (fun _ => 0) sampleJunk 40 (5 / 2)
        30 2 3 ⟨fun _ => 0, fun _ => 0, 0⟩).lut_0 ∧
      lut_1 = (genLUTCells sampleFloat sampleLibm noCrossing (fun _ => 0) sampleJunk 40 (5 / 2)
        30 2 3 ⟨fun _ => 0, fun _ => 0, 0⟩).lut_1 :=
  ⟨by decide, genLUT_writes_size sampleFloat sampleLibm noCrossing (fun _ => 0) sampleJunk
    (fun _ => 0) (fun _ => 0) 0 40 (5 / 2) 30 2 3 (by decide)⟩

/-- C5.  Round trip.  For all `Nr`, `Nphi` (32-bit) and all buffer contents, the
bytes written by `genLUT`, given to `LUT::Load` as a file of that size, pass the
size check: `Load` returns true with `m_Nr = Nr`, `m_Nphi = Nphi`,
`m_rmin = float(rmin)`, `m_rmax = float(rmax)`, `m_camPos = float(rInit)` and
`m_data` equal to the floats of `lut_0` followed by those of `lut_1`.  The first
part is for arbitrary buffers; the second says that `genLUT` writes its own
buffers that way. -/
theorem genLUT_Load_roundtrip (toFloat : K → F32) (m : Libm K)
    (integ : Vec K → Vec K → IntegrateOut K) (draws : Nat → K) (junk : Uninit K)
    (init0 init1 : Nat → F32) (rng : Nat) (rInit rmin rmax : K) (Nr Nphi : Nat) (self : LUT)
    (hNr : Nr < 4294967296) (hNphi : Nphi < 4294967296) :
    (∀ lut_0 lut_1 : Nat → F32,
      LUT.Load self (some
        ⟨(genLUTWrite Nr Nphi (toFloat rmin) (toFloat rmax) (toFloat rInit) lut_0 lut_1).length,
         some (genLUTWrite Nr Nphi (toFloat rmin) (toFloat rmax) (toFloat rInit) lut_0 lut_1)⟩) =
      (true,
        { m_Nr := Nr, m_Nphi := Nphi, m_rmin := toFloat rmin, m_rmax := toFloat rmax,
          m_camPos := toFloat rInit,
          m_data := some (bufList lut_0 (lutCount Nr Nphi) ++ bufList lut_1 (lutCount Nr Nphi)),
          m_texID0 := some ⟨Nphi, Nr,
            bufList lut_0 (lutCount Nr Nphi) ++ bufList lut_1 (lutCount Nr Nphi)⟩,
          m_texID1 := some ⟨Nphi, Nr, bufList lut_1 (lutCount Nr Nphi)⟩ })) ∧
    genLUT toFloat m integ draws junk init0 init1 rng rInit rmin rmax Nr Nphi true =
      some (genLUTWrite Nr Nphi (toFloat rmin) (toFloat rmax) (toFloat rInit)
        (genLUTCells toFloat m integ draws junk rInit rmin rmax Nr Nphi
          ⟨init0, init1, rng⟩).lut_0
        (genLUTCells toFloat m integ draws junk rInit rmin rmax Nr Nphi
          ⟨init0, init1, rng⟩).lut_1) :=
  ⟨fun lut_0 lut_1 => Load_genLUTWrite self Nr Nphi _ _ _ lut_0 lut_1 hNr hNphi, rfl⟩

/-- Witness for C5: a 2 x 3 table loaded into a freshly constructed object. -/
theorem genLUT_Load_roundtrip_witness :
    (2 < 4294967296 ∧ 3 < 4294967296) ∧
    ((∀ lut_0 lut_1 : Nat → F32,
      LUT.Load ⟨0, 0, 0, 0, 0, none, none, none⟩ (some
        ⟨(genLUTWrite 2 3 (sampleFloat (5 / 2)) (sampleFloat 30) (sampleFloat 40)
            lut_0 lut_1).length,
         some (genLUTWrite 2 3 (sampleFloat (5 / 2)) (sampleFloat 30) (sampleFloat 40)
            lut_0 lut_1)⟩) =
      (true,
        { m_Nr := 2, m_Nphi := 3, m_rmin := sampleFloat (5 / 2), m_rmax := sampleFloat 30,
          m_camPos := sampleFloat 40,
          m_data := some (bufList lut_0 (lutCount 2 3) ++ bufList lut_1 (lutCount 2 3)),
          m_texID0 := some ⟨3, 2, bufList lut_0 (lutCount 2 3) ++ bufList lut_1 (lutCount 2 3)⟩,
          m_texID1 := some ⟨3, 2, bufList lut_1 (lutCount 2 3)⟩ })) ∧
    genLUT sampleFloat sampleLibm noCrossing (fun _ => 1 / 2) sampleJunk (fun _ => 0)
        (fun _ => 0) 0 40 (5 / 2) 30 2 3 true =
      some (genLUTWrite 2 3 (sampleFloat (5 / 2)) (sampleFloat 30) (sampleFloat 40)
        (genLUTCells sampleFloat sampleLibm noCrossing (fun _ => 1 / 2) sampleJunk 40 (5 / 2) 30
          2 3 ⟨fun _ => 0, fun _ => 0, 0⟩).lut_0
        (genLUTCells sampleFloat sampleLibm noCrossing (fun _ => 1 / 2) sampleJunk 40 (5 / 2) 30
          2 3 ⟨fun _ => 0, fun _ => 0, 0⟩).lut_1)) :=
  ⟨⟨by norm_num, by norm_num⟩,
    genLUT_Load_roundtrip sampleFloat sampleLibm noCrossing (fun _ => 1 / 2) sampleJunk
      (fun _ => 0) (fun _ => 0) 0 40 (5 / 2) 30 2 3 ⟨0, 0, 0, 0, 0, none, none, none⟩
      (by norm_num) (by norm_num)⟩

end

/-- The size check of `LUT::Load` in machine arithmetic: a file shorter than the
header, or whose size differs from `20 + 2 * 4 * n` with `n = Nr * Nphi * 4`
reduced modulo `2^32` for the `Nr`, `Nphi` of its header, is refused and no
texture is created. -/
theorem Load_rejects_size (self : LUT) (f : LutFile) :
    (f.size < 20 →
      (LUT.Load self (some f)).1 = false ∧ (LUT.Load self (some f)).2.m_texID0 = none ∧
      ((LUT.Load self (some f)).2.m_texID1 = none ∨
        (LUT.Load self (some f)).2.m_texID1 = self.m_texID1)) ∧
    (∀ s Nr Nphi rest rest2, f.content = some s → fread32 s = (some Nr, rest) →
      fread32 rest = (some Nphi, rest2) → f.size ≠ 20 + 2 * 4 * lutCount Nr Nphi →
      (LUT.Load self (some f)).1 = false ∧ (LUT.Load self (some f)).2.m_texID0 = none ∧
      ((LUT.Load self (some f)).2.m_texID1 = none ∨
        (LUT.Load self (some f)).2.m_texID1 = self.m_texID1)) := by
  obtain ⟨a, b, c, d, e, dat, t0, t1⟩ := self
  constructor
  · intro h
    have h' : f.size < 4 * 2 + 4 * 3 := by omega
    cases t0 <;> simp [LUT.Load, h']
  · intro s Nr Nphi rest rest2 hs h1 h2 hne
    have hsz : 4 * (Nr * Nphi * 4 % 4294967296) * 2 % 18446744073709551616 + (4 * 2 + 4 * 3)
        ≠ f.size := by
      unfold lutCount at hne
      omega
    by_cases hlt : f.size < 4 * 2 + 4 * 3
    · cases t0 <;> simp [LUT.Load, hlt]
    · cases t0 <;>
        simp only [LUT.Load, hlt, hs, h1, h2, if_false, Option.isSome_some, Option.isSome_none,
          Option.getD_some, Bool.false_eq_true, if_true] <;>
        split <;> simp_all

/-- C6 (the code violates the claim).  A 20-byte file whose header declares
`Nr = Nphi = 65536`: its size differs from `20 + 2 * 4 * (Nr * Nphi * 4)`, but
`numEntries` wraps to 0, the size check passes, and `Load` returns true and
creates two 65536 x 65536 textures over an empty data array.  (When the product
does not wrap, the file is refused: `Load_rejects_size`.) -/
theorem Load_accepts_wrapped_header (self : LUT) :
    (20 : Nat) ≠ 20 + 2 * 4 * (65536 * 65536 * 4) ∧
    LUT.Load self (some ⟨20, some (bytes32 65536 ++ bytes32 65536 ++ bytes32 0 ++ bytes32 0
        ++ bytes32 0)⟩) =
      (true, { m_Nr := 65536, m_Nphi := 65536, m_rmin := 0, m_rmax := 0, m_camPos := 0,
               m_data := some [], m_texID0 := some ⟨65536, 65536, []⟩,
               m_texID1 := some ⟨65536, 65536, []⟩ }) := by
  refine ⟨by decide, ?_⟩
  have hcount : lutCount 65536 65536 = 0 := by norm_num [lutCount]
  have hfile : genLUTWrite 65536 65536 0 0 0 (fun _ => 0) (fun _ => 0)
      = bytes32 65536 ++ bytes32 65536 ++ bytes32 0 ++ bytes32 0 ++ bytes32 0 := by
    simp only [genLUTWrite, hcount, fwriteFloats, List.range_zero, List.flatMap_nil,
      List.append_nil]
    rfl
  have h := Load_genLUTWrite self 65536 65536 0 0 0 (fun _ => 0) (fun _ => 0)
    (by norm_num) (by norm_num)
  rw [genLUTWrite_length, hcount, hfile] at h
  simpa [bufList] using h

section
variable {K : Type} [LinearOrderedField K]

/-! ## C7 - C8: the grid and the cell records -/

/-- C7 (as stated, false): in the grid `Nr = Nphi = 65536` the float count
`Nr * Nphi * 4` of a buffer wraps to 0 in `unsigned int`, so the buffers are
allocated with no floats: offset `4 * (ir * Nphi + ip) = 0` of cell `(0, 0)` is
not inside `lut_0` (the store of the serial loop lands past its end, and the loop
of the OpenMP build does not run at all), and the part of `lut_0` that `genLUT`
writes to the file holds no record. -/
theorem genLUT_cell_outside_buffer :
    (2 ≤ 65536 ∧ 0 < 65536 ∧ 0 < 65536) ∧
    lutCount 65536 65536 = 0 ∧
    ¬ (4 * (0 * 65536 + 0) < lutCount 65536 65536) ∧
    fwriteFloats (genLUTCells sampleFloat sampleLibm noCrossing (fun _ => 0) sampleJunk 40
        (5 / 2) 30 65536 65536 ⟨fun _ => 7, fun _ => 7, 0⟩).lut_0 (lutCount 65536 65536)
      = [] := by
  have h : lutCount 65536 65536 = 0 := by norm_num [lutCount]
  refine ⟨⟨by norm_num, by norm_num, by norm_num⟩, h, ?_, ?_⟩
  · rw [h]
    norm_num
  · rw [h]
    exact fwriteFloats_zero _

/-- The time slot of a record: it is the float `-1` exactly when `findGeodesic`
returned false, and the float of `|dt|`, a non-negative number, otherwise. -/
theorem lutRecord_time (toFloat : K → F32) (hneg : ∀ x : K, 0 ≤ x → toFloat x ≠ toFloat (-1))
    (f : FindOut K) :
    (lutRecord toFloat f 1 = toFloat (-1) ↔ f.valid = false) ∧
    (f.valid = true → lutRecord toFloat f 1 = toFloat |f.dt| ∧ 0 ≤ |f.dt|) := by
  cases hv : f.valid
  · simp [lutRecord, hv]
  · simp [lutRecord, hv, hneg |f.dt| (abs_nonneg _)]


/-- C7 (amended).  For `2 <= Nr`, `2 <= Nphi` and a float count `Nr * Nphi * 4`
of one buffer that fits in `unsigned int`: the steps of the grid are quotients
by the non-zero numbers `Nr - 1` and `Nphi - 1`, and for every cell `(ir, ip)`
with `ir < Nr` and `ip < Nphi` the four slots from float offset
`4 * (ir * Nphi + ip)` lie inside the buffers; the serial loops of `genLUT` leave
there in `lut_0` the record `(ksi, t, u0, u1)` of
`findGeodesic(0, rInit, r_ir, phi1_ip)` and in `lut_1` the record of
`findGeodesic(1, rInit, r_ir, 2 * PI - phi1_ip)`, both converted to `float`; the
second call starts from the generator state the first one left.  The time slot
is the float `-1` exactly when the call returned false and the float of `|dt|`,
a non-negative number, otherwise (`float` keeps non-negative numbers apart from
`-1`). -/
theorem genLUT_cell_records (toFloat : K → F32) (m : Libm K)
    (integ : Vec K → Vec K → IntegrateOut K) (draws : Nat → K) (junk : Uninit K)
    (rInit rmin rmax : K) (Nr Nphi : Nat) (st : LutState)
    (hNr : 2 ≤ Nr) (hNphi : 2 ≤ Nphi)
    (hsize : Nr * Nphi * 4 < 4294967296)
    (hneg : ∀ x : K, 0 ≤ x → toFloat x ≠ toFloat (-1))
    (ir ip : Nat) (hir : ir < Nr) (hip : ip < Nphi) :
    (xStep rmin rmax Nr = (rs / rmin - rs / rmax) / ((Nr : K) - 1) ∧ (Nr : K) - 1 ≠ 0 ∧
      phiStep Nphi = ((PI - 1 / 10000) - 1 / 10000) / ((Nphi : K) - 1) ∧
      (Nphi : K) - 1 ≠ 0) ∧
    4 * (ir * Nphi + ip) + 3 < lutCount Nr Nphi ∧
    ∃ (rng : Nat) (f0 f1 : FindOut K) (t0 t1 : F32),
      f0 = findGeodesic m integ draws junk 0 rInit (gridR rmin rmax Nr ir) (gridPhi Nphi ip) rng ∧
      f1 = findGeodesic m integ draws junk 1 rInit (gridR rmin rmax Nr ir)
        (2 * PI - gridPhi Nphi ip) f0.rng ∧
      (genLUTCells toFloat m integ draws junk rInit rmin rmax Nr Nphi st).lut_0
        (4 * (ir * Nphi + ip) + 0) = toFloat f0.ksi ∧
      (genLUTCells toFloat m integ draws junk rInit rmin rmax Nr Nphi st).lut_0
        (4 * (ir * Nphi + ip) + 1) = t0 ∧
      (genLUTCells toFloat m integ draws junk rInit rmin rmax Nr Nphi st).lut_0
        (4 * (ir * Nphi + ip) + 2) = toFloat f0.u.1 ∧
      (genLUTCells toFloat m integ draws junk rInit rmin rmax Nr Nphi st).lut_0
        (4 * (ir * Nphi + ip) + 3) = toFloat f0.u.2 ∧
      (genLUTCells toFloat m integ draws junk rInit rmin rmax Nr Nphi st).lut_1
        (4 * (ir * Nphi + ip) + 0) = toFloat f1.ksi ∧
      (genLUTCells toFloat m integ draws junk rInit rmin rmax Nr Nphi st).lut_1
        (4 * (ir * Nphi + ip) + 1) = t1 ∧
      (genLUTCells toFloat m integ draws junk rInit rmin rmax Nr Nphi st).lut_1
        (4 * (ir * Nphi + ip) + 2) = toFloat f1.u.1 ∧
      (genLUTCells toFloat m integ draws junk rInit rmin rmax Nr Nphi st).lut_1
        (4 * (ir * Nphi + ip) + 3) = toFloat f1.u.2 ∧
      (t0 = toFloat (-1) ↔ f0.valid = false) ∧
      (f0.valid = true → t0 = toFloat |f0.dt| ∧ 0 ≤ |f0.dt|) ∧
      (t1 = toFloat (-1) ↔ f1.valid = false) ∧
      (f1.valid = true → t1 = toFloat |f1.dt| ∧ 0 ≤ |f1.dt|) := by
  have hmem : (ir, ip) ∈ cellList Nr Nphi := (mem_cellList Nr Nphi (ir, ip)).mpr ⟨hir, hip⟩
  obtain ⟨rng, hrec⟩ := cells_store toFloat m integ draws junk rInit rmin rmax Nr Nphi hsize
    (cellList Nr Nphi) st (cellList_nodup Nr Nphi)
    (fun c hc => (mem_cellList Nr Nphi c).mp hc) (ir, ip) hmem
  rw [← genLUTCells_eq_foldl] at hrec
  have hcell := cell_lt Nr Nphi ir ip hir hip
  have hNr32 : Nr < 4294967296 := by
    have : Nr * 1 ≤ Nr * (Nphi * 4) := Nat.mul_le_mul_left Nr (by omega)
    rw [← Nat.mul_assoc] at this
    omega
  have hNphi32 : Nphi < 4294967296 := by
    have : 1 * Nphi ≤ Nr * Nphi := Nat.mul_le_mul_right Nphi (by omega)
    omega
  obtain ⟨er, nr⟩ := pred_u32_cast (K := K) Nr hNr hNr32
  obtain ⟨ep, np⟩ := pred_u32_cast (K := K) Nphi hNphi hNphi32
  refine ⟨⟨by unfold xStep; rw [er], nr, by unfold phiStep; rw [ep], np⟩, ?_,
    rng, _, _, _, _, rfl, rfl, ?_, (hrec 1).1, ?_, ?_, ?_, (hrec 1).2, ?_, ?_,
    (lutRecord_time toFloat hneg _).1, (lutRecord_time toFloat hneg _).2,
    (lutRecord_time toFloat hneg _).1, (lutRecord_time toFloat hneg _).2⟩
  · unfold lutCount
    rw [Nat.mod_eq_of_lt hsize]
    omega
  · exact (hrec 0).1
  · exact (hrec 2).1
  · exact (hrec 3).1
  · exact (hrec 0).2
  · exact (hrec 2).2
  · exact (hrec 3).2

end

section
variable {K : Type} [LinearOrderedField K]

theorem sampleFloat_sign (x : ℚ) (hx : 0 ≤ x) : sampleFloat x ≠ sampleFloat (-1) := by
  have h1 : sampleFloat x = 0 := by simp [sampleFloat, not_lt.mpr hx]
  have h2 : sampleFloat (-1) = 1 := by simp [sampleFloat]
  rw [h1, h2]
  decide

/-- Witness for C7 (amended): cell `(1, 2)` of a 2 x 3 table. -/
theorem genLUT_cell_records_witness :
    (2 ≤ 2 ∧ 2 ≤ 3 ∧ 2 * 3 * 4 < 4294967296 ∧
      (∀ x : ℚ, 0 ≤ x → sampleFloat x ≠ sampleFloat (-1)) ∧ 1 < 2 ∧ 2 < 3) ∧
    4 * (1 * 3 + 2) + 3 < lutCount 2 3 ∧
    ∃ (rng : Nat) (f0 f1 : FindOut ℚ) (t0 t1 : F32),
      f0 = findGeodesic sampleLibm noCrossing (fun _ => 1 / 2) sampleJunk 0 40
        (gridR (5 / 2) 30 2 1) (gridPhi 3 2) rng ∧
      f1 = findGeodesic sampleLibm noCrossing (fun _ => 1 / 2) sampleJunk 1 40
        (gridR (5 / 2) 30 2 1) (2 * PI - gridPhi 3 2) f0.rng ∧
      (genLUTCells sampleFloat sampleLibm noCrossing (fun _ => 1 / 2) sampleJunk 40 (5 / 2) 30
        2 3 ⟨fun _ => 0, fun _ => 0, 0⟩).lut_0 (4 * (1 * 3 + 2) + 0) = sampleFloat f0.ksi ∧
      (genLUTCells sampleFloat sampleLibm noCrossing (fun _ => 1 / 2) sampleJunk 40 (5 / 2) 30
        2 3 ⟨fun _ => 0, fun _ => 0, 0⟩).lut_0 (4 * (1 * 3 + 2) + 1) = t0 ∧
      (genLUTCells sampleFloat sampleLibm noCrossing (fun _ => 1 / 2) sampleJunk 40 (5 / 2) 30
        2 3 ⟨fun _ => 0, fun _ => 0, 0⟩).lut_0 (4 * (1 * 3 + 2) + 2) = sampleFloat f0.u.1 ∧
      (genLUTCells sampleFloat sampleLibm noCrossing (fun _ => 1 / 2) sampleJunk 40 (5 / 2) 30
        2 3 ⟨fun _ => 0, fun _ => 0, 0⟩).lut_0 (4 * (1 * 3 + 2) + 3) = sampleFloat f0.u.2 ∧
      (genLUTCells sampleFloat sampleLibm noCrossing (fun _ => 1 / 2) sampleJunk 40 (5 / 2) 30
        2 3 ⟨fun _ => 0, fun _ => 0, 0⟩).lut_1 (4 * (1 * 3 + 2) + 0) = sampleFloat f1.ksi ∧
      (genLUTCells sampleFloat sampleLibm noCrossing (fun _ => 1 / 2) sampleJunk 40 (5 / 2) 30
        2 3 ⟨fun _ => 0, fun _ => 0, 0⟩).lut_1 (4 * (1 * 3 + 2) + 1) = t1 ∧
      (genLUTCells sampleFloat sampleLibm noCrossing (fun _ => 1 / 2) sampleJunk 40 (5 / 2) 30
        2 3 ⟨fun _ => 0, fun _ => 0, 0⟩).lut_1 (4 * (1 * 3 + 2) + 2) = sampleFloat f1.u.1 ∧
      (genLUTCells sampleFloat sampleLibm noCrossing (fun _ => 1 / 2) sampleJunk 40 (5 / 2) 30
        2 3 ⟨fun _ => 0, fun _ => 0, 0⟩).lut_1 (4 * (1 * 3 + 2) + 3) = sampleFloat f1.u.2 ∧
      (t0 = sampleFloat (-1) ↔ f0.valid = false) ∧
      (f0.valid = true → t0 = sampleFloat |f0.dt| ∧ 0 ≤ |f0.dt|) ∧
      (t1 = sampleFloat (-1) ↔ f1.valid = false) ∧
      (f1.valid = true → t1 = sampleFloat |f1.dt| ∧ 0 ≤ |f1.dt|) :=
  ⟨⟨by norm_num, by norm_num, by norm_num, sampleFloat_sign, by norm_num, by norm_num⟩,
    (genLUT_cell_records sampleFloat sampleLibm noCrossing (fun _ => 1 / 2) sampleJunk 40
      (5 / 2) 30 2 3 ⟨fun _ => 0, fun _ => 0, 0⟩ (by norm_num) (by norm_num) (by norm_num)
      sampleFloat_sign 1 2 (by norm_num) (by norm_num)).2⟩

/-- C8.  For `2 <= Nr`, `2 <= Nphi` (32-bit) and `0 < rmin < rmax`: the radius of
row `ir` is `rs / (rs / rmax + ir * xStep)`; it is `rmax` at `ir = 0` and `rmin` at
`ir = Nr - 1`, strictly decreasing in `ir`, and within `[rmin, rmax]` for every
row.  The azimuth of column `ip` is `eps = 1e-4` at `ip = 0` and `PI - eps` at
`ip = Nphi - 1`, and consecutive columns differ by the same positive step
`(PI - 2 * eps) / (Nphi - 1)`. -/
theorem grid_samples (rmin rmax : K) (Nr Nphi : Nat) (hNr : 2 ≤ Nr) (hNr32 : Nr < 4294967296)
    (hNphi : 2 ≤ Nphi) (hNphi32 : Nphi < 4294967296) (hmin : 0 < rmin) (hlt : rmin < rmax) :
    (∀ ir, gridR rmin rmax Nr ir = rs / (rs / rmax + (ir : K) * xStep rmin rmax Nr)) ∧
    gridR rmin rmax Nr 0 = rmax ∧
    gridR rmin rmax Nr (Nr - 1) = rmin ∧
    (∀ i j, i < j → j < Nr → gridR rmin rmax Nr j < gridR rmin rmax Nr i) ∧
    (∀ ir, ir < Nr → rmin ≤ gridR rmin rmax Nr ir ∧ gridR rmin rmax Nr ir ≤ rmax) ∧
    gridPhi Nphi 0 = (1 / 10000 : K) ∧
    gridPhi Nphi (Nphi - 1) = (PI - 1 / 10000 : K) ∧
    (∀ ip, gridPhi Nphi (ip + 1) - gridPhi Nphi ip
      = ((PI - 2 * (1 / 10000)) / ((Nphi - 1 : Nat) : K) : K)) ∧
    (0 : K) < (PI - 2 * (1 / 10000)) / ((Nphi - 1 : Nat) : K) := by
  have hD : (0 : K) < ((Nphi - 1 : Nat) : K) := by exact_mod_cast (by omega : 0 < Nphi - 1)
  refine ⟨fun ir => rfl, gridR_zero rmin rmax Nr,
    gridR_last rmin rmax Nr hNr hNr32 hmin hlt,
    fun i j hij _ => gridR_anti rmin rmax Nr i j hNr hNr32 hmin hlt hij, ?_, ?_,
    gridPhi_last Nphi hNphi hNphi32, ?_, ?_⟩
  · intro ir hir
    constructor
    · have := gridR_mono rmin rmax Nr ir (Nr - 1) hNr hNr32 hmin hlt (by omega)
      rwa [gridR_last rmin rmax Nr hNr hNr32 hmin hlt] at this
    · have := gridR_mono rmin rmax Nr 0 ir hNr hNr32 hmin hlt (by omega)
      rwa [gridR_zero rmin rmax Nr] at this
  · simp [gridPhi]
  · intro ip
    unfold gridPhi phiStep
    rw [pred_u32 Nphi (by omega) hNphi32]
    push_cast
    ring
  · apply div_pos _ hD
    norm_num [PI]

/-- Witness for C8: `rmin = 5/2`, `rmax = 30`, `Nr = 32`, `Nphi = 64`, the
parameters of `main`. -/
theorem grid_samples_witness :
    (2 ≤ 32 ∧ 32 < 4294967296 ∧ 2 ≤ 64 ∧ 64 < 4294967296 ∧ (0 : ℚ) < 5 / 2 ∧ (5 / 2 : ℚ) < 30) ∧
    ((∀ ir, gridR (5 / 2 : ℚ) 30 32 ir = rs / (rs / 30 + (ir : ℚ) * xStep (5 / 2) 30 32)) ∧
    gridR (5 / 2 : ℚ) 30 32 0 = 30 ∧
    gridR (5 / 2 : ℚ) 30 32 (32 - 1) = 5 / 2 ∧
    (∀ i j, i < j → j < 32 → gridR (5 / 2 : ℚ) 30 32 j < gridR (5 / 2 : ℚ) 30 32 i) ∧
    (∀ ir, ir < 32 → (5 / 2 : ℚ) ≤ gridR (5 / 2 : ℚ) 30 32 ir ∧ gridR (5 / 2 : ℚ) 30 32 ir ≤ 30) ∧
    gridPhi 64 0 = (1 / 10000 : ℚ) ∧
    gridPhi 64 (64 - 1) = (PI - 1 / 10000 : ℚ) ∧
    (∀ ip, gridPhi 64 (ip + 1) - gridPhi 64 ip
      = ((PI - 2 * (1 / 10000)) / ((64 - 1 : Nat) : ℚ) : ℚ)) ∧
    (0 : ℚ) < (PI - 2 * (1 / 10000)) / ((64 - 1 : Nat) : ℚ)) :=
  ⟨⟨by norm_num, by norm_num, by norm_num, by norm_num, by norm_num, by norm_num⟩,
    grid_samples (5 / 2 : ℚ) 30 32 64 (by norm_num) (by norm_num) (by norm_num) (by norm_num)
      (by norm_num) (by norm_num)⟩

end

section
variable {K : Type} [LinearOrderedField K]

/-! ## C9 - C10: the driver `integrate` -/

/-- C9 (as stated, false): with the negative budget `maxSteps = -2` the
comparison `nstp <= maxSteps` is made in `unsigned int`, the loop runs, and
`integrate` returns true at the first step although no step index `k` satisfies
`1 <= k <= maxSteps`. -/
theorem integrate_negative_budget :
    (∃ out, integrate (sampleLibm : Libm ℚ) 1 1 0 sampleY sampleYmax (-2) eps_abs (1 / 100)
        (1 / 100000000) unitPhi schwarzschild_breakCondition schwarzschild_found
      = some ⟨true, out⟩) ∧
    ¬ ∃ (k : Nat) (s : StepState ℚ), 1 ≤ k ∧ (k : Int) ≤ -2 ∧
        CrossesAt sampleLibm 1 sampleYmax eps_abs unitPhi schwarzschild_breakCondition
          schwarzschild_found (startState 0 sampleY (1 / 100)) k s :=
  ⟨⟨_, integrate_sample sampleLibm 0 0 0 (-2) eps_abs (1 / 100000000) (by decide)⟩,
    fun ⟨_, _, _, h2, _⟩ => by omega⟩

/-- C9 (amended).  For a budget `0 <= maxSteps` (an `int`) and enough fuel,
`integrate` returns true if and only if there is a step index `k` with
`1 <= k <= maxSteps` such that `found` holds for the state after step `k`,
`breakCond` is false after each of the steps `1..k` and `found` is false after
each of the steps `1..k-1`.  When every `rkqs` call returns, `integrate` returns
(so it returns false in every other case: a break at the crossing step, or an
exhausted budget), and with `maxSteps = 0` it returns false and leaves `ystart`
alone. -/
theorem integrate_true_iff (m : Libm K) (rfuel fuel : Nat) (t0 : K) (ystart ymax : Vec K)
    (maxSteps : Int) (eps h1 hmin : K) (derivs : K → Vec K → Vec K)
    (breakCond : Vec K → Bool) (found : Vec K → Vec K → Vec K → K → Bool × K)
    (h0 : 0 ≤ maxSteps) (h31 : maxSteps < 2147483648) (hfuel : maxSteps.toNat < fuel) :
    ((∃ out, integrate m rfuel fuel t0 ystart ymax maxSteps eps h1 hmin derivs breakCond found
        = some ⟨true, out⟩) ↔
      ∃ (k : Nat) (s : StepState K), 1 ≤ k ∧ (k : Int) ≤ maxSteps ∧
        CrossesAt m rfuel ymax eps derivs breakCond found (startState t0 ystart h1) k s) ∧
    ((∀ y dydx x h yscal, (rkqs m rfuel y dydx x h eps yscal derivs).isSome = true) →
      ∃ r, integrate m rfuel fuel t0 ystart ymax maxSteps eps h1 hmin derivs breakCond found
        = some r) ∧
    (maxSteps = 0 →
      integrate m rfuel fuel t0 ystart ymax maxSteps eps h1 hmin derivs breakCond found
        = some ⟨false, ystart⟩) := by
  have hbound : (maxSteps % 4294967296).toNat = maxSteps.toNat := by
    rw [Int.emod_eq_of_lt h0 (by omega)]
  have hrun : integrate m rfuel fuel t0 ystart ymax maxSteps eps h1 hmin derivs breakCond found
      = integrateRun m rfuel ystart ymax eps derivs breakCond found maxSteps.toNat
          (startState t0 ystart h1) := by
    unfold integrate
    rw [hbound]
    have h := integrateLoop_eq_run m rfuel ystart ymax eps derivs breakCond found
      maxSteps.toNat (by omega) maxSteps.toNat fuel 1 (startState t0 ystart h1) hfuel
      (le_refl 1) (by omega)
    simpa only [startState] using h
  refine ⟨?_, fun hq => ?_, fun hz => ?_⟩
  · rw [hrun]
    constructor
    · rintro ⟨out, h⟩
      obtain ⟨k, s, hk1, hk2, hc, _⟩ :=
        (integrateRun_true_iff m rfuel ystart ymax eps derivs breakCond found _ _ out).mp h
      exact ⟨k, s, hk1, by omega, hc⟩
    · rintro ⟨k, s, hk1, hk2, hc⟩
      exact ⟨_, (integrateRun_true_iff m rfuel ystart ymax eps derivs breakCond found _ _
        _).mpr ⟨k, s, hk1, by omega, hc, rfl⟩⟩
  · rw [hrun]
    exact integrateRun_returns m rfuel ystart ymax eps derivs breakCond found
      (integrateStep_isSome m rfuel ymax eps derivs found hq) _ _
  · rw [hrun, hz]
    rfl

/-- Witness for C9 (amended): budget 2, fuel 3, the sample geodesic with constant
azimuthal slope. -/
theorem integrate_true_iff_witness :
    ((0 : Int) ≤ 2 ∧ (2 : Int) < 2147483648 ∧ (2 : Int).toNat < 3) ∧
    (((∃ out, integrate (sampleLibm : Libm ℚ) 1 3 0 sampleY sampleYmax 2 eps_abs (1 / 100)
        (1 / 100000000) unitPhi schwarzschild_breakCondition schwarzschild_found
        = some ⟨true, out⟩) ↔
      ∃ (k : Nat) (s : StepState ℚ), 1 ≤ k ∧ (k : Int) ≤ 2 ∧
        CrossesAt sampleLibm 1 sampleYmax eps_abs unitPhi schwarzschild_breakCondition
          schwarzschild_found (startState 0 sampleY (1 / 100)) k s) ∧
    ((∀ y dydx x h yscal,
        (rkqs (sampleLibm : Libm ℚ) 1 y dydx x h eps_abs yscal unitPhi).isSome = true) →
      ∃ r, integrate (sampleLibm : Libm ℚ) 1 3 0 sampleY sampleYmax 2 eps_abs (1 / 100)
        (1 / 100000000) unitPhi schwarzschild_breakCondition schwarzschild_found = some r) ∧
    ((2 : Int) = 0 →
      integrate (sampleLibm : Libm ℚ) 1 3 0 sampleY sampleYmax 2 eps_abs (1 / 100)
        (1 / 100000000) unitPhi schwarzschild_breakCondition schwarzschild_found
        = some ⟨false, sampleY⟩)) :=
  ⟨⟨by decide, by decide, by decide⟩,
    integrate_true_iff sampleLibm 1 3 0 sampleY sampleYmax 2 eps_abs (1 / 100) (1 / 100000000)
      unitPhi schwarzschild_breakCondition schwarzschild_found (by decide) (by decide)
      (by decide)⟩

/-- C10.  Whenever `integrate` returns false, the caller's array `ystart` is
exactly what was passed in; whenever it returns true, step `k` being the
crossing step, every component of `ystart` is `yprev_i * (1 - t) + t * y_i` with
`yprev` and `y` the states before and after step `k` and `t` the value `found`
left in its output parameter.  The function does return when every `rkqs` call
returns, the budget converted to `unsigned int` is not `2^32 - 1`, and the fuel
exceeds it. -/
theorem integrate_ystart (m : Libm K) (rfuel fuel : Nat) (t0 : K) (ystart ymax : Vec K)
    (maxSteps : Int) (eps h1 hmin : K) (derivs : K → Vec K → Vec K)
    (breakCond : Vec K → Bool) (found : Vec K → Vec K → Vec K → K → Bool × K) :
    (∀ r, integrate m rfuel fuel t0 ystart ymax maxSteps eps h1 hmin derivs breakCond found
        = some r →
      (r.valid = false → r.ystart = ystart) ∧
      (r.valid = true → ∃ (k : Nat) (s : StepState K), 1 ≤ k ∧
        CrossesAt m rfuel ymax eps derivs breakCond found (startState t0 ystart h1) k s ∧
        ∀ i, r.ystart i = s.yprev i * (1 - s.t) + s.t * s.y i)) ∧
    ((∀ y dydx x h yscal, (rkqs m rfuel y dydx x h eps yscal derivs).isSome = true) →
      (maxSteps % 4294967296).toNat + 1 < 4294967296 →
      (maxSteps % 4294967296).toNat < fuel →
      ∃ r, integrate m rfuel fuel t0 ystart ymax maxSteps eps h1 hmin derivs breakCond found
        = some r) := by
  refine ⟨fun r h => ?_, fun hq hb hfuel =>
    integrate_returns m rfuel ystart ymax eps derivs breakCond found fuel t0 maxSteps h1 hmin
      hq hb hfuel⟩
  have h2 := integrateLoop_some m rfuel ystart ymax eps derivs breakCond found
    (maxSteps % 4294967296).toNat fuel 1 (startState t0 ystart h1) r h
  refine ⟨h2.1, fun hv => ?_⟩
  obtain ⟨k, s, hk, hc, ho⟩ := h2.2 hv
  exact ⟨k, s, hk, hc, fun i => by rw [ho]; rfl⟩

/-- Witness for C10: the sample geodesic crosses `phi = 1/200` in its first step
of size `1/100`; `ystart` becomes the midpoint of the states before and after
that step. -/
theorem integrate_ystart_witness :
    integrate (sampleLibm : Libm ℚ) 1 3 0 sampleY sampleYmax 2 eps_abs (1 / 100)
        (1 / 100000000) unitPhi schwarzschild_breakCondition schwarzschild_found
      = some ⟨true, ![0, 10, 1 / 200, 0, 0, 0]⟩ ∧
    (((⟨true, ![0, 10, 1 / 200, 0, 0, 0]⟩ : IntegrateOut ℚ).valid = false →
        (⟨true, ![0, 10, 1 / 200, 0, 0, 0]⟩ : IntegrateOut ℚ).ystart = sampleY) ∧
      ((⟨true, ![0, 10, 1 / 200, 0, 0, 0]⟩ : IntegrateOut ℚ).valid = true →
        ∃ (k : Nat) (s : StepState ℚ), 1 ≤ k ∧
          CrossesAt sampleLibm 1 sampleYmax eps_abs unitPhi schwarzschild_breakCondition
            schwarzschild_found (startState 0 sampleY (1 / 100)) k s ∧
          ∀ i, (⟨true, ![0, 10, 1 / 200, 0, 0, 0]⟩ : IntegrateOut ℚ).ystart i
            = s.yprev i * (1 - s.t) + s.t * s.y i)) :=
  ⟨integrate_sample sampleLibm 0 2 0 2 eps_abs (1 / 100000000) (by decide),
    (integrate_ystart sampleLibm 1 3 0 sampleY sampleYmax 2 eps_abs (1 / 100) (1 / 100000000)
      unitPhi schwarzschild_breakCondition schwarzschild_found).1 _
      (integrate_sample sampleLibm 0 2 0 2 eps_abs (1 / 100000000) (by decide))⟩

end

section
variable {K : Type} [LinearOrderedField K]

/-! ## C11 - C13: the callbacks of schwarzschild.cpp -/

/-- C11.  `schwarzschild_found` returns true exactly when `y[2] > yend[2]`.  When
it returns true and `yprev[2] <= yend[2]`, the fraction `t` it leaves lies in
`[0, 1)` and `yprev[2] * (1 - t) + t * y[2] = yend[2]`, so that the interpolated
state has the target azimuth; and a call of `integrate` with this callback that
starts at or before the target azimuth and returns true leaves the target
azimuth in `ystart[2]`. -/
theorem schwarzschild_found_crossing (y yprev yend : Vec K) (t0 : K) :
    ((schwarzschild_found y yprev yend t0).1 = true ↔ y 2 > yend 2) ∧
    ((schwarzschild_found y yprev yend t0).1 = true → yprev 2 ≤ yend 2 →
      0 ≤ (schwarzschild_found y yprev yend t0).2 ∧
      (schwarzschild_found y yprev yend t0).2 < 1 ∧
      yprev 2 * (1 - (schwarzschild_found y yprev yend t0).2)
        + (schwarzschild_found y yprev yend t0).2 * y 2 = yend 2 ∧
      interpolate y yprev (schwarzschild_found y yprev yend t0).2 2 = yend 2) ∧
    (∀ (m : Libm K) (rfuel fuel : Nat) (maxSteps : Int) (eps h1 hmin : K)
        (derivs : K → Vec K → Vec K) (breakCond : Vec K → Bool) (r : IntegrateOut K),
      yprev 2 ≤ yend 2 →
      integrate m rfuel fuel t0 yprev yend maxSteps eps h1 hmin derivs breakCond
        schwarzschild_found = some r →
      r.valid = true → r.ystart 2 = yend 2) := by
  refine ⟨?_, ?_, ?_⟩
  · unfold schwarzschild_found
    by_cases h : y 2 > yend 2
    · simp [h]
    · simp [h]
  · intro hf hp
    have h : y 2 > yend 2 := by
      unfold schwarzschild_found at hf
      by_contra hcon
      simp [hcon] at hf
    have e : (schwarzschild_found y yprev yend t0).2 = (yend 2 - yprev 2) / (y 2 - yprev 2) := by
      simp [schwarzschild_found, h]
    rw [e]
    obtain ⟨h1, h2, h3⟩ := found_fraction y yprev yend h hp
    exact ⟨h1, h2, h3, h3⟩
  · intro m rfuel fuel maxSteps eps h1 hmin derivs breakCond r hp hr hv
    exact integrateLoop_phi m rfuel yprev yend _ eps derivs breakCond fuel 1 yprev 0 h1 t0 r
      hp hr hv

/-- C12.  `schwarzschild_breakCondition(y)` is true exactly when `|y[1]| < 2.01`
or `|y[1]| > 1000`; it is false at `|y[1]| = 2.01` and at `|y[1]| = 1000`, and two
states with the same `y[1]` get the same answer. -/
theorem schwarzschild_breakCondition_iff (y : Vec K) :
    (schwarzschild_breakCondition y = true ↔ |y 1| < 201 / 100 ∨ |y 1| > 1000) ∧
    (|y 1| = 201 / 100 → schwarzschild_breakCondition y = false) ∧
    (|y 1| = 1000 → schwarzschild_breakCondition y = false) ∧
    (∀ z : Vec K, z 1 = y 1 →
      schwarzschild_breakCondition z = schwarzschild_breakCondition y) := by
  have e : (rs : K) + 1 / 100 = 201 / 100 := by norm_num [rs]
  have key : ∀ z : Vec K, schwarzschild_breakCondition z
      = decide (|z 1| < 201 / 100 ∨ |z 1| > 1000) := by
    intro z
    unfold schwarzschild_breakCondition
    rw [e]
  refine ⟨?_, ?_, ?_, ?_⟩
  · rw [key]; simp
  · intro h
    rw [key, h]
    norm_num
  · intro h
    rw [key, h]
    norm_num
  · intro z hz
    rw [key, key, hz]

end

/-- Witness for C11: from `phi = 0` to `phi = 1/100` across the target `1/200`,
the fraction is `1/2` and the interpolated azimuth is the target; the sample run
of `integrate` returns the target azimuth. -/
theorem schwarzschild_found_crossing_witness :
    interpolate (![0, 10, 1 / 100, 0, 0, 0] : Vec ℚ) sampleY
      (schwarzschild_found (![0, 10, 1 / 100, 0, 0, 0] : Vec ℚ) sampleY sampleYmax 0).2 2
      = sampleYmax 2 ∧
    (⟨true, ![0, 10, 1 / 200, 0, 0, 0]⟩ : IntegrateOut ℚ).ystart 2 = sampleYmax 2 :=
  ⟨((schwarzschild_found_crossing (![0, 10, 1 / 100, 0, 0, 0] : Vec ℚ) sampleY sampleYmax 0).2.1
      ((schwarzschild_found_crossing (![0, 10, 1 / 100, 0, 0, 0] : Vec ℚ) sampleY
        sampleYmax 0).1.mpr (by norm_num [sampleYmax]))
      (by norm_num [sampleY, sampleYmax])).2.2.2,
    (schwarzschild_found_crossing (![0, 10, 1 / 100, 0, 0, 0] : Vec ℚ) sampleY sampleYmax
      0).2.2 sampleLibm 1 3 2 eps_abs (1 / 100) (1 / 100000000) unitPhi
      schwarzschild_breakCondition _ (by norm_num [sampleY, sampleYmax])
      (integrate_sample sampleLibm 0 2 0 2 eps_abs (1 / 100000000) (by decide)) rfl⟩

/-- Witness for C12: at `r = 2.01` the integration goes on. -/
theorem schwarzschild_breakCondition_iff_witness :
    schwarzschild_breakCondition (![0, 201 / 100, 0, 0, 0, 0] : Vec ℚ) = false :=
  (schwarzschild_breakCondition_iff (![0, 201 / 100, 0, 0, 0, 0] : Vec ℚ)).2.1
    (by norm_num [abs_of_pos])

/-- C13.  Over the real numbers, for every `r > rs` and every `ksi`, the state
built by `schwarzschild_initialize(r, ksi)` has `t = 0`, radius `r`, `phi = 0`, and
its velocity satisfies the null condition
`-(1 - rs/r) * ut^2 + ur^2 / (1 - rs/r) + r^2 * up^2 = 0`. -/
theorem schwarzschild_start_null (m : Libm ℝ) (hm : m.IsReal) (r ksi : ℝ) (hr : rs < r) :
    ( schwarzschild_initialize m r ksi).2 0 = 0 ∧
    ( schwarzschild_initialize m r ksi).2 1 = r ∧
    ( schwarzschild_initialize m r ksi).2 2 = 0 ∧
    -(1 - rs / r) * ( schwarzschild_initialize m r ksi).2 3 ^ 2
      + ( schwarzschild_initialize m r ksi).2 4 ^ 2 / (1 - rs / r)
      + r ^ 2 * ( schwarzschild_initialize m r ksi).2 5 ^ 2 = 0 := by
  obtain ⟨hsqrt, hsin, hcos, -, -⟩ := hm
  have hr0 : 0 < r := lt_trans (by norm_num [rs]) hr
  have hq : 0 < 1 - rs / r := by
    have : rs / r < 1 := (div_lt_one hr0).mpr hr
    linarith
  have hw : Real.sqrt (1 - rs / r) ^ 2 = 1 - rs / r := Real.sq_sqrt hq.le
  have hw0 : Real.sqrt (1 - rs / r) ≠ 0 := (Real.sqrt_pos.mpr hq).ne'
  have hcs := Real.sin_sq_add_cos_sq ksi
  simp only [ schwarzschild_initialize, hsqrt, hsin, hcos]
  refine ⟨by simp, by simp, by simp, ?_⟩
  simp only [Matrix.cons_val_zero, Matrix.cons_val_one, Matrix.head_cons, Matrix.cons_val_two,
    Matrix.tail_cons, Matrix.cons_val_three, Matrix.cons_val_four]
  show -(1 - rs / r) * (-1 / Real.sqrt (1 - rs / r)) ^ 2
      + (Real.cos ksi * Real.sqrt (1 - rs / r)) ^ 2 / (1 - rs / r)
      + r ^ 2 * (Real.sin ksi / r) ^ 2 = 0
  have h1 : -(1 - rs / r) * (-1 / Real.sqrt (1 - rs / r)) ^ 2 = -1 := by
    rw [div_pow, hw]
    have := hq.ne'
    generalize 1 - rs / r = q at this
    field_simp
  have h2 : (Real.cos ksi * Real.sqrt (1 - rs / r)) ^ 2 / (1 - rs / r) = Real.cos ksi ^ 2 := by
    rw [mul_pow, hw]
    have := hq.ne'
    generalize 1 - rs / r = q at this
    field_simp
  have h3 : r ^ 2 * (Real.sin ksi / r) ^ 2 = Real.sin ksi ^ 2 := by
    field_simp
  rw [h1, h2, h3]
  linarith

/-- Witness for C13: the start at `r = 3` with `ksi = 1`. -/
theorem schwarzschild_start_null_witness :
    ( schwarzschild_initialize
        (⟨Real.sqrt, Real.sin, Real.cos, Real.arcsin, fun x y => x ^ y⟩ : Libm ℝ) 3 1).2 1 = 3 :=
  (schwarzschild_start_null ⟨Real.sqrt, Real.sin, Real.cos, Real.arcsin, fun x y => x ^ y⟩
    ⟨rfl, rfl, rfl, rfl, fun _ _ => rfl⟩ 3 1 (by norm_num [rs])).2.1

/-! ## C14: the order of the Cash-Karp step -/

/-- C14.  For a right-hand side that depends on `x` only and is a polynomial of
degree at most 4 in every component, with `dydx = f(x)` passed in, the `yout` of
`rkck` is `y` plus the integral of `f` from `x` to `x + h`, for all `x`, `h`, `y`
and all coefficients; and the weights and nodes satisfy `c1 + c3 + c4 + c6 = 1`
and `c3 * a3^k + c4 * a4^k + c6 * a6^k = 1 / (k + 1)` for `k = 1, .., 4` (the
weights of the stages 2 and 5 are zero and the node of stage 1 is zero). -/
theorem rkck_fifth_order (p : Fin 5 → Vec ℝ) (y : Vec ℝ) (x h : ℝ) (i : Fin 6) :
    (rkck y (quartic p x) x h (fun t _ => quartic p t)).1 i
        = y i + ∫ t in x..(x + h), quartic p t i ∧
    (c1 + c3 + c4 + c6 : ℝ) = 1 ∧
    (c3 * a3 + c4 * a4 + c6 * a6 : ℝ) = 1 / 2 ∧
    (c3 * a3 ^ 2 + c4 * a4 ^ 2 + c6 * a6 ^ 2 : ℝ) = 1 / 3 ∧
    (c3 * a3 ^ 3 + c4 * a4 ^ 3 + c6 * a6 ^ 3 : ℝ) = 1 / 4 ∧
    (c3 * a3 ^ 4 + c4 * a4 ^ 4 + c6 * a6 ^ 4 : ℝ) = 1 / 5 := by
  refine ⟨?_, ?_, ?_, ?_, ?_, ?_⟩
  · rw [quartic_integral, rkck_quartic]
  all_goals norm_num [c1, c3, c4, c6, a3, a4, a6]

/-! ## C15: the flat-space seed angle -/

/-- C15 (the code violates the claim).  Over the real numbers, for all
`rInit, rFinal > 0` and `0 < phiFinal < pi`, the straight ray that leaves
`(rInit, 0)` at the angle `calcFlatKsi(rInit, rFinal, phiFinal)` from the outward
radial direction does not pass through `(rFinal, phiFinal)`. -/
theorem calcFlatKsi_misses (m : Libm ℝ) (hm : m.IsReal) (rInit rFinal phiFinal : ℝ)
    (hrI : 0 < rInit) (hrF : 0 < rFinal) (hphi0 : 0 < phiFinal) (hphi : phiFinal < Real.pi) :
    ¬ RayHits m rInit (calcFlatKsi m rInit rFinal phiFinal) rFinal phiFinal := by
  obtain ⟨hsqrt, hsin, hcos, hasin, -⟩ := hm
  rintro ⟨s, -, h1, h2⟩
  simp only [calcFlatKsi, hsqrt, hsin, hcos, hasin] at h1 h2
  have hsn : 0 < Real.sin phiFinal := Real.sin_pos_of_pos_of_lt_pi hphi0 hphi
  have hcs := Real.sin_sq_add_cos_sq phiFinal
  have hc1 : Real.cos phiFinal < 1 := by nlinarith
  have hd2 : 0 < rInit * rInit + rFinal * rFinal - 2 * rInit * rFinal * Real.cos phiFinal := by
    nlinarith [mul_pos hrI hrF, sq_nonneg (rInit - rFinal)]
  have hd := Real.sqrt_pos.mpr hd2
  have hdd := Real.sq_sqrt hd2.le
  generalize Real.sqrt (rInit * rInit + rFinal * rFinal - 2 * rInit * rFinal * Real.cos phiFinal)
    = d at h1 h2 hd hdd
  have hx0 : 0 ≤ rInit / d * Real.sin phiFinal := by positivity
  have hx1 : rInit / d * Real.sin phiFinal ≤ 1 := by
    have h3 : (rInit * Real.sin phiFinal) ^ 2 ≤ d ^ 2 := by
      rw [hdd]
      nlinarith [sq_nonneg (rFinal - rInit * Real.cos phiFinal)]
    have h4 : rInit * Real.sin phiFinal ≤ d := by
      by_contra hcon
      have hlt := not_le.mp hcon
      nlinarith
    rw [div_mul_eq_mul_div, div_le_one hd]
    exact h4
  rw [Real.sin_arcsin (by linarith) hx1] at h2
  refine flat_line_misses rInit rFinal (Real.cos phiFinal) (Real.sin phiFinal) d
    (Real.cos (Real.arcsin (rInit / d * Real.sin phiFinal))) s hrI hrF hsn hcs hd hdd
    (Real.cos_arcsin_nonneg _) ?_ h1 h2
  rw [Real.cos_arcsin, Real.sq_sqrt]
  nlinarith [mul_nonneg hx0 hx0, mul_le_mul hx1 hx1 hx0 (by norm_num : (0:ℝ) ≤ 1)]

/-- Witness for C15: from `rInit = 40` the ray at the angle
`calcFlatKsi(40, 10, 1)` misses the point `(10, 1)`. -/
theorem calcFlatKsi_misses_witness :
    ¬ RayHits (⟨Real.sqrt, Real.sin, Real.cos, Real.arcsin, fun x y => x ^ y⟩ : Libm ℝ) 40
      (calcFlatKsi (⟨Real.sqrt, Real.sin, Real.cos, Real.arcsin, fun x y => x ^ y⟩ : Libm ℝ)
        40 10 1) 10 1 :=
  calcFlatKsi_misses ⟨Real.sqrt, Real.sin, Real.cos, Real.arcsin, fun x y => x ^ y⟩
    ⟨rfl, rfl, rfl, rfl, fun _ _ => rfl⟩ 40 10 1 (by norm_num) (by norm_num) (by norm_num)
    (by linarith [Real.pi_gt_three])

/-! ## C16, C20: the bracket of the search -/

section
variable {K : Type} [LinearOrderedField K]

/-- C16 (the code violates the claim).  When the geodesics to both bracket
endpoints cross the target azimuth on the circle `r = rInit = 3` and the target
radius is 10, both mismatches are `-7`: the loop body never runs, `findGeodesic`
returns true without the early exit, and the mismatches `drA`, `drB` it ends with
do not have opposite signs. -/
theorem findGeodesic_success_without_sign_change (m : Libm K) (draws : Nat → K)
    (junk : Uninit K) (order : Int) (phiFinal : K) (rng : Nat) :
    (findGeodesic m onCircle draws junk order 3 10 phiFinal rng).valid = true ∧
    (findGeodesicTrace m onCircle draws junk order 3 10 phiFinal rng).1 = false ∧
    (findGeodesicTrace m onCircle draws junk order 3 10 phiFinal rng).2.drA = -7 ∧
    (findGeodesicTrace m onCircle draws junk order 3 10 phiFinal rng).2.drB = -7 ∧
    ¬ ((findGeodesicTrace m onCircle draws junk order 3 10 phiFinal rng).2.drA
      * (findGeodesicTrace m onCircle draws junk order 3 10 phiFinal rng).2.drB < 0) := by
  have hA : (findGeodesicStart m onCircle junk order 3 10 phiFinal rng).drA = -7 := by
    simp only [findGeodesicStart, (calcGeodesicUpTo_onCircle m 3 _ 10 phiFinal _).1,
      (calcGeodesicUpTo_onCircle m 3 _ 10 phiFinal _).2]
    norm_num
  have hB : (findGeodesicStart m onCircle junk order 3 10 phiFinal rng).drB = -7 := by
    simp only [findGeodesicStart, (calcGeodesicUpTo_onCircle m 3 _ 10 phiFinal _).1,
      (calcGeodesicUpTo_onCircle m 3 _ 10 phiFinal _).2]
    norm_num
  have hcount : (findGeodesicStart m onCircle junk order 3 10 phiFinal rng).count = 0 := rfl
  have htrace : findGeodesicTrace m onCircle draws junk order 3 10 phiFinal rng
      = (false, findGeodesicStart m onCircle junk order 3 10 phiFinal rng) := by
    unfold findGeodesicTrace
    apply searchTrace_exit
    rw [hA, hB]
    norm_num [HitRadiusSphere]
  rw [findGeodesic_eq_trace, htrace]
  refine ⟨?_, rfl, hA, hB, ?_⟩
  · simp [hcount, MaxTries]
  · simp only [hA, hB]
    norm_num

/-- C20.  One pass of the search loop of `findGeodesic` that is entered with
`drA * drB < 0` and does not take the early exit continues the loop from the
updated bracket (the trial replaces B when `drC * drA < 0` and A otherwise), and
the updated endpoints again satisfy `drA * drB < 0`. -/
theorem bisection_pass_keeps_sign_change (m : Libm K) (integ : Vec K → Vec K → IntegrateOut K)
    (draws : Nat → K) (rInit rFinal phiFinal : K) (s : Search K)
    (hcond : |s.drA - s.drB| > HitRadiusSphere ∧ |s.ksiA - s.ksiB| > ksi_eps ∧
      s.count < MaxTries)
    (hsign : s.drA * s.drB < 0)
    (hno : ¬ (|(searchTrial (calcGeodesicUpTo m integ rInit · rFinal phiFinal) draws
          (calcFlatKsi m rInit rFinal phiFinal) s).drC| < 1 / 1000000000000000 ∧
        (searchTrial (calcGeodesicUpTo m integ rInit · rFinal phiFinal) draws
          (calcFlatKsi m rInit rFinal phiFinal) s).validC = true)) :
    searchLoop (calcGeodesicUpTo m integ rInit · rFinal phiFinal) draws
        (calcFlatKsi m rInit rFinal phiFinal) s
      = searchLoop (calcGeodesicUpTo m integ rInit · rFinal phiFinal) draws
        (calcFlatKsi m rInit rFinal phiFinal)
        (bracketUpdate s (searchTrial (calcGeodesicUpTo m integ rInit · rFinal phiFinal) draws
          (calcFlatKsi m rInit rFinal phiFinal) s)) ∧
    (bracketUpdate s (searchTrial (calcGeodesicUpTo m integ rInit · rFinal phiFinal) draws
        (calcFlatKsi m rInit rFinal phiFinal) s)).drA
      * (bracketUpdate s (searchTrial (calcGeodesicUpTo m integ rInit · rFinal phiFinal) draws
        (calcFlatKsi m rInit rFinal phiFinal) s)).drB < 0 := by
  refine ⟨?_, ?_⟩
  · rw [searchLoop_pass _ _ _ _ hcond, if_neg hno]
  · exact bracketUpdate_sign s _ hsign
      (trial_dr_ne_zero _ (searchTrial_valid_or_dr _ draws _ _
        (fun ksi u => calcGeodesicUpTo_dr m integ rInit ksi rFinal phiFinal u) s) hno)

end

/-- Witness for C20: the first pass from the bracket `[0, PI]` with both
endpoints invalid, when no geodesic crosses the target azimuth: the trial is
invalid, replaces A, and the mismatches stay of opposite signs. -/
theorem bisection_pass_keeps_sign_change_witness :
    (bracketUpdate sampleSearch (searchTrial
        (calcGeodesicUpTo (sampleLibm : Libm ℚ) noCrossing 10 · 20 1) (fun _ => 1 / 2)
        (calcFlatKsi sampleLibm 10 20 1) sampleSearch)).drA
      * (bracketUpdate sampleSearch (searchTrial
        (calcGeodesicUpTo (sampleLibm : Libm ℚ) noCrossing 10 · 20 1) (fun _ => 1 / 2)
        (calcFlatKsi sampleLibm 10 20 1) sampleSearch)).drB < 0 :=
  (bisection_pass_keeps_sign_change sampleLibm noCrossing (fun _ => 1 / 2) 10 20 1 sampleSearch
    sampleSearch_cond sampleSearch_sign
    (fun h => Bool.noConfusion
      ((searchTrial_noCrossing sampleLibm (1 / 2) (calcFlatKsi sampleLibm 10 20 1) 10 20 1
        sampleSearch).symm.trans h.2))).2

/-! ## C17 - C18: the basis of helper.cpp -/

/-- C17.  Over the real numbers, for every `p` whose y/z part is not zero,
`calcBase` yields `e1 = (1, 0, 0)` and `e2 = (0, p_y, p_z) / sqrt(p_y^2 + p_z^2)`;
`e1` and `e2` have unit length and are orthogonal, `p` is the combination
`(p.e1) e1 + (p.e2) e2`, and `p.e2 > 0`. -/
theorem calcBase_orthonormal (m : Libm ℝ) (hm : m.IsReal) (p : Vec3 ℝ)
    (hp : p 1 ≠ 0 ∨ p 2 ≠ 0) :
    (calcBase m p).1 = ![1, 0, 0] ∧
    (calcBase m p).2
      = ![0, p 1 / Real.sqrt (p 1 ^ 2 + p 2 ^ 2), p 2 / Real.sqrt (p 1 ^ 2 + p 2 ^ 2)] ∧
    dotProd (calcBase m p).1 (calcBase m p).1 = 1 ∧
    dotProd (calcBase m p).2 (calcBase m p).2 = 1 ∧
    dotProd (calcBase m p).1 (calcBase m p).2 = 0 ∧
    (∀ i, p i = dotProd p (calcBase m p).1 * (calcBase m p).1 i
      + dotProd p (calcBase m p).2 * (calcBase m p).2 i) ∧
    0 < dotProd p (calcBase m p).2 := by
  have hq := yz_part_pos p hp
  have hw : Real.sqrt (p 1 ^ 2 + p 2 ^ 2) ^ 2 = p 1 ^ 2 + p 2 ^ 2 := Real.sq_sqrt hq.le
  have hw0 : 0 < Real.sqrt (p 1 ^ 2 + p 2 ^ 2) := Real.sqrt_pos.mpr hq
  rw [calcBase_eq m hm p]
  generalize Real.sqrt (p 1 ^ 2 + p 2 ^ 2) = w at hw hw0
  have hne : w ≠ 0 := hw0.ne'
  have e2 : p 1 * (p 1 / w) + p 2 * (p 2 / w) = w := by
    field_simp
    nlinarith
  refine ⟨rfl, rfl, by simp [dotProd], ?_, by simp [dotProd], ?_, ?_⟩
  · simp only [dotProd, Matrix.cons_val_zero, Matrix.cons_val_one, Matrix.head_cons,
      Matrix.cons_val_two, Matrix.tail_cons]
    field_simp
    nlinarith
  · intro i
    simp only [dotProd, Matrix.cons_val_zero, Matrix.cons_val_one, Matrix.head_cons,
      Matrix.cons_val_two, Matrix.tail_cons]
    have e3 : p 0 * 0 + p 1 * (p 1 / w) + p 2 * (p 2 / w) = w := by
      rw [mul_zero, zero_add, e2]
    rw [e3]
    fin_cases i
    · simp
    · simp
      field_simp
    · simp
      field_simp
  · simp only [dotProd, Matrix.cons_val_zero, Matrix.cons_val_one, Matrix.head_cons,
      Matrix.cons_val_two, Matrix.tail_cons]
    rw [mul_zero, zero_add, e2]
    exact hw0

/-- Witness for C17: the point `(1, 3, 4)`. -/
theorem calcBase_orthonormal_witness :
    dotProd (calcBase (⟨Real.sqrt, Real.sin, Real.cos, Real.arcsin, fun x y => x ^ y⟩ : Libm ℝ)
        ![1, 3, 4]).2
      (calcBase (⟨Real.sqrt, Real.sin, Real.cos, Real.arcsin, fun x y => x ^ y⟩ : Libm ℝ)
        ![1, 3, 4]).2 = 1 :=
  (calcBase_orthonormal ⟨Real.sqrt, Real.sin, Real.cos, Real.arcsin, fun x y => x ^ y⟩
    ⟨rfl, rfl, rfl, rfl, fun _ _ => rfl⟩ ![1, 3, 4] (Or.inl (by norm_num))).2.2.2.1

/-- C18.  Over the real numbers, for every `p` whose y/z part is not zero, with
`(e1, e2)` from `calcBase(p)` and `(r, phi)` from `calcBaseComp(e1, e2, p)`, the
call `calcCoords(e1, e2, phi, r)` returns `p`. -/
theorem calcCoords_calcBaseComp (m : Libm ℝ) (hm : m.IsReal) (atan2 : ℝ → ℝ → ℝ)
    (hatan2 : IsRealAtan2 atan2) (p : Vec3 ℝ) (hp : p 1 ≠ 0 ∨ p 2 ≠ 0) :
    calcCoords m (calcBase m p).1 (calcBase m p).2
      (calcBaseComp m atan2 (calcBase m p).1 (calcBase m p).2 p).2
      (calcBaseComp m atan2 (calcBase m p).1 (calcBase m p).2 p).1 = p := by
  have hq := yz_part_pos p hp
  have hw : Real.sqrt (p 1 ^ 2 + p 2 ^ 2) ^ 2 = p 1 ^ 2 + p 2 ^ 2 := Real.sq_sqrt hq.le
  have hw0 : 0 < Real.sqrt (p 1 ^ 2 + p 2 ^ 2) := Real.sqrt_pos.mpr hq
  rw [calcBase_eq m hm p]
  obtain ⟨hsqrt, hsin, hcos, -, -⟩ := hm
  generalize Real.sqrt (p 1 ^ 2 + p 2 ^ 2) = w at hw hw0
  have hne : w ≠ 0 := hw0.ne'
  have e2 : p 1 * (p 1 / w) + p 2 * (p 2 / w) = w := by
    field_simp
    nlinarith
  have hx : dotProd p ![1, 0, 0] = p 0 := by simp [dotProd]
  have hy : dotProd p ![0, p 1 / w, p 2 / w] = w := by
    simp only [dotProd, Matrix.cons_val_zero, Matrix.cons_val_one, Matrix.head_cons,
      Matrix.cons_val_two, Matrix.tail_cons]
    rw [mul_zero, zero_add, e2]
  simp only [calcCoords, calcBaseComp, hx, hy, hsqrt, hsin, hcos, hatan2 w (p 0)]
  have hz : (⟨p 0, w⟩ : ℂ) ≠ 0 := by
    intro h
    exact hne (congrArg Complex.im h)
  have habs : Complex.abs ⟨p 0, w⟩ = Real.sqrt (p 0 * p 0 + w * w) := by
    rw [Complex.abs_apply, Complex.normSq_mk]
  have hc : Real.sqrt (p 0 * p 0 + w * w) * Real.cos (Complex.arg ⟨p 0, w⟩) = p 0 := by
    rw [Complex.cos_arg hz, habs]
    have : Real.sqrt (p 0 * p 0 + w * w) ≠ 0 := by
      rw [← habs]
      exact (map_ne_zero Complex.abs).mpr hz
    field_simp
  have hs : Real.sqrt (p 0 * p 0 + w * w) * Real.sin (Complex.arg ⟨p 0, w⟩) = w := by
    rw [Complex.sin_arg, habs]
    have : Real.sqrt (p 0 * p 0 + w * w) ≠ 0 := by
      rw [← habs]
      exact (map_ne_zero Complex.abs).mpr hz
    field_simp
  rw [hc, hs]
  funext i
  fin_cases i
  · simp
  · simp
    field_simp
  · simp
    field_simp

/-- Witness for C18: the point `(1, 3, 4)`. -/
theorem calcCoords_calcBaseComp_witness :
    calcCoords (⟨Real.sqrt, Real.sin, Real.cos, Real.arcsin, fun x y => x ^ y⟩ : Libm ℝ)
      (calcBase (⟨Real.sqrt, Real.sin, Real.cos, Real.arcsin, fun x y => x ^ y⟩ : Libm ℝ)
        ![1, 3, 4]).1
      (calcBase (⟨Real.sqrt, Real.sin, Real.cos, Real.arcsin, fun x y => x ^ y⟩ : Libm ℝ)
        ![1, 3, 4]).2
      (calcBaseComp (⟨Real.sqrt, Real.sin, Real.cos, Real.arcsin, fun x y => x ^ y⟩ : Libm ℝ)
        (fun y x => Complex.arg ⟨x, y⟩)
        (calcBase (⟨Real.sqrt, Real.sin, Real.cos, Real.arcsin, fun x y => x ^ y⟩ : Libm ℝ)
          ![1, 3, 4]).1
        (calcBase (⟨Real.sqrt, Real.sin, Real.cos, Real.arcsin, fun x y => x ^ y⟩ : Libm ℝ)
          ![1, 3, 4]).2 ![1, 3, 4]).2
      (calcBaseComp (⟨Real.sqrt, Real.sin, Real.cos, Real.arcsin, fun x y => x ^ y⟩ : Libm ℝ)
        (fun y x => Complex.arg ⟨x, y⟩)
        (calcBase (⟨Real.sqrt, Real.sin, Real.cos, Real.arcsin, fun x y => x ^ y⟩ : Libm ℝ)
          ![1, 3, 4]).1
        (calcBase (⟨Real.sqrt, Real.sin, Real.cos, Real.arcsin, fun x y => x ^ y⟩ : Libm ℝ)
          ![1, 3, 4]).2 ![1, 3, 4]).1 = ![1, 3, 4] :=
  calcCoords_calcBaseComp ⟨Real.sqrt, Real.sin, Real.cos, Real.arcsin, fun x y => x ^ y⟩
    ⟨rfl, rfl, rfl, rfl, fun _ _ => rfl⟩ (fun y x => Complex.arg ⟨x, y⟩) (fun _ _ => rfl)
    ![1, 3, 4] (Or.inl (by norm_num))

/-! ## C19: the parallel cell loop -/

section
variable {K : Type} [LinearOrderedField K]

/-- C19 (the code violates the claim).  The locals `ksi`, `dt`, `derr`, `u`,
`isValid` and `cnt` are common to the threads of the parallel loop.  In the run
`raceSchedule` of the iterations 0 and 1, where each thread executes its
statements in program order, the record stored in `lut_0` for cell 0 is the one
of the search for cell 1 (row 0, column 1), whereas the serial loop stores the
record of the search for cell 0. -/
theorem genLUT_omp_shared_locals (toFloat : K → F32) (m : Libm K)
    (integ : Vec K → Vec K → IntegrateOut K) (draws : Nat → K) (junk : Uninit K)
    (rInit rmin rmax : K) (Nr Nphi : Nat) (sh : OmpShared K) (hN : 2 ≤ Nphi) (k : Fin 4) :
    stmtsOf 0 raceSchedule = [OmpStmt.find0, OmpStmt.store0, OmpStmt.find1, OmpStmt.store1] ∧
    stmtsOf 1 raceSchedule = [OmpStmt.find0, OmpStmt.store0, OmpStmt.find1, OmpStmt.store1] ∧
    (ompRun toFloat m integ draws junk rInit rmin rmax Nr Nphi raceSchedule sh).lut_0
        (4 * 0 + k.val)
      = lutRecord toFloat (findGeodesic m integ draws junk 0 rInit (gridR rmin rmax Nr 0)
          (gridPhi Nphi 1)
          (findGeodesic m integ draws junk 0 rInit (gridR rmin rmax Nr 0) (gridPhi Nphi 0)
            sh.rng).rng) k ∧
    (lutCell toFloat m integ draws junk rInit rmin rmax Nr Nphi 0 0
        ⟨sh.lut_0, sh.lut_1, sh.rng⟩).lut_0 (4 * 0 + k.val)
      = lutRecord toFloat (findGeodesic m integ draws junk 0 rInit (gridR rmin rmax Nr 0)
          (gridPhi Nphi 0) sh.rng) k := by
  have d0 : 0 / Nphi = 0 := Nat.zero_div _
  have m0 : 0 % Nphi = 0 := Nat.zero_mod _
  have d1 : 1 / Nphi = 0 := Nat.div_eq_of_lt (by omega)
  have m1 : 1 % Nphi = 1 := Nat.mod_eq_of_lt (by omega)
  refine ⟨rfl, rfl, ?_, ?_⟩
  · simp only [ompRun, raceSchedule, List.foldl, ompStmt, d0, m0, d1, m1]
    rw [ompStore_other _ 1 _ _ (Or.inl (by omega)), ompStore_slot]
  · unfold lutCell
    simp only
    have hc : cellNum Nphi 0 0 = 0 := by simp [cellNum]
    rw [hc]
    exact storeRecord_slot sh.lut_0 0 _ k (by norm_num)

end

/-- Witness for C19: a grid with two columns; slot 0 of `lut_0` after the run
holds the angle of the search for cell 1. -/
theorem genLUT_omp_shared_locals_witness :
    (ompRun sampleFloat sampleLibm noCrossing (fun _ => 1 / 2) sampleJunk 40 (5 / 2) 30 2 2
        raceSchedule sampleShared).lut_0 (4 * 0 + (0 : Fin 4).val)
      = lutRecord sampleFloat (findGeodesic (sampleLibm : Libm ℚ) noCrossing (fun _ => 1 / 2)
          sampleJunk 0 40 (gridR (5 / 2) 30 2 0) (gridPhi 2 1)
          (findGeodesic (sampleLibm : Libm ℚ) noCrossing (fun _ => 1 / 2) sampleJunk 0 40
            (gridR (5 / 2) 30 2 0) (gridPhi 2 0) sampleShared.rng).rng) 0 :=
  (genLUT_omp_shared_locals sampleFloat sampleLibm noCrossing (fun _ => 1 / 2) sampleJunk 40
    (5 / 2) 30 2 2 sampleShared (by decide) 0).2.2.1

/-! ## C21 - C23: the step control of `rkqs` -/

section
variable {K : Type} [LinearOrderedField K]

/-- C21. Whenever `rkqs` returns, the step `hdid` passed the error test: the scaled
error of `rkck` taken with `h = hdid` from the original `y` is at most 1, and it
is the largest quotient `|yerr_i / yscal_i|` divided by `eps`; `x` has moved by
exactly `hdid` and `y` is the `yout` of that step. If the first trial `htry`
passes the test, `rkqs` returns after one pass of its loop (fuel 1, one call of
`rkck`) with `hdid = htry`. -/
theorem rkqs_accepted_step (m : Libm K) (y dydx : Vec K) (x htry eps : K) (yscal : Vec K)
    (derivs : K → Vec K → Vec K) :
    (∀ (fuel : Nat) (r : RkqsOut K),
      rkqs m fuel y dydx x htry eps yscal derivs = some r →
      rkqsErrmax (rkck y dydx x r.hdid derivs).2 yscal eps ≤ 1 ∧
      (∃ j, (∀ i, |(rkck y dydx x r.hdid derivs).2 i / yscal i|
            ≤ |(rkck y dydx x r.hdid derivs).2 j / yscal j|) ∧
          |(rkck y dydx x r.hdid derivs).2 j / yscal j| / eps ≤ 1) ∧
      r.x = x + r.hdid ∧ r.y = (rkck y dydx x r.hdid derivs).1) ∧
    (rkqsErrmax (rkck y dydx x htry derivs).2 yscal eps ≤ 1 →
      ∀ fuel : Nat, ∃ r, rkqs m (fuel + 1) y dydx x htry eps yscal derivs = some r ∧
        r.hdid = htry ∧ r.x = x + htry ∧ r.y = (rkck y dydx x htry derivs).1) := by
  refine ⟨fun fuel r hr => ?_, fun he fuel => ?_⟩
  · obtain ⟨h1, h2, h3, -⟩ := rkqs_some m fuel y dydx x htry eps yscal derivs r hr
    obtain ⟨j, hj, ej⟩ := rkqsErrmax_max (rkck y dydx x r.hdid derivs).2 yscal eps
    exact ⟨h1, ⟨j, hj, by rw [← ej]; exact h1⟩, h2, h3⟩
  · refine ⟨⟨(rkck y dydx x htry derivs).1, x + htry, htry,
      (if rkqsErrmax (rkck y dydx x htry derivs).2 yscal eps > ERRCON then
        SAFETY * htry * m.pow (rkqsErrmax (rkck y dydx x htry derivs).2 yscal eps) PGROW
        else 5 * htry)⟩, ?_, rfl, rfl, rfl⟩
    unfold rkqs
    rw [rkqsLoop]
    simp only [he, if_true]

end

/-- A trial with step 1 on the constant right-hand side `unitPhi` passes the error
test, and `rkqs` returns after one pass with `hdid = 1`. -/
theorem rkqs_accepted_step_witness :
    rkqsErrmax (rkck (sampleY : Vec ℚ) (unitPhi 0 sampleY) 0 1 unitPhi).2 (fun _ => 1) 1 ≤ 1 ∧
    ∃ r, rkqs (sampleLibm : Libm ℚ) 1 sampleY (unitPhi 0 sampleY) 0 1 1 (fun _ => 1) unitPhi
        = some r ∧
      r.hdid = 1 ∧ r.x = 0 + 1 ∧ r.y = (rkck sampleY (unitPhi 0 sampleY) 0 1 unitPhi).1 :=
  have hE : rkqsErrmax (rkck (sampleY : Vec ℚ) (unitPhi 0 sampleY) 0 1 unitPhi).2
      (fun _ => 1) 1 ≤ 1 := by
    simp only [rkck_unitPhi, rkqsErrmax_zero]
    exact zero_le_one
  ⟨hE, (rkqs_accepted_step sampleLibm sampleY (unitPhi 0 sampleY) 0 1 1 (fun _ => 1)
    unitPhi).2 hE 0⟩

/-- C22. Over the real numbers, a rejected trial of `rkqs` (`errmax > 1`) with `h !=
0` continues the loop with the step `0.9 * h * errmax ^ (-0.25)` clamped at `0.1
* h`; that step has the sign of `h` and its magnitude is at least `0.1 * |h|`
and less than `0.9 * |h|`. -/
theorem rkqs_rejected_step (m : Libm ℝ) (hm : m.IsReal) (h errmax : ℝ) (he : 1 < errmax)
    (hh : h ≠ 0) :
    (∀ (y dydx : Vec ℝ) (x eps : ℝ) (yscal : Vec ℝ) (derivs : ℝ → Vec ℝ → Vec ℝ)
        (fuel : Nat), rkqsErrmax (rkck y dydx x h derivs).2 yscal eps = errmax →
      rkqsLoop m y dydx x eps yscal derivs (fuel + 1) h
        = rkqsLoop m y dydx x eps yscal derivs fuel (rkqsShrink m h errmax)) ∧
    (0 < h → 0 < rkqsShrink m h errmax) ∧ (h < 0 → rkqsShrink m h errmax < 0) ∧
    1 / 10 * |h| ≤ |rkqsShrink m h errmax| ∧ |rkqsShrink m h errmax| < 9 / 10 * |h| := by
  have hpow := hm.2.2.2.2 errmax PSHRNK
  have hp0 : 0 < m.pow errmax PSHRNK := by
    rw [hpow]
    exact Real.rpow_pos_of_pos (by linarith) _
  have hp1 : m.pow errmax PSHRNK < 1 := by
    rw [hpow]
    exact Real.rpow_lt_one_of_one_lt_of_neg he (by norm_num [PSHRNK])
  refine ⟨fun y dydx x eps yscal derivs fuel hE => ?_, rkqsShrink_bounds m h errmax hp0 hp1 hh⟩
  rw [rkqsLoop]
  simp only [hE]
  rw [if_neg (not_le.mpr he)]
  rfl

/-- The trial with step 1 on the right-hand side `x ^ 4` and `eps = 277 / 819200`
has the scaled error 2: it is rejected, and the loop goes on with a positive
step between 0.1 and 0.9. -/
theorem rkqs_rejected_step_witness :
    (1 : ℝ) < 2 ∧
    rkqsLoop (⟨Real.sqrt, Real.sin, Real.cos, Real.arcsin, fun x y => x ^ y⟩ : Libm ℝ)
        (fun _ => 0) (fun _ => 0) 0 (277 / 819200) (fun _ => 1) (fun x _ _ => x ^ 4) 1 1
      = rkqsLoop (⟨Real.sqrt, Real.sin, Real.cos, Real.arcsin, fun x y => x ^ y⟩ : Libm ℝ)
        (fun _ => 0) (fun _ => 0) 0 (277 / 819200) (fun _ => 1) (fun x _ _ => x ^ 4) 0
        (rkqsShrink (⟨Real.sqrt, Real.sin, Real.cos, Real.arcsin, fun x y => x ^ y⟩ : Libm ℝ)
          1 2) ∧
    0 < rkqsShrink (⟨Real.sqrt, Real.sin, Real.cos, Real.arcsin, fun x y => x ^ y⟩ : Libm ℝ)
      1 2 ∧
    1 / 10 * |(1 : ℝ)|
      ≤ |rkqsShrink (⟨Real.sqrt, Real.sin, Real.cos, Real.arcsin, fun x y => x ^ y⟩ : Libm ℝ)
        1 2| ∧
    |rkqsShrink (⟨Real.sqrt, Real.sin, Real.cos, Real.arcsin, fun x y => x ^ y⟩ : Libm ℝ) 1 2|
      < 9 / 10 * |(1 : ℝ)| :=
  have h := rkqs_rejected_step ⟨Real.sqrt, Real.sin, Real.cos, Real.arcsin, fun x y => x ^ y⟩
    ⟨rfl, rfl, rfl, rfl, fun _ _ => rfl⟩ 1 2 (by norm_num) one_ne_zero
  ⟨by norm_num, h.1 (fun _ => 0) (fun _ => 0) 0 (277 / 819200) (fun _ => 1)
    (fun x _ _ => x ^ 4) 0 rkqsErrmax_sample, h.2.1 one_pos, h.2.2.2⟩

/-- C23. Over the real numbers, on acceptance `hnext` is `0.9 * hdid * errmax ^
(-0.2)` when `errmax > 1.89e-4` and `5 * hdid` otherwise; it has the sign of
`hdid` and `0.9 * |hdid| <= |hnext| <= 5 * |hdid|`. -/
theorem rkqs_next_step (m : Libm ℝ) (hm : m.IsReal) (fuel : Nat) (y dydx : Vec ℝ)
    (x htry eps : ℝ) (yscal : Vec ℝ) (derivs : ℝ → Vec ℝ → Vec ℝ) (r : RkqsOut ℝ)
    (hr : rkqs m fuel y dydx x htry eps yscal derivs = some r) :
    r.hnext = (if rkqsErrmax (rkck y dydx x r.hdid derivs).2 yscal eps > ERRCON then
        SAFETY * r.hdid * m.pow (rkqsErrmax (rkck y dydx x r.hdid derivs).2 yscal eps) PGROW
        else 5 * r.hdid) ∧
    (0 < r.hdid → 0 < r.hnext) ∧ (r.hdid < 0 → r.hnext < 0) ∧
    9 / 10 * |r.hdid| ≤ |r.hnext| ∧ |r.hnext| ≤ 5 * |r.hdid| := by
  obtain ⟨h1, -, -, h4⟩ := rkqs_some m fuel y dydx x htry eps yscal derivs r hr
  refine ⟨h4, ?_⟩
  rw [h4]
  generalize rkqsErrmax (rkck y dydx x r.hdid derivs).2 yscal eps = e at h1
  generalize r.hdid = h
  by_cases hE : e > ERRCON
  · rw [if_pos hE, hm.2.2.2.2 e PGROW]
    obtain ⟨g1, g2⟩ := grow_factor e hE h1
    generalize e ^ (PGROW : ℝ) = p at g1 g2
    unfold SAFETY
    have hp : 0 < p := lt_of_lt_of_le one_pos g1
    have hpos : 0 < 9 / 10 * p := by positivity
    have e1 : 9 / 10 * h * p = 9 / 10 * p * h := by ring
    rw [e1, abs_mul, abs_of_pos hpos]
    refine ⟨fun hh => mul_pos hpos hh, fun hh => mul_neg_of_pos_of_neg hpos hh, ?_, ?_⟩
    · exact mul_le_mul_of_nonneg_right (by linarith) (abs_nonneg h)
    · exact mul_le_mul_of_nonneg_right (by linarith) (abs_nonneg h)
  · rw [if_neg hE, abs_mul, abs_of_pos (by norm_num : (0 : ℝ) < 5)]
    refine ⟨fun hh => by linarith, fun hh => by linarith, ?_, le_refl _⟩
    nlinarith [abs_nonneg h]

/-- An accepted step 1 on the constant right-hand side `unitPhi` suggests the next
step 5. -/
theorem rkqs_next_step_witness :
    rkqs (⟨Real.sqrt, Real.sin, Real.cos, Real.arcsin, fun x y => x ^ y⟩ : Libm ℝ) 1 sampleY
        (unitPhi 0 sampleY) 0 1 1 (fun _ => 1) unitPhi
      = some ⟨fun i => sampleY i + 1 * unitPhi 0 sampleY i, 0 + 1, 1, 5 * 1⟩ ∧
    9 / 10 * |(1 : ℝ)| ≤ |(5 * 1 : ℝ)| ∧ |(5 * 1 : ℝ)| ≤ 5 * |(1 : ℝ)| :=
  ⟨rkqs_unitPhi _ 0 sampleY 0 1 1 (fun _ => 1),
    (rkqs_next_step ⟨Real.sqrt, Real.sin, Real.cos, Real.arcsin, fun x y => x ^ y⟩
      ⟨rfl, rfl, rfl, rfl, fun _ _ => rfl⟩ 1 sampleY (unitPhi 0 sampleY) 0 1 1 (fun _ => 1)
      unitPhi ⟨fun i => sampleY i + 1 * unitPhi 0 sampleY i, 0 + 1, 1, 5 * 1⟩
      (rkqs_unitPhi _ 0 sampleY 0 1 1 (fun _ => 1))).2.2.2⟩

/-! ## C24: the critical angle and the order-1 bracket -/

/-- C25. Over the real numbers, along every curve whose velocity at a state with `r`
not in `{0, rs}` is the vector that `schwarzschild_derivs` returns there, the
derivative of the null norm `N = -(1 - rs/r) u_t^2 + u_r^2 / (1 - rs/r) + r^2
u_phi^2` is zero. -/
theorem derivs_preserve_null_norm (m : Libm ℝ) (hm : m.IsReal) (c : ℝ → Vec ℝ) (s : ℝ)
    (hc : ∀ i, HasDerivAt (fun t => c t i) (schwarzschild_derivs m s (c s) i) s)
    (h0 : c s 1 ≠ 0) (h1 : c s 1 ≠ rs) :
    HasDerivAt (fun t => nullNorm (c t)) 0 s := by
  obtain ⟨e1, e3, e4, e5⟩ := derivs_components m hm s (c s)
  have d1 := hc 1
  have d3 := hc 3
  have d4 := hc 4
  have d5 := hc 5
  rw [e1] at d1
  rw [e3] at d3
  rw [e4] at d4
  rw [e5] at d5
  have hrs : c s 1 - rs ≠ 0 := sub_ne_zero.mpr h1
  have hq : 1 - rs / c s 1 ≠ 0 := by
    field_simp
    exact hrs
  have df : HasDerivAt (fun t => 1 - rs / c t 1) (-((0 * c s 1 - rs * c s 4) / c s 1 ^ 2)) s :=
    ((hasDerivAt_const s rs).div d1 h0).const_sub 1
  have dN := ((df.neg.mul (d3.pow 2)).add ((d4.pow 2).div df hq)).add ((d1.pow 2).mul (d5.pow 2))
  unfold nullNorm
  convert dN using 1
  field_simp
  ring

/-- The null norm is stationary along the straight line through the sample orbit
state in the direction of the right-hand side. -/
theorem derivs_preserve_null_norm_witness :
    HasDerivAt (fun t => nullNorm (tangentLine
      (⟨Real.sqrt, Real.sin, Real.cos, Real.arcsin, fun x y => x ^ y⟩ : Libm ℝ) sampleOrbit t))
      0 0 :=
  derivs_preserve_null_norm ⟨Real.sqrt, Real.sin, Real.cos, Real.arcsin, fun x y => x ^ y⟩
    ⟨rfl, rfl, rfl, rfl, fun _ _ => rfl⟩ (tangentLine _ sampleOrbit) 0
    (tangentLine_hasDerivAt _ sampleOrbit)
    (by rw [tangentLine_zero]; norm_num [sampleOrbit])
    (by rw [tangentLine_zero]; norm_num [sampleOrbit, rs])

/-- C30. Over the real numbers, along every curve whose velocity at a state with `r`
not in `{0, rs}` is the vector that `schwarzschild_derivs` returns there, the
derivatives of the energy `E = (1 - rs/r) u_t` and of the angular momentum `L =
r^2 u_phi` are both zero. -/
theorem derivs_conserve_constants (m : Libm ℝ) (hm : m.IsReal) (c : ℝ → Vec ℝ) (s : ℝ)
    (hc : ∀ i, HasDerivAt (fun t => c t i) (schwarzschild_derivs m s (c s) i) s)
    (h0 : c s 1 ≠ 0) (h1 : c s 1 ≠ rs) :
    HasDerivAt (fun t => energy (c t)) 0 s ∧
    HasDerivAt (fun t => angularMomentum (c t)) 0 s := by
  obtain ⟨e1, e3, -, e5⟩ := derivs_components m hm s (c s)
  have d1 := hc 1
  have d3 := hc 3
  have d5 := hc 5
  rw [e1] at d1
  rw [e3] at d3
  rw [e5] at d5
  have hrs : c s 1 - rs ≠ 0 := sub_ne_zero.mpr h1
  have df : HasDerivAt (fun t => 1 - rs / c t 1) (-((0 * c s 1 - rs * c s 4) / c s 1 ^ 2)) s :=
    ((hasDerivAt_const s rs).div d1 h0).const_sub 1
  constructor
  · have dE := df.mul d3
    unfold energy
    convert dE using 1
    field_simp
    ring
  · have dL := (d1.pow 2).mul d5
    unfold angularMomentum
    convert dL using 1
    field_simp
    ring

/-- The energy and the angular momentum are stationary along the straight line
through the sample orbit state in the direction of the right-hand side. -/
theorem derivs_conserve_constants_witness :
    HasDerivAt (fun t => energy (tangentLine
      (⟨Real.sqrt, Real.sin, Real.cos, Real.arcsin, fun x y => x ^ y⟩ : Libm ℝ) sampleOrbit t))
      0 0 ∧
    HasDerivAt (fun t => angularMomentum (tangentLine
      (⟨Real.sqrt, Real.sin, Real.cos, Real.arcsin, fun x y => x ^ y⟩ : Libm ℝ) sampleOrbit t))
      0 0 :=
  derivs_conserve_constants ⟨Real.sqrt, Real.sin, Real.cos, Real.arcsin, fun x y => x ^ y⟩
    ⟨rfl, rfl, rfl, rfl, fun _ _ => rfl⟩ (tangentLine _ sampleOrbit) 0
    (tangentLine_hasDerivAt _ sampleOrbit)
    (by rw [tangentLine_zero]; norm_num [sampleOrbit])
    (by rw [tangentLine_zero]; norm_num [sampleOrbit, rs])

/-! ## C26: the denominators of the right-hand side -/

section
variable {K : Type} [LinearOrderedField K]

/-- C26. For a state on which `schwarzschild_breakCondition` is false, `2.01 <= |r|
<= 1000` and the denominators `r * (r - rs)`, `r ^ 3` and `r` of
`schwarzschild_derivs` are not zero; so is `pow(r, 3)` when it returns the cube. -/
theorem derivs_denominators (m : Libm K) (y : Vec K)
    (hb : schwarzschild_breakCondition y = false) :
    (201 / 100 ≤ |y 1| ∧ |y 1| ≤ 1000) ∧
    y 1 * (y 1 - rs) ≠ 0 ∧ y 1 ^ 3 ≠ 0 ∧ y 1 ≠ 0 ∧
    (m.pow (y 1) 3 = y 1 ^ 3 → m.pow (y 1) 3 ≠ 0) := by
  unfold schwarzschild_breakCondition at hb
  have hb2 : ¬ (|y 1| < rs + 1 / 100 ∨ |y 1| > 1000) := by simpa using hb
  have h1 : 201 / 100 ≤ |y 1| := by
    have := not_lt.mp (fun h => hb2 (Or.inl h))
    have e : (rs : K) + 1 / 100 = 201 / 100 := by norm_num [rs]
    rwa [e] at this
  have h2 : |y 1| ≤ 1000 := not_lt.mp (fun h => hb2 (Or.inr h))
  have hr0 : y 1 ≠ 0 := by
    intro h0
    rw [h0, abs_zero] at h1
    norm_num at h1
  have hrs : y 1 - rs ≠ 0 := by
    intro h0
    have : y 1 = 2 := by
      have := sub_eq_zero.mp h0
      rw [this]; rfl
    rw [this] at h1
    norm_num [abs_of_pos] at h1
  refine ⟨⟨h1, h2⟩, mul_ne_zero hr0 hrs, pow_ne_zero 3 hr0, hr0, fun hp => ?_⟩
  rw [hp]
  exact pow_ne_zero 3 hr0

end

/-- The denominators at the sample state `r = 10`. -/
theorem derivs_denominators_witness :
    schwarzschild_breakCondition (sampleY : Vec ℚ) = false ∧
    (sampleY : Vec ℚ) 1 * (sampleY 1 - rs) ≠ 0 ∧ (sampleY : Vec ℚ) 1 ^ 3 ≠ 0 ∧
    (sampleY : Vec ℚ) 1 ≠ 0 :=
  have hb : schwarzschild_breakCondition (sampleY : Vec ℚ) = false := by
    simp [schwarzschild_breakCondition, sampleY, rs]
    norm_num [abs_of_pos]
  have h := derivs_denominators (sampleLibm : Libm ℚ) sampleY hb
  ⟨hb, h.2.1, h.2.2.1, h.2.2.2.1⟩

/-! ## C27: the cells of the two loops -/

/-- C27 (amended). When `Nr * Nphi * 4` fits a signed 32-bit integer the OpenMP loop
visits the same cells with the same numbers in the same order as the nested
serial loops, `(ir, ip) -> ir * Nphi + ip` maps `[0, Nr) x [0, Nphi)` onto `[0,
Nr * Nphi)` with inverse `n -> (n / Nphi, n % Nphi)`, and the 4-float slots of
different cells do not overlap. -/
theorem omp_cells_eq_serial (Nr Nphi : Nat) (h : Nr * Nphi * 4 < 2147483648) :
    ompCells Nr Nphi = serialCells Nr Nphi ∧
    (∀ ir ip, ir < Nr → ip < Nphi →
      cellNum Nphi ir ip = ir * Nphi + ip ∧ ir * Nphi + ip < Nr * Nphi ∧
      (ir * Nphi + ip) / Nphi = ir ∧ (ir * Nphi + ip) % Nphi = ip) ∧
    (∀ n, n < Nr * Nphi →
      n / Nphi < Nr ∧ n % Nphi < Nphi ∧ cellNum Nphi (n / Nphi) (n % Nphi) = n) ∧
    (∀ n k, n < Nr * Nphi → k < 4 →
      slotIndex n k = 4 * n + k ∧ 4 * n + k < Nr * Nphi * 4) ∧
    (∀ n n2 k k2, n < Nr * Nphi → n2 < Nr * Nphi → k < 4 → k2 < 4 →
      slotIndex n k = slotIndex n2 k2 → n = n2 ∧ k = k2) := by
  have hslot : ∀ n k, n < Nr * Nphi → k < 4 → slotIndex n k = 4 * n + k := by
    intro n k hn hk
    unfold slotIndex
    rw [Nat.mod_eq_of_lt (by omega)]
  refine ⟨?_, ?_, ?_, ?_, ?_⟩
  · rw [serialCells_eq Nr Nphi (by omega)]
    unfold ompCells
    rw [Nat.mod_eq_of_lt (by omega)]
    exact range_rowMajor Nr Nphi
  · intro ir ip hir hip
    have hlt := cell_lt Nr Nphi ir ip hir hip
    have hpos : 0 < Nphi := by omega
    refine ⟨?_, hlt, ?_, ?_⟩
    · unfold cellNum
      rw [Nat.mod_eq_of_lt (by omega)]
    · rw [Nat.add_comm, Nat.add_mul_div_right _ _ hpos, Nat.div_eq_of_lt hip, Nat.zero_add]
    · rw [Nat.add_comm, Nat.add_mul_mod_self_right, Nat.mod_eq_of_lt hip]
  · intro n hn
    have hpos : 0 < Nphi := by
      rcases Nat.eq_zero_or_pos Nphi with h0 | h0
      · rw [h0] at hn; simp at hn
      · exact h0
    refine ⟨?_, Nat.mod_lt _ hpos, ?_⟩
    · rw [Nat.div_lt_iff_lt_mul hpos]
      exact hn
    · unfold cellNum
      rw [Nat.div_add_mod' n Nphi, Nat.mod_eq_of_lt (by omega)]
  · intro n k hn hk
    exact ⟨hslot n k hn hk, by omega⟩
  · intro n n2 k k2 hn hn2 hk hk2 he
    rw [hslot n k hn hk, hslot n2 k2 hn2 hk2] at he
    omega

/-- The two loops visit the same cells on a 2 x 3 grid. -/
theorem omp_cells_eq_serial_witness :
    ompCells 2 3 = serialCells 2 3 :=
  (omp_cells_eq_serial 2 3 (by norm_num)).1

/-- C27 (as stated, false): for `Nr = Nphi = 65536` the bound `Nr * Nphi` of the
OpenMP loop wraps to 0 and the loop visits no cell, while the serial loops visit
cell `(0, 0)`. -/
theorem omp_loop_skips_wrapped_grid :
    ompCells 65536 65536 = [] ∧ (0, 0, 0) ∈ serialCells 65536 65536 := by
  constructor
  · simp [ompCells]
  · unfold serialCells
    rw [List.mem_map]
    exact ⟨(0, 0), (mem_cellList _ _ _).mpr ⟨by norm_num, by norm_num⟩, by simp [cellNum]⟩

/-! ## C28: the cost of the search -/

section
variable {K : Type} [LinearOrderedField K]

/-- C28. For every input, oracle and sequence of draws the outer loop of
`findGeodesic` makes at most 200 passes, each pass makes at most 3000 integrator
calls, at most `2 + 200 * 3000` geodesics are integrated, and the reported `cnt`
is at most 200. -/
theorem findGeodesic_bounded (m : Libm K) (integ : Vec K → Vec K → IntegrateOut K)
    (draws : Nat → K) (junk : Uninit K) (order : Int) (rInit rFinal phiFinal : K) (rng : Nat) :
    (findGeodesicCost m integ draws junk order rInit rFinal phiFinal rng).1 ≤ 200 ∧
    (∀ s : Search K, searchTrialCalls (calcGeodesicUpTo m integ rInit · rFinal phiFinal) draws
      (calcFlatKsi m rInit rFinal phiFinal) s ≤ 3000) ∧
    (findGeodesicCost m integ draws junk order rInit rFinal phiFinal rng).2
      ≤ 2 + 200 * 3000 ∧
    (findGeodesic m integ draws junk order rInit rFinal phiFinal rng).cnt ≤ 200 := by
  have hc := searchCost_le (calcGeodesicUpTo m integ rInit · rFinal phiFinal) draws
    (calcFlatKsi m rInit rFinal phiFinal) _
    (findGeodesicStart m integ junk order rInit rFinal phiFinal rng) rfl
  have h0 : (findGeodesicStart m integ junk order rInit rFinal phiFinal rng).count = 0 := rfl
  rw [h0] at hc
  refine ⟨hc.1, fun s => searchTrialCalls_le _ draws _ s, ?_, ?_⟩
  · have := hc.2
    unfold findGeodesicCost
    simp only [MaxTries, MaxRandomTries] at this ⊢
    omega
  · have := searchLoop_count_le (calcGeodesicUpTo m integ rInit · rFinal phiFinal) draws
      (calcFlatKsi m rInit rFinal phiFinal) _
      (findGeodesicStart m integ junk order rInit rFinal phiFinal rng) rfl
      (by rw [h0]; exact Nat.zero_le _)
    exact this

end

/-! ## C29: the trial angles of the search -/

section
variable {K : Type} [LinearOrderedField K]

/-- C29 (amended). With draws in `[0, 1]`: the start bracket is `[0, PI]` for order
0 and `[PI / 2, PI - ksiCrit(rInit)]` otherwise; in a pass that starts with both
endpoints between `lo` and `hi`, the first angle integrated is the flat-space
seed in the first pass and the midpoint afterwards, every other angle is between
`lo` and `hi`, and the updated endpoints are between `lo` and `hi` when the seed
is invalid or between them; then, when the loop runs at least once, the final
endpoints and the returned `ksi` are between `lo` and `hi`. -/
theorem findGeodesic_trials_in_bracket (m : Libm K) (integ : Vec K → Vec K → IntegrateOut K)
    (draws : Nat → K) (junk : Uninit K) (order : Int) (rInit rFinal phiFinal : K) (rng : Nat)
    (lo hi : K) (hdraws : ∀ n, 0 ≤ draws n ∧ draws n ≤ 1) :
    ((findGeodesicStart m integ junk order rInit rFinal phiFinal rng).ksiA
        = (if order = 0 then 0 else PI / 2) ∧
      (findGeodesicStart m integ junk order rInit rFinal phiFinal rng).ksiB
        = (if order = 0 then PI else PI - schwarzschild_ksiCrit m rInit)) ∧
    (∀ s : Search K, (lo ≤ s.ksiA ∧ s.ksiA ≤ hi) → (lo ≤ s.ksiB ∧ s.ksiB ≤ hi) →
      (searchTrialAngles (calcGeodesicUpTo m integ rInit · rFinal phiFinal) draws
          (calcFlatKsi m rInit rFinal phiFinal) s).head?
        = some (if s.count = 0 then calcFlatKsi m rInit rFinal phiFinal
            else (s.ksiA + s.ksiB) * (1 / 2)) ∧
      (∀ a ∈ (searchTrialAngles (calcGeodesicUpTo m integ rInit · rFinal phiFinal) draws
          (calcFlatKsi m rInit rFinal phiFinal) s).tail, lo ≤ a ∧ a ≤ hi) ∧
      (s.count ≠ 0 →
        ∀ a ∈ searchTrialAngles (calcGeodesicUpTo m integ rInit · rFinal phiFinal) draws
          (calcFlatKsi m rInit rFinal phiFinal) s, lo ≤ a ∧ a ≤ hi) ∧
      ((s.count = 0 →
          (calcGeodesicUpTo m integ rInit (calcFlatKsi m rInit rFinal phiFinal) rFinal phiFinal
            s.uC).valid = false ∨
          (lo ≤ calcFlatKsi m rInit rFinal phiFinal ∧
            calcFlatKsi m rInit rFinal phiFinal ≤ hi)) →
        (lo ≤ (bracketUpdate s (searchTrial (calcGeodesicUpTo m integ rInit · rFinal phiFinal)
            draws (calcFlatKsi m rInit rFinal phiFinal) s)).ksiA ∧
          (bracketUpdate s (searchTrial (calcGeodesicUpTo m integ rInit · rFinal phiFinal)
            draws (calcFlatKsi m rInit rFinal phiFinal) s)).ksiA ≤ hi) ∧
        (lo ≤ (bracketUpdate s (searchTrial (calcGeodesicUpTo m integ rInit · rFinal phiFinal)
            draws (calcFlatKsi m rInit rFinal phiFinal) s)).ksiB ∧
          (bracketUpdate s (searchTrial (calcGeodesicUpTo m integ rInit · rFinal phiFinal)
            draws (calcFlatKsi m rInit rFinal phiFinal) s)).ksiB ≤ hi))) ∧
    ((lo ≤ (findGeodesicStart m integ junk order rInit rFinal phiFinal rng).ksiA ∧
        (findGeodesicStart m integ junk order rInit rFinal phiFinal rng).ksiA ≤ hi) →
      (lo ≤ (findGeodesicStart m integ junk order rInit rFinal phiFinal rng).ksiB ∧
        (findGeodesicStart m integ junk order rInit rFinal phiFinal rng).ksiB ≤ hi) →
      ((calcGeodesicUpTo m integ rInit (calcFlatKsi m rInit rFinal phiFinal) rFinal phiFinal
          junk.uC).valid = false ∨
        (lo ≤ calcFlatKsi m rInit rFinal phiFinal ∧
          calcFlatKsi m rInit rFinal phiFinal ≤ hi)) →
      (|(findGeodesicStart m integ junk order rInit rFinal phiFinal rng).drA
          - (findGeodesicStart m integ junk order rInit rFinal phiFinal rng).drB|
          > HitRadiusSphere ∧
        |(findGeodesicStart m integ junk order rInit rFinal phiFinal rng).ksiA
          - (findGeodesicStart m integ junk order rInit rFinal phiFinal rng).ksiB| > ksi_eps ∧
        (findGeodesicStart m integ junk order rInit rFinal phiFinal rng).count < MaxTries) →
      (lo ≤ (findGeodesicTrace m integ draws junk order rInit rFinal phiFinal rng).2.ksiA ∧
        (findGeodesicTrace m integ draws junk order rInit rFinal phiFinal rng).2.ksiA ≤ hi) ∧
      (lo ≤ (findGeodesicTrace m integ draws junk order rInit rFinal phiFinal rng).2.ksiB ∧
        (findGeodesicTrace m integ draws junk order rInit rFinal phiFinal rng).2.ksiB ≤ hi) ∧
      (lo ≤ (findGeodesic m integ draws junk order rInit rFinal phiFinal rng).ksi ∧
        (findGeodesic m integ draws junk order rInit rFinal phiFinal rng).ksi ≤ hi)) := by
  refine ⟨⟨rfl, rfl⟩, fun s hA hB => ?_, fun hA hB hseed hcond => ?_⟩
  · obtain ⟨h2, h3⟩ := searchTrialAngles_spec
      (calcGeodesicUpTo m integ rInit · rFinal phiFinal) draws
      (calcFlatKsi m rInit rFinal phiFinal) lo hi hdraws s hA hB
    refine ⟨searchTrialAngles_head _ draws _ s, h2, h3, fun hseed => ?_⟩
    have htr := searchTrial_ksiC_mem (calcGeodesicUpTo m integ rInit · rFinal phiFinal) draws
      (calcFlatKsi m rInit rFinal phiFinal) lo hi hdraws s hA hB hseed
    obtain ⟨uA, uB, -⟩ := bracketUpdate_mem s _ lo hi hA hB htr
    exact ⟨uA, uB⟩
  · have hmem := searchLoop_mem (calcGeodesicUpTo m integ rInit · rFinal phiFinal) draws
      (calcFlatKsi m rInit rFinal phiFinal) lo hi hdraws _
      (findGeodesicStart m integ junk order rInit rFinal phiFinal rng) rfl hA hB
      (fun _ => hseed) (Or.inl hcond)
    have e : (findGeodesicTrace m integ draws junk order rInit rFinal phiFinal rng).2
        = searchLoop (calcGeodesicUpTo m integ rInit · rFinal phiFinal) draws
          (calcFlatKsi m rInit rFinal phiFinal)
          (findGeodesicStart m integ junk order rInit rFinal phiFinal rng) :=
      searchTrace_snd _ _ _ _ _ rfl
    rw [findGeodesic_eq_trace, e]
    exact hmem

end

/-- An order-0 search in which no geodesic crosses the target azimuth returns an
angle in `[0, PI]`. -/
theorem findGeodesic_trials_in_bracket_witness :
    (∀ n : Nat, (0 : ℚ) ≤ (fun _ => 1 / 2 : Nat → ℚ) n ∧ (fun _ => 1 / 2 : Nat → ℚ) n ≤ 1) ∧
    (0 ≤ (findGeodesic (sampleLibm : Libm ℚ) noCrossing (fun _ => 1 / 2) sampleJunk 0 40 10 1
        0).ksi ∧
      (findGeodesic (sampleLibm : Libm ℚ) noCrossing (fun _ => 1 / 2) sampleJunk 0 40 10 1
        0).ksi ≤ PI) :=
  have hd : ∀ n : Nat, (0 : ℚ) ≤ (fun _ => 1 / 2 : Nat → ℚ) n ∧
      (fun _ => 1 / 2 : Nat → ℚ) n ≤ 1 := fun _ => ⟨by norm_num, by norm_num⟩
  have hk := findGeodesicStart_ksi (sampleLibm : Libm ℚ) noCrossing sampleJunk 0 40 10 1 0
  ⟨hd, ((findGeodesic_trials_in_bracket (sampleLibm : Libm ℚ) noCrossing (fun _ => 1 / 2)
    sampleJunk 0 40 10 1 0 0 PI hd).2.2
      (by rw [hk.1]; norm_num [PI])
      (by rw [hk.2.1]; norm_num [PI])
      (Or.inl (congrArg GeoOut.valid (calcGeodesicUpTo_invalid (sampleLibm : Libm ℚ) 40
        (calcFlatKsi sampleLibm 40 10 1) 10 1 sampleJunk.uC)))
      (findGeodesicStart_noCrossing_cond (sampleLibm : Libm ℚ) sampleJunk 40 10 1 0)).2.2⟩

/-- C29 (as stated, false): over the real numbers, for order 1, `rInit = 40`,
`rFinal = 10`, `phiFinal = 4` the flat-space seed is below both ends of the
start bracket, and it is the first angle the search integrates; the loop
condition holds at the start. -/
theorem findGeodesic_seed_below_bracket :
    calcFlatKsi (⟨Real.sqrt, Real.sin, Real.cos, Real.arcsin, fun x y => x ^ y⟩ : Libm ℝ) 40 10 4
      < (findGeodesicStart
          (⟨Real.sqrt, Real.sin, Real.cos, Real.arcsin, fun x y => x ^ y⟩ : Libm ℝ)
          noCrossing sampleJunk 1 40 10 4 0).ksiA ∧
    calcFlatKsi (⟨Real.sqrt, Real.sin, Real.cos, Real.arcsin, fun x y => x ^ y⟩ : Libm ℝ) 40 10 4
      < (findGeodesicStart
          (⟨Real.sqrt, Real.sin, Real.cos, Real.arcsin, fun x y => x ^ y⟩ : Libm ℝ)
          noCrossing sampleJunk 1 40 10 4 0).ksiB ∧
    (searchTrialAngles
        (calcGeodesicUpTo
          (⟨Real.sqrt, Real.sin, Real.cos, Real.arcsin, fun x y => x ^ y⟩ : Libm ℝ)
          noCrossing 40 · 10 4)
        (fun _ => 1 / 2)
        (calcFlatKsi (⟨Real.sqrt, Real.sin, Real.cos, Real.arcsin, fun x y => x ^ y⟩ : Libm ℝ)
          40 10 4)
        (findGeodesicStart
          (⟨Real.sqrt, Real.sin, Real.cos, Real.arcsin, fun x y => x ^ y⟩ : Libm ℝ)
          noCrossing sampleJunk 1 40 10 4 0)).head?
      = some (calcFlatKsi
          (⟨Real.sqrt, Real.sin, Real.cos, Real.arcsin, fun x y => x ^ y⟩ : Libm ℝ) 40 10 4) ∧
    (|(findGeodesicStart
          (⟨Real.sqrt, Real.sin, Real.cos, Real.arcsin, fun x y => x ^ y⟩ : Libm ℝ)
          noCrossing sampleJunk 1 40 10 4 0).drA
        - (findGeodesicStart
          (⟨Real.sqrt, Real.sin, Real.cos, Real.arcsin, fun x y => x ^ y⟩ : Libm ℝ)
          noCrossing sampleJunk 1 40 10 4 0).drB| > HitRadiusSphere ∧
      |(findGeodesicStart
          (⟨Real.sqrt, Real.sin, Real.cos, Real.arcsin, fun x y => x ^ y⟩ : Libm ℝ)
          noCrossing sampleJunk 1 40 10 4 0).ksiA
        - (findGeodesicStart
          (⟨Real.sqrt, Real.sin, Real.cos, Real.arcsin, fun x y => x ^ y⟩ : Libm ℝ)
          noCrossing sampleJunk 1 40 10 4 0).ksiB| > ksi_eps ∧
      (findGeodesicStart
          (⟨Real.sqrt, Real.sin, Real.cos, Real.arcsin, fun x y => x ^ y⟩ : Libm ℝ)
          noCrossing sampleJunk 1 40 10 4 0).count < MaxTries) := by
  have hm : Libm.IsReal ⟨Real.sqrt, Real.sin, Real.cos, Real.arcsin, fun x y => x ^ y⟩ :=
    ⟨rfl, rfl, rfl, rfl, fun _ _ => rfl⟩
  have hseed := calcFlatKsi_neg _ hm 40 10 4 (by norm_num) (by norm_num)
    (by linarith [Real.pi_lt_d2]) (by linarith [Real.pi_gt_three])
  have hB := ksiB_pos _ hm 40
  refine ⟨?_, ?_, ?_, ?_⟩
  · have : (0 : ℝ) < PI / 2 := by norm_num [PI]
    exact lt_trans hseed this
  · exact lt_trans hseed hB
  · exact searchTrialAngles_head _ _ _ _
  · obtain ⟨hA, hB2⟩ := findGeodesicStart_noCrossing
      (⟨Real.sqrt, Real.sin, Real.cos, Real.arcsin, fun x y => x ^ y⟩ : Libm ℝ) sampleJunk 1
      40 10 4 0
    obtain ⟨kA, kB, kc, -⟩ := findGeodesicStart_ksi
      (⟨Real.sqrt, Real.sin, Real.cos, Real.arcsin, fun x y => x ^ y⟩ : Libm ℝ) noCrossing
      sampleJunk 1 40 10 4 0
    rw [hA, hB2, kA, kB, kc]
    have hk := ksiCrit_forty _ hm
    refine ⟨by norm_num [HitRadiusSphere, abs_of_pos], ?_, by norm_num [MaxTries]⟩
    simp only [one_ne_zero, if_false]
    have e : (PI : ℝ) / 2 - (PI - schwarzschild_ksiCrit
        (⟨Real.sqrt, Real.sin, Real.cos, Real.arcsin, fun x y => x ^ y⟩ : Libm ℝ) 40)
        = schwarzschild_ksiCrit
          (⟨Real.sqrt, Real.sin, Real.cos, Real.arcsin, fun x y => x ^ y⟩ : Libm ℝ) 40
          - PI / 2 := by ring
    rw [e, abs_of_neg (by norm_num [PI] at hk ⊢; linarith)]
    norm_num [PI, ksi_eps] at hk ⊢
    linarith

end GRPolyRen
